import Mathlib

/-! # ctest: registry, suite index, failure capture and driver

A shallow embedding of `ctest.h` and a verification of its specification.

Conventions of the embedding.

* A C string is the list of the bytes stored at its address (values `0..255`);
  the byte read one past the stored list is the terminating NUL, and a stored
  `0` also terminates the string, as it does in memory.
* Static records (`struct ctest`, `struct ctest_impl_suite`) live at addresses,
  which are natural numbers; memory is a map from addresses to records.  The
  intrusive links (`list.next`, `list.prev`) are stored as locations, so the
  list and hash-table code manipulates the same pointer structure as the C code.
* Loops over linked structures take a fuel argument: the C loop runs until the
  link returns to the head, and `none` is the result of a run that does not get
  there within the fuel (or that dereferences a pointer that is no record).
* `unsigned int` is 32 bits, `size_t` is 64 bits, `int` is 32 bits two's
  complement.
* A function called under `setjmp(ctest_err)` yields how it gives control back
  (`Outcome`) and the state it leaves; `longjmp(ctest_err, 1)` goes to the
  `setjmp` of the iteration in progress, the only one active.
* A buffer read through a pointer (`exp[i]`) is a map from indices to bytes; a
  wide string is the list of its wide-character values.
-/

set_option maxRecDepth 100000

namespace Ctest

/-! ## C strings -/

/-- The read `s[i]` for a C string: the stored byte, or the terminating NUL one past the end. -/
def char_at (s : List Nat) (i : Nat) : Nat := s.getD i 0

/-- The function `strlen`: the number of bytes before the first NUL. -/
def strlen : List Nat → Nat
  | [] => 0
  | c :: cs => if c = 0 then 0 else strlen cs + 1

/-- The function `strcmp`: compares byte by byte (as `unsigned char`) up to the first
difference or the terminating NUL. -/
def strcmp : List Nat → List Nat → Int
  | [], [] => 0
  | [], b :: _ => -(b : Int)
  | a :: _, [] => (a : Int)
  | a :: as, b :: bs =>
    if a ≠ b then (a : Int) - (b : Int)
    else if a = 0 then 0
    else strcmp as bs

/-- The function `strncmp`: as `strcmp`, comparing at most `n` bytes. -/
def strncmp : List Nat → List Nat → Nat → Int
  | _, _, 0 => 0
  | a, b, n + 1 =>
    if a.headD 0 ≠ b.headD 0 then (a.headD 0 : Int) - (b.headD 0 : Int)
    else if a.headD 0 = 0 then 0
    else strncmp a.tail b.tail n

/-- The string a byte list denotes: its bytes up to the first NUL. -/
def cstr (s : List Nat) : List Nat := s.takeWhile (fun c => decide (c ≠ 0))

/-! ## FNV-1a hash -/

/-- The conversion `(unsigned int)` of a `char` holding the byte `c`: where `char` is a
signed type, bytes `0x80..0xff` are negative and convert to `2^32 - 256 + c`. -/
def char_to_uint (char_signed : Bool) (c : Nat) : Nat :=
  if char_signed && decide (128 ≤ c % 256) then c % 256 + (2 ^ 32 - 256) else c % 256

/-- The function `ctest_impl_fnv1a32(s, size)`:
`((size ? ctest_impl_fnv1a32(s, size - 1) : 2166136261) ^ (unsigned int) s[size]) * 16777619`
in 32-bit unsigned arithmetic. -/
def ctest_impl_fnv1a32 (char_signed : Bool) (s : List Nat) : Nat → Nat
  | 0 => ((2166136261 ^^^ char_to_uint char_signed (char_at s 0)) * 16777619) % 2 ^ 32
  | size + 1 =>
    ((ctest_impl_fnv1a32 char_signed s size ^^^ char_to_uint char_signed (char_at s (size + 1)))
      * 16777619) % 2 ^ 32

/-- The function `ctest_impl_hash_suite(sname)`. -/
def ctest_impl_hash_suite (char_signed : Bool) (sname : List Nat) : Nat :=
  ctest_impl_fnv1a32 char_signed sname (strlen sname)

/-! ## The intrusive doubly linked list of tests -/

/-- The address of a `struct ctest_impl_list_head`: the global `ctest_impl_test_list`,
or the `list` member of the test record at address `a`. -/
inductive list_loc where
  | head : list_loc
  | entry (a : Nat) : list_loc
  deriving DecidableEq, Repr

/-- The record `struct ctest_impl_list_head`. -/
structure ctest_impl_list_head where
  next : list_loc
  prev : list_loc
  deriving DecidableEq, Repr

/-- The record `struct ctest`.  `run` is the address of the test function, `data` the
fixture-data pointer (`none` is `NULL`). -/
structure ctest where
  ssname : List Nat
  ttname : List Nat
  run : Nat
  data : Option Nat
  list : ctest_impl_list_head
  skip : Int
  deriving DecidableEq, Repr

/-- The memory the test registry lives in: the global list head and the test records. -/
structure TestMem where
  ctest_impl_test_list : ctest_impl_list_head
  tests : Nat → ctest

/-- The macro `CTEST_IMPL_LIST_HEAD_INIT(ctest_impl_test_list)`: the empty list. -/
def TestMem.init (tests : Nat → ctest) : TestMem :=
  { ctest_impl_test_list := { next := list_loc.head, prev := list_loc.head }, tests := tests }

/-- The value of `p->next`. -/
def TestMem.next (m : TestMem) : list_loc → list_loc
  | list_loc.head => m.ctest_impl_test_list.next
  | list_loc.entry a => (m.tests a).list.next

/-- The value of `p->prev`. -/
def TestMem.prev (m : TestMem) : list_loc → list_loc
  | list_loc.head => m.ctest_impl_test_list.prev
  | list_loc.entry a => (m.tests a).list.prev

/-- The assignment `p->next = v`. -/
def TestMem.set_next (m : TestMem) (p v : list_loc) : TestMem :=
  match p with
  | list_loc.head => { m with ctest_impl_test_list := { m.ctest_impl_test_list with next := v } }
  | list_loc.entry a =>
    let t := m.tests a
    { m with tests := Function.update m.tests a { t with list := { t.list with next := v } } }

/-- The assignment `p->prev = v`. -/
def TestMem.set_prev (m : TestMem) (p v : list_loc) : TestMem :=
  match p with
  | list_loc.head => { m with ctest_impl_test_list := { m.ctest_impl_test_list with prev := v } }
  | list_loc.entry a =>
    let t := m.tests a
    { m with tests := Function.update m.tests a { t with list := { t.list with prev := v } } }

/-- The function `ctest_impl_list_add_between(prev, curr, next)`. -/
def ctest_impl_list_add_between (prev curr next : list_loc) (m : TestMem) : TestMem :=
  let m1 := m.set_next prev curr
  let m2 := m1.set_prev curr prev
  let m3 := m2.set_next curr next
  m3.set_prev next curr

/-- The function `ctest_impl_list_add_tail(node, head)`. -/
def ctest_impl_list_add_tail (node hd : list_loc) (m : TestMem) : TestMem :=
  ctest_impl_list_add_between (m.prev hd) node hd m

/-- The constructor generated by `CTEST_IMPL_STRUCT` for the test record at address `a`:
`ctest_impl_list_add_tail(&test.list, &ctest_impl_test_list)`. -/
def register_test (m : TestMem) (a : Nat) : TestMem :=
  ctest_impl_list_add_tail (list_loc.entry a) list_loc.head m

/-- The macro `ctest_impl_list_entry(p, struct ctest, list)`: the record whose `list` member is at
`p`; the global head is the member of no record. -/
def list_loc.to_entry : list_loc → Option Nat
  | list_loc.head => none
  | list_loc.entry a => some a

/-- The loop `ctest_impl_list_for_each_entry(iter, head, type, member) body`, from the
current link `cur` on.  `next` reads a link, `entry` is `ctest_impl_list_entry`; the body
either continues with a new state (`Sum.inl`) or returns from the enclosing function
(`Sum.inr`). -/
def ctest_impl_list_for_each_entry {P S R : Type} [DecidableEq P]
    (next : P → Option P) (entry : P → Option Nat) (head : P)
    (body : Nat → S → Option (S ⊕ R)) : Nat → P → S → Option (S ⊕ R)
  | 0, _, _ => none
  | fuel + 1, cur, s =>
    if cur = head then some (Sum.inl s)
    else
      match entry cur with
      | none => none
      | some a =>
        match body a s with
        | none => none
        | some (Sum.inr r) => some (Sum.inr r)
        | some (Sum.inl s1) =>
          match next cur with
          | none => none
          | some nx => ctest_impl_list_for_each_entry next entry head body fuel nx s1

/-! ## The suite hash table -/

/-- The address of a `struct ctest_impl_slist_head`: bucket `i` of the table, or the
`list` member of the suite record at address `a`. -/
inductive slist_loc where
  | head (i : Nat) : slist_loc
  | entry (a : Nat) : slist_loc
  deriving DecidableEq, Repr

/-- The record `struct ctest_impl_suite`; `list` is `list.next` (`none` is `NULL`),
`setup` and `teardown` are function addresses (`none` is `NULL`). -/
structure ctest_impl_suite where
  name : List Nat
  setup : Option Nat
  teardown : Option Nat
  list : Option slist_loc
  deriving DecidableEq, Repr

/-- The memory the suite index lives in: `ctest_impl_suite_hashtable[i].next` for each
bucket, and the suite records. -/
structure SuiteMem where
  ctest_impl_suite_hashtable : Nat → Option slist_loc
  suites : Nat → ctest_impl_suite

/-- The number of buckets, `CTEST_IMPL_ARRAY_SIZE(ctest_impl_suite_hashtable)`. -/
def HASH_SIZE : Nat := 1024

/-- The value of `p->next`. -/
def SuiteMem.next (m : SuiteMem) : slist_loc → Option slist_loc
  | slist_loc.head i => m.ctest_impl_suite_hashtable i
  | slist_loc.entry a => (m.suites a).list

/-- The assignment `p->next = v`. -/
def SuiteMem.set_next (m : SuiteMem) (p : slist_loc) (v : Option slist_loc) : SuiteMem :=
  match p with
  | slist_loc.head i =>
    { m with ctest_impl_suite_hashtable := Function.update m.ctest_impl_suite_hashtable i v }
  | slist_loc.entry a =>
    let s := m.suites a
    { m with suites := Function.update m.suites a { s with list := v } }

/-- The function `ctest_impl_slist_add(node, head)`. -/
def ctest_impl_slist_add (node head : slist_loc) (m : SuiteMem) : SuiteMem :=
  let m1 := m.set_next node (m.next head)
  m1.set_next head (some node)

/-- The loop of `ctest_impl_hash_init_helper`, from index `i` on, `n` iterations left:
`heads[i] = CTEST_IMPL_SLIST_HEAD_INIT(heads[i])`. -/
def hash_init_loop (heads : Nat → Option slist_loc) (i : Nat) : Nat → (Nat → Option slist_loc)
  | 0 => heads
  | n + 1 => hash_init_loop (Function.update heads i (some (slist_loc.head i))) (i + 1) n

/-- The function `ctest_impl_hash_init_helper(heads, size)`. -/
def ctest_impl_hash_init_helper (heads : Nat → Option slist_loc) (size : Nat) :
    Nat → Option slist_loc :=
  hash_init_loop heads 0 size

/-- The function `ctest_impl_hash_init_once_helper(heads, size)`. -/
def ctest_impl_hash_init_once_helper (heads : Nat → Option slist_loc) (size : Nat) :
    Nat → Option slist_loc :=
  if heads 0 = none then ctest_impl_hash_init_helper heads size else heads

/-- The macro `ctest_impl_hash_init_once(ctest_impl_suite_hashtable)`. -/
def ctest_impl_hash_init_once (m : SuiteMem) : SuiteMem :=
  { m with ctest_impl_suite_hashtable :=
      ctest_impl_hash_init_once_helper m.ctest_impl_suite_hashtable HASH_SIZE }

/-- The function `ctest_impl_slist_add_helper(heads, size, node, key)`. -/
def ctest_impl_slist_add_helper (size : Nat) (node : slist_loc) (key : Nat) (m : SuiteMem) :
    SuiteMem :=
  ctest_impl_slist_add node (slist_loc.head (key % size)) m

/-- The macro `ctest_impl_list_entry(p, struct ctest_impl_suite, list)`: a bucket head is the
member of no suite record. -/
def slist_loc.to_entry : slist_loc → Option Nat
  | slist_loc.head _ => none
  | slist_loc.entry a => some a

/-- The function `ctest_impl_find_suite(sname)`: `some none` is the result `NULL`. -/
def ctest_impl_find_suite (char_signed : Bool) (fuel : Nat) (m : SuiteMem) (sname : List Nat) :
    Option (Option Nat) :=
  let key := ctest_impl_hash_suite char_signed sname
  let head := slist_loc.head (key % HASH_SIZE)
  match m.next head with
  | none => none
  | some first =>
    match ctest_impl_list_for_each_entry m.next slist_loc.to_entry head
        (fun iter (_ : Unit) =>
          if strcmp (m.suites iter).name sname = 0 then some (Sum.inr iter)
          else some (Sum.inl ()))
        fuel first () with
    | none => none
    | some (Sum.inr iter) => some (some iter)
    | some (Sum.inl _) => some none

/-- The function `ctest_impl_add_suite(suite)`, for the suite record at address `suite`. -/
def ctest_impl_add_suite (char_signed : Bool) (m : SuiteMem) (suite : Nat) : SuiteMem :=
  ctest_impl_slist_add_helper HASH_SIZE (slist_loc.entry suite)
    (ctest_impl_hash_suite char_signed (m.suites suite).name) m

/-- The function `ctest_impl_emplace_suite(suite)`: the memory after the call and the address returned. -/
def ctest_impl_emplace_suite (char_signed : Bool) (fuel : Nat) (m : SuiteMem) (suite : Nat) :
    Option (SuiteMem × Nat) :=
  match ctest_impl_find_suite char_signed fuel m (m.suites suite).name with
  | none => none
  | some (some found) => some (m, found)
  | some none => some (ctest_impl_add_suite char_signed m suite, suite)

/-- The member of `struct ctest_impl_suite` a fixture registration assigns. -/
inductive fixture_member where
  | setup
  | teardown
  deriving DecidableEq, Repr

/-- The assignment `emplaced->member = fn`. -/
def SuiteMem.set_member (m : SuiteMem) (emplaced : Nat) (member : fixture_member) (fn : Nat) :
    SuiteMem :=
  let s := m.suites emplaced
  match member with
  | fixture_member.setup =>
    { m with suites := Function.update m.suites emplaced { s with setup := some fn } }
  | fixture_member.teardown =>
    { m with suites := Function.update m.suites emplaced { s with teardown := some fn } }

/-- The static record `suite = { #sname, NULL, NULL, CTEST_IMPL_SLIST_HEAD_INIT(suite.list) }`
of a fixture registration, at address `suite`. -/
def SuiteMem.with_candidate (m : SuiteMem) (sname : List Nat) (suite : Nat) : SuiteMem :=
  let candidate : ctest_impl_suite :=
    { name := sname, setup := none, teardown := none, list := some (slist_loc.entry suite) }
  { m with suites := Function.update m.suites suite candidate }

/-- The constructor generated by `CTEST_IMPL_FIXTURE(sname, member, FNAME, CNAME)`.  Its
static candidate record lives at address `suite` and is initialised to
`{ #sname, NULL, NULL, { &suite.list } }`; the hook function is at address `fn`. -/
def CTEST_IMPL_FIXTURE (char_signed : Bool) (fuel : Nat) (sname : List Nat)
    (member : fixture_member) (fn : Nat) (suite : Nat) (m : SuiteMem) : Option SuiteMem :=
  let m1 := ctest_impl_hash_init_once m
  let m2 := m1.with_candidate sname suite
  match ctest_impl_emplace_suite char_signed fuel m2 suite with
  | none => none
  | some (m3, emplaced) => some (m3.set_member emplaced member fn)

/-! ## The diagnostic scratch buffer -/

/-- The macro `MSG_SIZE`. -/
def MSG_SIZE : Nat := 4096

/-- The scratch-buffer variables.  `ctest_errormsg` is kept as its offset from
`&ctest_errorbuffer[0]`; `ctest_errorbuffer` is the memory from that address on, so the
offsets `MSG_SIZE` and above lie beyond the array, where the program keeps other objects
(the array is one static variable among the counters, `ctest_err` and the rest).
`written_end` is a ghost field: one past the highest offset a write through
`ctest_errormsg` has reached so far.  A store at an offset of `MSG_SIZE` or above is
undefined behaviour: the map records where it went, and the driver loop (`run_body`) has
no result once `written_end` exceeds `MSG_SIZE`. -/
structure ErrState where
  ctest_errorsize : Nat
  ctest_errormsg : Nat
  ctest_errorbuffer : Nat → Nat
  written_end : Nat

/-- Storing the bytes `bytes` at offset `dst`. -/
def store_bytes (mem : Nat → Nat) (dst : Nat) (bytes : List Nat) : Nat → Nat :=
  fun i => if dst ≤ i ∧ i < dst + bytes.length then bytes.getD (i - dst) 0 else mem i

/-- The value `vsnprintf` returns for the formatted text `out` (`none` is a conversion
error): the length the full text has, or a negative value on error or when the length
does not fit an `int`. -/
def vsnprintf_ret (out : Option (List Nat)) : Int :=
  match out with
  | none => -1
  | some text => if text.length < 2 ^ 31 then (text.length : Int) else -1

/-- The bytes `vsnprintf(dst, n, ...)` stores at `dst`: nothing when `n` is zero or on
error, else the first `n - 1` bytes of the text followed by a NUL. -/
def vsnprintf_stored (n : Nat) (out : Option (List Nat)) : List Nat :=
  match out with
  | none => []
  | some text =>
    if n = 0 ∨ ¬ text.length < 2 ^ 31 then [] else text.take (n - 1) ++ [0]

/-- A store of `bytes` through the pointer at offset `dst`, with the ghost field updated. -/
def ErrState.store (e : ErrState) (dst : Nat) (bytes : List Nat) : ErrState :=
  { e with
    ctest_errorbuffer := store_bytes e.ctest_errorbuffer dst bytes
    written_end := if bytes = [] then e.written_end else max e.written_end (dst + bytes.length) }

/-- The function `vprint_errormsg(fmt, ap)`, where `out` is the text `fmt` and `ap` format to. -/
def vprint_errormsg (e : ErrState) (out : Option (List Nat)) : ErrState :=
  let ret := vsnprintf_ret out
  let e1 := e.store e.ctest_errormsg (vsnprintf_stored e.ctest_errorsize out)
  if ret < 0 then
    e1.store e1.ctest_errormsg [0]
  else
    let size := ret.toNat
    let s := if e1.ctest_errorsize ≤ size then size - e1.ctest_errorsize else size
    { e1 with
      ctest_errorsize := (e1.ctest_errorsize + 2 ^ 64 - s) % 2 ^ 64
      ctest_errormsg := e1.ctest_errormsg + s }

/-- The function `print_errormsg(fmt, ...)`. -/
def print_errormsg (e : ErrState) (out : Option (List Nat)) : ErrState :=
  vprint_errormsg e out

/-- The macro `ANSI_BLUE`, the bytes of `"\033[0;34m"`. -/
def ANSI_BLUE : List Nat := [27, 91, 48, 59, 51, 52, 109]

/-- The macro `ANSI_YELLOW`, the bytes of `"\033[0;33m"`. -/
def ANSI_YELLOW : List Nat := [27, 91, 48, 59, 51, 51, 109]

/-- The macro `ANSI_NORMAL`, the bytes of `"\033[0m"`. -/
def ANSI_NORMAL : List Nat := [27, 91, 48, 109]

/-- The function `msg_start(color, title)`: the formats are `"%s"` and `"  %s: "`. -/
def msg_start (color_output : Int) (color title : List Nat) (e : ErrState) : ErrState :=
  let e1 := if color_output ≠ 0 then print_errormsg e (some (cstr color)) else e
  print_errormsg e1 (some ([32, 32] ++ cstr title ++ [58, 32]))

/-- The function `msg_end()`. -/
def msg_end (color_output : Int) (e : ErrState) : ErrState :=
  let e1 := if color_output ≠ 0 then print_errormsg e (some ANSI_NORMAL) else e
  print_errormsg e1 (some [10])

/-- The writes of `CTEST_LOG(fmt, ...)`, whose arguments format to `out`. -/
def CTEST_LOG (color_output : Int) (out : Option (List Nat)) (e : ErrState) : ErrState :=
  let e1 := msg_start color_output ANSI_BLUE [76, 79, 71] e
  let e2 := vprint_errormsg e1 out
  msg_end color_output e2

/-- The writes of `CTEST_ERR(fmt, ...)` before its `longjmp(ctest_err, 1)`. -/
def CTEST_ERR (color_output : Int) (out : Option (List Nat)) (e : ErrState) : ErrState :=
  let e1 := msg_start color_output ANSI_YELLOW [69, 82, 82] e
  let e2 := vprint_errormsg e1 out
  msg_end color_output e2

/-! ## Test functions and hooks -/

/-- How a call made under `setjmp(ctest_err)` gives control back to the driver: by
returning, or by the `longjmp(ctest_err, 1)` of `CTEST_ERR`. -/
inductive Outcome where
  | returned
  | longjmp
  deriving DecidableEq, Repr

/-- The state a test function or hook acts on: the state `user` of the program under
test, the scratch-buffer variables, and `color_output`. -/
structure World (σ : Type) where
  user : σ
  err : ErrState
  color_output : Int

/-- The behaviour of a function called by the driver (a test function, a setup or a
teardown hook), given the pointer argument it is called with (`none` for a nullary
call or a `NULL` argument). -/
abbrev Stage (σ : Type) := Option Nat → World σ → Outcome × World σ

/-- A statement of a test function or hook: code of the program under test, a call of
`CTEST_LOG`, or an assertion, which calls `CTEST_ERR` when its condition fails
(`CTEST_ERR` itself is the assertion that always fails). -/
inductive Stmt (σ : Type) where
  | user (f : σ → σ)
  | log (out : σ → Option (List Nat))
  | check (fails : σ → Bool) (out : σ → Option (List Nat))

/-- Running the statements of a function body in order.  `CTEST_ERR` does not return:
after its `longjmp` the remaining statements are not run. -/
def exec_stmts {σ : Type} : List (Stmt σ) → World σ → Outcome × World σ
  | [], w => (Outcome.returned, w)
  | Stmt.user f :: rest, w => exec_stmts rest { w with user := f w.user }
  | Stmt.log out :: rest, w =>
    exec_stmts rest { w with err := CTEST_LOG w.color_output (out w.user) w.err }
  | Stmt.check fails out :: rest, w =>
    if fails w.user then
      (Outcome.longjmp, { w with err := CTEST_ERR w.color_output (out w.user) w.err })
    else exec_stmts rest w

/-- The function whose body is the statement list `body arg`. -/
def Stage.of_stmts {σ : Type} (body : Option Nat → List (Stmt σ)) : Stage σ :=
  fun arg w => exec_stmts (body arg) w

/-! ## The driver -/

/-- The value an `int` computation yields in 32-bit two's complement. -/
def int_wrap (x : Int) : Int := (x + 2 ^ 31) % 2 ^ 32 - 2 ^ 31

/-- The values of a `ctest_filter_func`. -/
inductive ctest_filter_func where
  | suite_all
  | suite_filter
  deriving DecidableEq, Repr

/-- The static variables of the driver: the counters, the progress index and the filter
of `ctest_main`, and the file-level `suite_name` (`none` is `NULL`). -/
structure Statics where
  total : Int
  num_ok : Int
  num_fail : Int
  num_skip : Int
  idx : Int
  filter : ctest_filter_func
  suite_name : Option (List Nat)
  deriving DecidableEq, Repr

/-- The initialisers of the static variables: the state at the start of the process. -/
def Statics.initial : Statics :=
  { total := 0, num_ok := 0, num_fail := 0, num_skip := 0, idx := 1,
    filter := ctest_filter_func.suite_all, suite_name := none }

/-- The function `suite_all(t)`. -/
def suite_all (_t : ctest) : Int := 1

/-- The function `suite_filter(t)`; reading through a `NULL` `suite_name` has no result. -/
def suite_filter (suite_name : Option (List Nat)) (t : ctest) : Option Int :=
  match suite_name with
  | none => none
  | some name => some (if strncmp name t.ssname (strlen name) = 0 then 1 else 0)

/-- The call `filter(test)` through the function pointer. -/
def Statics.call_filter (st : Statics) (t : ctest) : Option Int :=
  match st.filter with
  | ctest_filter_func.suite_all => some (suite_all t)
  | ctest_filter_func.suite_filter => suite_filter st.suite_name t

/-- What the driver does that can be observed: the lines it prints and, as ghost events,
the suite lookups and the calls it makes.  `test_header t idx total` is the line
`TEST idx/total ssname:ttname` for the test record at address `t`; `errorbuffer` is the
print of `ctest_errorbuffer`; `results` is the summary line. -/
inductive Event where
  | test_header (t : Nat) (idx total : Int)
  | skipped
  | ok
  | fail
  | errorbuffer
  | results (total num_ok num_fail num_skip : Int)
  | find_suite (sname : List Nat)
  | call_setup (t : Nat) (fn : Nat) (data : Option Nat)
  | call_run (t : Nat) (fn : Nat) (data : Option Nat)
  | call_teardown (t : Nat) (fn : Nat) (data : Option Nat)
  deriving DecidableEq, Repr

/-- The state of a run of the driver.  `ctest_err` is the `jmp_buf` of that name: the
iteration (the address of its test record) whose `setjmp` filled it last, `none` while no
`setjmp` has been executed. -/
structure DriverState (σ : Type) where
  statics : Statics
  world : World σ
  out : List Event
  ctest_err : Option Nat

/-- A call made inside the `setjmp` region: when an earlier call has left by `longjmp`
control is no longer there and nothing is called; `fn = none` is a call the guard
skips. -/
def invoke {σ : Type} (code : Nat → Stage σ) (ev : Nat → Event) (fn : Option Nat)
    (arg : Option Nat) (s : Outcome × World σ × List Event) : Outcome × World σ × List Event :=
  match s with
  | (Outcome.longjmp, w, out) => (Outcome.longjmp, w, out)
  | (Outcome.returned, w, out) =>
    match fn with
    | none => (Outcome.returned, w, out)
    | some f => ((code f arg w).1, (code f arg w).2, out ++ [ev f])

/-- The hook in `member` of the suite found, when the guard
`suite && suite->member && test->data` holds. -/
def guarded_hook (sm : SuiteMem) (suite : Option Nat) (member : fixture_member) (t : ctest) :
    Option Nat :=
  match suite, t.data with
  | some a, some _ =>
    match member with
    | fixture_member.setup => (sm.suites a).setup
    | fixture_member.teardown => (sm.suites a).teardown
  | _, _ => none

/-- The statement `if (suite && suite->setup && test->data) suite->setup(test->data);`
for the test record at address `a`, where `suite` is the result of the lookup. -/
def protected_setup {σ : Type} (code : Nat → Stage σ) (tm : TestMem) (sm : SuiteMem)
    (suite : Option Nat) (a : Nat) (s : Outcome × World σ × List Event) :
    Outcome × World σ × List Event :=
  invoke code (fun f => Event.call_setup a f (tm.tests a).data)
    (guarded_hook sm suite fixture_member.setup (tm.tests a)) (tm.tests a).data s

/-- The statement `if (test->data) test->run.unary(test->data); else test->run.nullary();`
for the test record at address `a`. -/
def protected_run {σ : Type} (code : Nat → Stage σ) (tm : TestMem) (a : Nat)
    (s : Outcome × World σ × List Event) : Outcome × World σ × List Event :=
  invoke code (fun f => Event.call_run a f (tm.tests a).data) (some (tm.tests a).run)
    (tm.tests a).data s

/-- The statement `if (suite && suite->teardown && test->data) suite->teardown(test->data);`
for the test record at address `a`. -/
def protected_teardown {σ : Type} (code : Nat → Stage σ) (tm : TestMem) (sm : SuiteMem)
    (suite : Option Nat) (a : Nat) (s : Outcome × World σ × List Event) :
    Outcome × World σ × List Event :=
  invoke code (fun f => Event.call_teardown a f (tm.tests a).data)
    (guarded_hook sm suite fixture_member.teardown (tm.tests a)) (tm.tests a).data s

/-- The statements of `ctest_main` between `setjmp(ctest_err)` returning `0` and the
point "if we got here it's ok", for the test record at address `a`: the suite lookup,
the guarded call of setup, the call of the test function, the guarded call of teardown. -/
def run_protected {σ : Type} (char_signed : Bool) (code : Nat → Stage σ) (fuel : Nat)
    (tm : TestMem) (sm : SuiteMem) (a : Nat) (w : World σ) (out : List Event) :
    Option (Outcome × World σ × List Event) :=
  match ctest_impl_find_suite char_signed fuel sm (tm.tests a).ssname with
  | none => none
  | some suite =>
    some (protected_teardown code tm sm suite a
      (protected_run code tm a
        (protected_setup code tm sm suite a
          (Outcome.returned, w, out ++ [Event.find_suite (tm.tests a).ssname]))))

/-- The body of the first loop of `ctest_main`: `if (filter(test)) total++;`. -/
def count_body (tm : TestMem) (a : Nat) (st : Statics) : Option (Statics ⊕ Empty) :=
  match st.call_filter (tm.tests a) with
  | none => none
  | some r => some (Sum.inl (if r ≠ 0 then { st with total := int_wrap (st.total + 1) } else st))

/-- The per-test reset: `ctest_errorbuffer[0] = 0; ctest_errorsize = MSG_SIZE-1;
ctest_errormsg = ctest_errorbuffer;`. -/
def reset_errorbuffer (e : ErrState) : ErrState :=
  { e with
    ctest_errorbuffer := store_bytes e.ctest_errorbuffer 0 [0]
    ctest_errorsize := MSG_SIZE - 1
    ctest_errormsg := 0 }

/-- The body of the second loop of `ctest_main`, for the test record at address `a`.
For a test that is not skipped, `setjmp(ctest_err)` fills `ctest_err` with the context of
this iteration before anything is called, and the `longjmp(ctest_err, 1)` of `CTEST_ERR`
resumes there, in the `else` branch.  That holds as long as the functions called store
inside `ctest_errorbuffer` only: a store past its end lands in the other static variables
(the counters, `ctest_err`), which is undefined behaviour, and the iteration then has no
result (`none`). -/
def run_body {σ : Type} (char_signed : Bool) (code : Nat → Stage σ) (fuel : Nat)
    (tm : TestMem) (sm : SuiteMem) (a : Nat) (s : DriverState σ) :
    Option (DriverState σ ⊕ Empty) :=
  let test := tm.tests a
  match s.statics.call_filter test with
  | none => none
  | some r =>
    if r ≠ 0 then
      let w0 : World σ := { s.world with err := reset_errorbuffer s.world.err }
      let out0 := s.out ++ [Event.test_header a s.statics.idx s.statics.total]
      if test.skip ≠ 0 then
        some (Sum.inl
          { statics := { s.statics with
              num_skip := int_wrap (s.statics.num_skip + 1)
              idx := int_wrap (s.statics.idx + 1) }
            world := w0
            out := out0 ++ [Event.skipped]
            ctest_err := s.ctest_err })
      else
        match run_protected char_signed code fuel tm sm a w0 out0 with
        | none => none
        | some (Outcome.returned, w1, out1) =>
          if MSG_SIZE < w1.err.written_end then none
          else
            some (Sum.inl
              { statics := { s.statics with
                  num_ok := int_wrap (s.statics.num_ok + 1)
                  idx := int_wrap (s.statics.idx + 1) }
                world := w1
                out := out1 ++ [Event.ok] ++
                  (if w1.err.ctest_errorsize ≠ MSG_SIZE - 1 then [Event.errorbuffer] else [])
                ctest_err := some a })
        | some (Outcome.longjmp, w1, out1) =>
          if MSG_SIZE < w1.err.written_end then none
          else
            some (Sum.inl
              { statics := { s.statics with
                  num_fail := int_wrap (s.statics.num_fail + 1)
                  idx := int_wrap (s.statics.idx + 1) }
                world := w1
                out := out1 ++ [Event.fail] ++
                  (if w1.err.ctest_errorsize ≠ MSG_SIZE - 1 then [Event.errorbuffer] else [])
                ctest_err := some a })
    else some (Sum.inl s)

/-- The statement `if (argc == 2) { suite_name = argv[1]; filter = suite_filter; }` of
`ctest_main`; `argc` is the length of `argv`. -/
def select_filter (argv : List (List Nat)) (st : Statics) : Statics :=
  if argv.length = 2 then
    { st with suite_name := argv.get? 1, filter := ctest_filter_func.suite_filter }
  else st

/-- The function `ctest_main(argc, argv)`.  `argv` lists the arguments, `argc` is their number;
`isatty` is the value of `isatty(1)` (`0` when built with `CTEST_NO_COLORS`).  The
result is the value returned and the state the run leaves. -/
def ctest_main {σ : Type} (char_signed : Bool) (code : Nat → Stage σ) (isatty : Int)
    (fuel : Nat) (tm : TestMem) (sm : SuiteMem) (argv : List (List Nat)) (s : DriverState σ) :
    Option (Int × DriverState σ) :=
  let st0 := select_filter argv s.statics
  let w0 : World σ := { s.world with color_output := isatty }
  match ctest_impl_list_for_each_entry (fun p => some (tm.next p)) list_loc.to_entry
      list_loc.head (count_body tm) fuel (tm.next list_loc.head) st0 with
  | none => none
  | some (Sum.inr e) => nomatch e
  | some (Sum.inl st1) =>
    match ctest_impl_list_for_each_entry (fun p => some (tm.next p)) list_loc.to_entry
        list_loc.head (run_body char_signed code fuel tm sm) fuel (tm.next list_loc.head)
        { statics := st1, world := w0, out := s.out, ctest_err := s.ctest_err } with
    | none => none
    | some (Sum.inr e) => nomatch e
    | some (Sum.inl s2) =>
      some (s2.statics.num_fail,
        { s2 with out := s2.out ++ [Event.results s2.statics.total s2.statics.num_ok
            s2.statics.num_fail s2.statics.num_skip] })

/-! ## Representation of the linked structures -/

/-- The links from `cur` visit the records `l`, in this order, and then return to `head`:
what the loop `ctest_impl_list_for_each_entry` walks over. -/
def IsChain {P : Type} (next : P → Option P) (entry : P → Option Nat) (head : P) :
    P → List Nat → Prop
  | cur, [] => cur = head
  | cur, a :: l =>
    cur ≠ head ∧ entry cur = some a ∧ ∃ nx, next cur = some nx ∧ IsChain next entry head nx l

/-- The loop body applied to the records of a list in order, stopping at the first
iteration that returns from the enclosing function. -/
def fold_entries {S R : Type} (body : Nat → S → Option (S ⊕ R)) : List Nat → S → Option (S ⊕ R)
  | [], s => some (Sum.inl s)
  | a :: l, s =>
    match body a s with
    | none => none
    | some (Sum.inr r) => some (Sum.inr r)
    | some (Sum.inl s1) => fold_entries body l s1

/-- The test list of `m` holds the records `l` in this order: the `next` links from the
global head visit `l` and return to the head, and the head's `prev` link is the last
record (the head itself when the list is empty). -/
def TestMem.Holds (m : TestMem) (l : List Nat) : Prop :=
  IsChain (fun p => some (m.next p)) list_loc.to_entry list_loc.head (m.next list_loc.head) l ∧
  m.prev list_loc.head =
    (match l.getLast? with
     | none => list_loc.head
     | some b => list_loc.entry b) ∧
  l.Nodup

/-- The chain of bucket `i` of the suite index holds the records `chains i` in this
order, for every bucket. -/
def SuiteMem.Chains (m : SuiteMem) (chains : Nat → List Nat) : Prop :=
  ∀ i, i < HASH_SIZE → ∃ first, m.ctest_impl_suite_hashtable i = some first ∧
    IsChain m.next slist_loc.to_entry (slist_loc.head i) first (chains i)

/-- A well-formed suite index: the bucket chains are `chains`, every record is chained in
the bucket of its name's hash, once, and no two records of the index have the same name. -/
def SuiteMem.Wf (char_signed : Bool) (m : SuiteMem) (chains : Nat → List Nat) : Prop :=
  m.Chains chains ∧
  (∀ i, i < HASH_SIZE → (chains i).Nodup) ∧
  (∀ i, i < HASH_SIZE → ∀ a ∈ chains i,
    ctest_impl_hash_suite char_signed (m.suites a).name % HASH_SIZE = i) ∧
  (∀ i j, i < HASH_SIZE → j < HASH_SIZE → ∀ a ∈ chains i, ∀ b ∈ chains j,
    cstr (m.suites a).name = cstr (m.suites b).name → a = b)

/-- A sequence of `ctest_impl_emplace_suite` calls, for the candidate records at the
addresses listed. -/
def emplace_seq (char_signed : Bool) (fuel : Nat) (m : SuiteMem) : List Nat → Option SuiteMem
  | [] => some m
  | a :: as =>
    match ctest_impl_emplace_suite char_signed fuel m a with
    | none => none
    | some (m1, _) => emplace_seq char_signed fuel m1 as

/-- The suite index before any registration has run on it: every bucket is still the
zeroed static storage, or `ctest_impl_hash_init` has made every bucket an empty chain. -/
def SuiteMem.Untouched (m : SuiteMem) : Prop :=
  (∀ i, m.ctest_impl_suite_hashtable i = none) ∨
  (∀ i, i < HASH_SIZE → m.ctest_impl_suite_hashtable i = some (slist_loc.head i))

/-- A state of the suite index a fixture registration can meet: untouched, or
well-formed with the bucket chains `chains`. -/
def SuiteMem.Prior (char_signed : Bool) (m : SuiteMem) (chains : Nat → List Nat) : Prop :=
  (m.Untouched ∧ chains = fun _ => []) ∨ m.Wf char_signed chains

/-- The suite index `r` results and holds exactly one record named `sname`, whose setup
hook is `setup_fn` and whose teardown hook is `teardown_fn`. -/
def OneSuiteWithHooks (r : Option SuiteMem) (sname : List Nat) (setup_fn teardown_fn : Nat) :
    Prop :=
  ∃ m chains rcd, r = some m ∧ m.Chains chains ∧
    (∀ i, i < HASH_SIZE → (chains i).Nodup) ∧
    (∃ i, i < HASH_SIZE ∧ rcd ∈ chains i) ∧
    (∀ j, j < HASH_SIZE → ∀ b ∈ chains j, (cstr (m.suites b).name = cstr sname ↔ b = rcd)) ∧
    (∀ i j, i < HASH_SIZE → j < HASH_SIZE → rcd ∈ chains i → rcd ∈ chains j → i = j) ∧
    (m.suites rcd).setup = some setup_fn ∧ (m.suites rcd).teardown = some teardown_fn

/-- The value of the hook member `member` of a suite record. -/
def ctest_impl_suite.hook (s : ctest_impl_suite) : fixture_member → Option Nat
  | fixture_member.setup => s.setup
  | fixture_member.teardown => s.teardown

/-- The suite memory at load time: `ctest_impl_suite_hashtable` is zero-initialised
static storage, no record is linked. -/
def SuiteMem.zeroed : SuiteMem :=
  { ctest_impl_suite_hashtable := fun _ => none
    suites := fun _ => { name := [], setup := none, teardown := none, list := none } }

/-- The calls of the hook `member` the driver is to make for the test record at address
`a`, given the result `suite` of the lookup: one call with the test's fixture data when
the suite was found, declares the hook and the test carries fixture data, none otherwise. -/
def expected_hook_calls (tm : TestMem) (sm : SuiteMem) (suite : Option Nat) (a : Nat)
    (member : fixture_member) : List Event :=
  match suite, (tm.tests a).data with
  | some rcd, some d =>
    match (sm.suites rcd).hook member with
    | some fn =>
      match member with
      | fixture_member.setup => [Event.call_setup a fn (some d)]
      | fixture_member.teardown => [Event.call_teardown a fn (some d)]
    | none => []
  | _, _ => []

/-- The state in which the protected region of the test record at address `a` starts:
the scratch buffer is reset, the progress line is printed, the lookup has been made. -/
def protected_start {σ : Type} (tm : TestMem) (a : Nat) (s : DriverState σ) :
    Outcome × World σ × List Event :=
  (Outcome.returned, { s.world with err := reset_errorbuffer s.world.err },
    s.out ++ [Event.test_header a s.statics.idx s.statics.total] ++
      [Event.find_suite (tm.tests a).ssname])

/-- The print `if (ctest_errorsize != MSG_SIZE-1) printf("%s", ctest_errorbuffer);`. -/
def errorbuffer_print {σ : Type} (w : World σ) : List Event :=
  if w.err.ctest_errorsize ≠ MSG_SIZE - 1 then [Event.errorbuffer] else []

/-- Whether the value is in the range of `int` with room for one increment. -/
def int_can_incr (x : Int) : Prop := -2 ^ 31 ≤ x ∧ x < 2 ^ 31 - 1

/-! ## A small program under test

Three tests and one fixture, used to instantiate the theorems: `(Math, Add)`, declared
with fixture data, passes; `(Math, Sub)`, declared without, fails an assertion in the
middle of its body; `(Str, Concat)` is marked skip.  The suite `Math` declares a setup
and a teardown hook.  The state of the program under test is a counter. -/

/-- The bytes of `"Math"`. -/
def example_Math : List Nat := [77, 97, 116, 104]

/-- The bytes of `"Str"`. -/
def example_Str : List Nat := [83, 116, 114]

/-- The static test records, at the addresses 1, 2 and 3. -/
def example_tests : Nat → ctest := fun a =>
  { ssname := if a = 3 then example_Str else example_Math
    ttname := if a = 1 then [65, 100, 100] else if a = 2 then [83, 117, 98] else [67]
    run := 10 + a
    data := if a = 1 then some 50 else none
    list := { next := list_loc.entry a, prev := list_loc.entry a }
    skip := if a = 3 then 1 else 0 }

/-- The test list after the three constructors have run. -/
def example_tm : TestMem := [1, 2, 3].foldl register_test (TestMem.init example_tests)

/-- The suite index after the constructors of `CTEST_SETUP(Math)` (hook at address 20,
candidate record at 100) and `CTEST_TEARDOWN(Math)` (hook at 21, candidate at 101). -/
def example_sm : SuiteMem :=
  ((CTEST_IMPL_FIXTURE true 2 example_Math fixture_member.setup 20 100 SuiteMem.zeroed).bind
    (CTEST_IMPL_FIXTURE true 2 example_Math fixture_member.teardown 21 101)).getD SuiteMem.zeroed

/-- The bodies of the functions: the test functions at 11, 12, 13 and the hooks at 20, 21. -/
def example_body (fn : Nat) : List (Stmt Nat) :=
  if fn = 11 then [Stmt.user (fun n => n + 1)]
  else if fn = 12 then
    [Stmt.user (fun n => n + 10), Stmt.check (fun n => decide (n ≠ 5)) (fun _ => some [53]),
      Stmt.user (fun n => n + 100)]
  else if fn = 20 then [Stmt.user (fun n => n + 1000)]
  else if fn = 21 then [Stmt.user (fun n => n + 10000)]
  else []

/-- The code of the program under test. -/
def example_code : Nat → Stage Nat := fun fn => Stage.of_stmts (fun _ => example_body fn)

/-- The scratch-buffer variables at load time. -/
def ErrState.zeroed : ErrState :=
  { ctest_errorsize := 0, ctest_errormsg := 0, ctest_errorbuffer := fun _ => 0, written_end := 0 }

/-- The state in which the first call of `ctest_main` starts. -/
def example_start : DriverState Nat :=
  { statics := Statics.initial
    world := { user := 0, err := ErrState.zeroed, color_output := 1 }
    out := []
    ctest_err := none }

/-! ## Notions used to state what a run does -/

/-- The outcome the driver records for a selected test. -/
inductive Verdict where
  | passed
  | failed
  | skipped
  deriving DecidableEq, Repr

/-- Recording an outcome: the increment of the matching counter (`num_ok++`,
`num_fail++` or `num_skip++`) and the `idx++` that ends the iteration. -/
def Statics.record (st : Statics) : Verdict → Statics
  | Verdict.passed =>
    { st with num_ok := int_wrap (st.num_ok + 1), idx := int_wrap (st.idx + 1) }
  | Verdict.failed =>
    { st with num_fail := int_wrap (st.num_fail + 1), idx := int_wrap (st.idx + 1) }
  | Verdict.skipped =>
    { st with num_skip := int_wrap (st.num_skip + 1), idx := int_wrap (st.idx + 1) }

/-- Whether the test is selected: the call `filter(test)` returns a nonzero value. -/
def Statics.selects (st : Statics) (t : ctest) : Bool :=
  match st.call_filter t with
  | some r => decide (r ≠ 0)
  | none => false

/-- The filter can be called: `suite_filter` is installed only together with a
`suite_name`. -/
def Statics.Consistent (st : Statics) : Prop :=
  st.filter = ctest_filter_func.suite_filter → st.suite_name ≠ none

/-- The test record a progress line is printed for. -/
def Event.header_test : Event → Option Nat
  | Event.test_header t _ _ => some t
  | _ => none

/-- The cursor offset, the remaining-size counter and the ghost end of the written
range. -/
def ErrState.cursor_size_end (e : ErrState) : Nat × Nat × Nat :=
  (e.ctest_errormsg, e.ctest_errorsize, e.written_end)

/-- What `vprint_errormsg` does to the cursor offset, the remaining-size counter and the
end of the written range when the text has `n` bytes, `n < 2^31`. -/
def errormsg_advance (c : Nat × Nat × Nat) (n : Nat) : Nat × Nat × Nat :=
  (c.1 + (if c.2.1 ≤ n then n - c.2.1 else n),
    (c.2.1 + 2 ^ 64 - (if c.2.1 ≤ n then n - c.2.1 else n)) % 2 ^ 64,
    if c.2.1 = 0 then c.2.2 else max c.2.2 (c.1 + (min (c.2.1 - 1) n + 1)))

/-! ## Notions used to state the claims about the hash and the table -/

/-- Modelled from the spec: the FNV-1a hash the spec names (the standard 32-bit FNV-1a
algorithm is no code of this repository): starting from the offset basis 2166136261, each
byte is XORed in as a value `0..255` and the result multiplied by the prime 16777619,
modulo `2^32`. -/
def fnv1a32_standard (bytes : List Nat) : Nat :=
  bytes.foldl (fun h b => ((h ^^^ (b % 256)) * 16777619) % 2 ^ 32) 2166136261

/-- One step of `ctest_impl_fnv1a32`: XOR with the converted `char`, then the multiply. -/
def fnv1a32_step (char_signed : Bool) (h c : Nat) : Nat :=
  ((h ^^^ char_to_uint char_signed c) * 16777619) % 2 ^ 32

/-- A suite index in which bucket 0 holds one record, at address 7: the table after
`ctest_impl_hash_init` and one `ctest_impl_slist_add` on `heads[0]`. -/
def example_bucket0 : SuiteMem :=
  ctest_impl_slist_add (slist_loc.entry 7) (slist_loc.head 0)
    (ctest_impl_hash_init_once SuiteMem.zeroed)

/-- An operation on the suite index: `ctest_impl_add_suite` (insert) or
`ctest_impl_emplace_suite`, for the record at the address given. -/
inductive index_op where
  | insert (a : Nat)
  | emplace (a : Nat)
  deriving DecidableEq, Repr

/-- The record an operation is about. -/
def index_op.addr : index_op → Nat
  | index_op.insert a => a
  | index_op.emplace a => a

/-- A sequence of inserts and emplaces, in order. -/
def apply_ops (char_signed : Bool) (fuel : Nat) (m : SuiteMem) : List index_op → Option SuiteMem
  | [] => some m
  | index_op.insert a :: ops => apply_ops char_signed fuel (ctest_impl_add_suite char_signed m a) ops
  | index_op.emplace a :: ops =>
    match ctest_impl_emplace_suite char_signed fuel m a with
    | none => none
    | some (m1, _) => apply_ops char_signed fuel m1 ops

/-- Every insert of the sequence is of a record that no earlier operation was about:
`seen` lists the records of the earlier operations.  (An emplace may repeat a record.) -/
def InsertsFresh : List Nat → List index_op → Prop
  | _, [] => True
  | seen, index_op.insert a :: ops => a ∉ seen ∧ InsertsFresh (a :: seen) ops
  | seen, index_op.emplace a :: ops => InsertsFresh (a :: seen) ops

/-- The bucket chains are `chains`, and every record is chained once, in the bucket of
its name's hash (records with equal names are allowed). -/
def SuiteMem.Linked (char_signed : Bool) (m : SuiteMem) (chains : Nat → List Nat) : Prop :=
  m.Chains chains ∧
  (∀ i, i < HASH_SIZE → (chains i).Nodup) ∧
  (∀ i, i < HASH_SIZE → ∀ a ∈ chains i,
    ctest_impl_hash_suite char_signed (m.suites a).name % HASH_SIZE = i)

/-- Suite records for an index with a collision: the names of the records 1 and 3 are
`"Math"`, the name of every other record is `"Mub"`, which falls in the bucket of
`"Math"` (bucket 125). -/
def example_suites : Nat → ctest_impl_suite := fun a =>
  { name := if a = 1 ∨ a = 3 then example_Math else [77, 117, 98]
    setup := none, teardown := none, list := some (slist_loc.entry a) }

/-- The state after the guarded setup call of the test record at address `a`. -/
def after_setup {σ : Type} (code : Nat → Stage σ) (tm : TestMem) (sm : SuiteMem)
    (suite : Option Nat) (a : Nat) (s : DriverState σ) : Outcome × World σ × List Event :=
  protected_setup code tm sm suite a (protected_start tm a s)

/-- The state after the call of the test function of the test record at address `a`. -/
def after_run {σ : Type} (code : Nat → Stage σ) (tm : TestMem) (sm : SuiteMem)
    (suite : Option Nat) (a : Nat) (s : DriverState σ) : Outcome × World σ × List Event :=
  protected_run code tm a (after_setup code tm sm suite a s)

/-- The state after the guarded teardown call of the test record at address `a`. -/
def after_teardown {σ : Type} (code : Nat → Stage σ) (tm : TestMem) (sm : SuiteMem)
    (suite : Option Nat) (a : Nat) (s : DriverState σ) : Outcome × World σ × List Event :=
  protected_teardown code tm sm suite a (after_run code tm sm suite a s)

/-- The iteration from `s` to `s2` recorded the test Failed: `num_fail` went up by one,
`num_ok` and `num_skip` are unchanged. -/
def RecordedFailed {σ : Type} (s s2 : DriverState σ) : Prop :=
  s2.statics.num_fail = s.statics.num_fail + 1 ∧ s2.statics.num_ok = s.statics.num_ok ∧
    s2.statics.num_skip = s.statics.num_skip

/-- The iteration from `s` to `s2` recorded the test Passed: `num_ok` went up by one,
`num_fail` and `num_skip` are unchanged. -/
def RecordedPassed {σ : Type} (s s2 : DriverState σ) : Prop :=
  s2.statics.num_ok = s.statics.num_ok + 1 ∧ s2.statics.num_fail = s.statics.num_fail ∧
    s2.statics.num_skip = s.statics.num_skip

/-- The example program with a setup hook that fails an assertion. -/
def example_code_setup_fails : Nat → Stage Nat := fun fn =>
  Stage.of_stmts (fun _ =>
    if fn = 20 then [Stmt.check (fun _ => true) (fun _ => some [33])] else example_body fn)

/-- The example program with a teardown hook that fails an assertion. -/
def example_code_teardown_fails : Nat → Stage Nat := fun fn =>
  Stage.of_stmts (fun _ =>
    if fn = 21 then [Stmt.check (fun _ => true) (fun _ => some [33])] else example_body fn)

/-- The test record, the progress index and the total a progress line shows. -/
def Event.header : Event → Option (Nat × Int × Int)
  | Event.test_header t idx total => some (t, idx, total)
  | _ => none

/-- The progress lines `TEST idx/total`, `TEST idx+1/total`, ... for the tests listed. -/
def header_lines (idx total : Int) : List Nat → List (Nat × Int × Int)
  | [] => []
  | t :: ts => (t, idx, total) :: header_lines (idx + 1) total ts

/-! ## Assertions -/

/-- The conversions `%d` and `%jd` of `printf`: the decimal digits, after a minus sign for
a negative value. -/
def format_d (x : Int) : List Nat :=
  (if x < 0 then [45] else []) ++ (Nat.toDigits 10 x.natAbs).map Char.toNat

/-- The conversion `%ju` of `printf`: the decimal digits. -/
def format_u (n : Nat) : List Nat := (Nat.toDigits 10 n).map Char.toNat

/-- The conversion `%02x` of `printf`: the hexadecimal digits, padded with zeros to two. -/
def format_02x (n : Nat) : List Nat :=
  List.replicate (2 - (Nat.toDigits 16 n).length) 48 ++ (Nat.toDigits 16 n).map Char.toNat

/-- The conversion `%s` of `printf`: the bytes of the string; for `NULL` (`none`) the
text `(null)` the C library prints. -/
def format_s : Option (List Nat) → List Nat
  | none => [40, 110, 117, 108, 108, 41]
  | some s => cstr s

/-- The multibyte form of a wide string, each wide character converted by `wcrtomb`
(which depends on the locale); there is none when a character cannot be converted. -/
def wcs_to_mbs (wcrtomb : Nat → Option (List Nat)) : List Nat → Option (List Nat)
  | [] => some []
  | c :: cs =>
    if c = 0 then some []
    else
      match wcrtomb c, wcs_to_mbs wcrtomb cs with
      | some b, some r => some (b ++ r)
      | _, _ => none

/-- The conversion `%ls` of `printf`; for `NULL` (`none`) the text `(null)`. -/
def format_ls (wcrtomb : Nat → Option (List Nat)) : Option (List Nat) → Option (List Nat)
  | none => some [40, 110, 117, 108, 108, 41]
  | some ws => wcs_to_mbs wcrtomb ws

/-- The function `wcscmp`: compares wide character by wide character up to the first
difference or the terminating zero; the result is zero, negative or positive. -/
def wcscmp : List Nat → List Nat → Int
  | [], [] => 0
  | [], b :: _ => if b = 0 then 0 else -1
  | a :: _, [] => if a = 0 then 0 else 1
  | a :: as, b :: bs =>
    if a ≠ b then (if a < b then -1 else 1)
    else if a = 0 then 0
    else wcscmp as bs

/-- A call of `CTEST_ERR(fmt, ...)` whose arguments format to `out`: the message is
written and control leaves by `longjmp(ctest_err, 1)`. -/
def call_CTEST_ERR {σ : Type} (out : Option (List Nat)) (w : World σ) : Outcome × World σ :=
  (Outcome.longjmp, { w with err := CTEST_ERR w.color_output out w.err })

/-- The text of `"%s:%d  expected '%s', got '%s'"` for the arguments given. -/
def assert_str_text (exp real : Option (List Nat)) (caller : List Nat) (line : Int) : List Nat :=
  format_s (some caller) ++ [58] ++ format_d line ++
    [32, 32, 101, 120, 112, 101, 99, 116, 101, 100, 32, 39] ++ format_s exp ++
    [39, 44, 32, 103, 111, 116, 32, 39] ++ format_s real ++ [39]

/-- The function `assert_str(exp, real, caller, line)`; `none` is `NULL`. -/
def assert_str {σ : Type} (exp real : Option (List Nat)) (caller : List Nat) (line : Int)
    (w : World σ) : Outcome × World σ :=
  if (exp.isNone && real.isSome) ||
      (exp.isSome && real.isNone) ||
      (match exp, real with
        | some e, some r => decide (strcmp e r ≠ 0)
        | _, _ => false) then
    call_CTEST_ERR (some (assert_str_text exp real caller line)) w
  else (Outcome.returned, w)

/-- The text of `"%s:%d  expected '%ls', got '%ls'"` for the arguments given. -/
def assert_wstr_text (wcrtomb : Nat → Option (List Nat)) (exp real : Option (List Nat))
    (caller : List Nat) (line : Int) : Option (List Nat) :=
  match format_ls wcrtomb exp, format_ls wcrtomb real with
  | some e, some r =>
    some (format_s (some caller) ++ [58] ++ format_d line ++
      [32, 32, 101, 120, 112, 101, 99, 116, 101, 100, 32, 39] ++ e ++
      [39, 44, 32, 103, 111, 116, 32, 39] ++ r ++ [39])
  | _, _ => none

/-- The function `assert_wstr(exp, real, caller, line)`; `none` is `NULL`. -/
def assert_wstr {σ : Type} (wcrtomb : Nat → Option (List Nat)) (exp real : Option (List Nat))
    (caller : List Nat) (line : Int) (w : World σ) : Outcome × World σ :=
  if (exp.isNone && real.isSome) ||
      (exp.isSome && real.isNone) ||
      (match exp, real with
        | some e, some r => decide (wcscmp e r ≠ 0)
        | _, _ => false) then
    call_CTEST_ERR (assert_wstr_text wcrtomb exp real caller line) w
  else (Outcome.returned, w)

/-- The text of `"%s:%d  expected %ju bytes, got %ju"` for the arguments given. -/
def assert_data_size_text (expsize realsize : Nat) (caller : List Nat) (line : Int) : List Nat :=
  format_s (some caller) ++ [58] ++ format_d line ++
    [32, 32, 101, 120, 112, 101, 99, 116, 101, 100, 32] ++ format_u expsize ++
    [32, 98, 121, 116, 101, 115, 44, 32, 103, 111, 116, 32] ++ format_u realsize

/-- The text of `"%s:%d expected 0x%02x at offset %ju got 0x%02x"` for the arguments given. -/
def assert_data_byte_text (e : Nat) (i : Nat) (r : Nat) (caller : List Nat) (line : Int) :
    List Nat :=
  format_s (some caller) ++ [58] ++ format_d line ++
    [32, 101, 120, 112, 101, 99, 116, 101, 100, 32, 48, 120] ++ format_02x e ++
    [32, 97, 116, 32, 111, 102, 102, 115, 101, 116, 32] ++ format_u i ++
    [32, 103, 111, 116, 32, 48, 120] ++ format_02x r

/-- The loop `for (; i<expsize; i++) if (exp[i] != real[i]) CTEST_ERR(...)` of
`assert_data` with `n` iterations left; `exp j` and `real j` are the bytes `exp[j]` and
`real[j]`. -/
def assert_data_loop {σ : Type} (exp real : Nat → Nat) (caller : List Nat) (line : Int) :
    Nat → Nat → World σ → Outcome × World σ
  | 0, _, w => (Outcome.returned, w)
  | n + 1, i, w =>
    if exp i ≠ real i then
      call_CTEST_ERR (some (assert_data_byte_text (exp i) i (real i) caller line)) w
    else assert_data_loop exp real caller line n (i + 1) w

/-- The function `assert_data(exp, expsize, real, realsize, caller, line)`.  `CTEST_ERR`
does not return, so the loop is reached only when the sizes are equal. -/
def assert_data {σ : Type} (exp : Nat → Nat) (expsize : Nat) (real : Nat → Nat) (realsize : Nat)
    (caller : List Nat) (line : Int) (w : World σ) : Outcome × World σ :=
  if expsize ≠ realsize then
    call_CTEST_ERR (some (assert_data_size_text expsize realsize caller line)) w
  else assert_data_loop exp real caller line expsize 0 w

/-- The text of `"%s:%d  expected %jd, got %jd"` for the arguments given. -/
def assert_equal_text (exp real : Int) (caller : List Nat) (line : Int) : List Nat :=
  format_s (some caller) ++ [58] ++ format_d line ++
    [32, 32, 101, 120, 112, 101, 99, 116, 101, 100, 32] ++ format_d exp ++
    [44, 32, 103, 111, 116, 32] ++ format_d real

/-- The function `assert_equal(exp, real, caller, line)`. -/
def assert_equal {σ : Type} (exp real : Int) (caller : List Nat) (line : Int) (w : World σ) :
    Outcome × World σ :=
  if exp ≠ real then call_CTEST_ERR (some (assert_equal_text exp real caller line)) w
  else (Outcome.returned, w)

/-- The two (possibly `NULL`) strings are unequal: exactly one of them is `NULL`, or both
are strings and their contents differ. -/
def StringsDiffer (exp real : Option (List Nat)) : Prop :=
  (exp = none ∧ real ≠ none) ∨ (exp ≠ none ∧ real = none) ∨
    ∃ e r, exp = some e ∧ real = some r ∧ cstr e ≠ cstr r

/-! ## The scenario of three tests

The tests `(Math, Add)`, `(Math, Sub)` and `(Str, Concat)`, registered in this order and
without fixtures.  The state of the program under test is the list of the test functions
entered so far. -/

/-- The static test records of the scenario, at the addresses 1, 2 and 3. -/
def scenario_tests : Nat → ctest := fun a =>
  { ssname := if a = 3 then example_Str else example_Math
    ttname :=
      if a = 1 then [65, 100, 100] else if a = 2 then [83, 117, 98]
      else [67, 111, 110, 99, 97, 116]
    run := 10 + a
    data := none
    list := { next := list_loc.entry a, prev := list_loc.entry a }
    skip := if a = 3 then 1 else 0 }

/-- The test list of the scenario after the three constructors have run. -/
def scenario_tm : TestMem := [1, 2, 3].foldl register_test (TestMem.init scenario_tests)

/-- The test functions of the scenario: `Add` (at 11) returns, `Sub` (at 12) calls
`assert_equal(5, 4, "t.c", 9)`, `Concat` (at 13) returns; each first notes that it was
entered. -/
def scenario_code : Nat → Stage (List Nat) := fun fn _ w =>
  if fn = 12 then assert_equal 5 4 [116, 46, 99] 9 { w with user := w.user ++ [fn] }
  else (Outcome.returned, { w with user := w.user ++ [fn] })

/-- The state in which the run of the scenario starts. -/
def scenario_start : DriverState (List Nat) :=
  { statics := Statics.initial
    world := { user := [], err := ErrState.zeroed, color_output := 0 }
    out := []
    ctest_err := none }

/-- What is observed of a run: the value returned, the counters, what was printed and
called, and the test functions entered. -/
structure Observation where
  returned : Int
  total : Int
  num_ok : Int
  num_fail : Int
  num_skip : Int
  out : List Event
  entered : List Nat
  deriving DecidableEq, Repr

/-- The observation of the result of a run. -/
def observe (r : Option (Int × DriverState (List Nat))) : Option Observation :=
  r.map (fun p =>
    { returned := p.1
      total := p.2.statics.total
      num_ok := p.2.statics.num_ok
      num_fail := p.2.statics.num_fail
      num_skip := p.2.statics.num_skip
      out := p.2.out
      entered := p.2.world.user })

/-! ## Notions used to compare two runs of one test -/

/-- The functions the driver can call for the test `t` whose suite lookup gave `suite`:
the test function and the two guarded hooks. -/
def test_functions (sm : SuiteMem) (suite : Option Nat) (t : ctest) : List Nat :=
  t.run :: ((guarded_hook sm suite fixture_member.setup t).toList ++
    (guarded_hook sm suite fixture_member.teardown t).toList)

/-- The text `printf("%s", ctest_errorbuffer)` prints: the bytes from offset `i` up to the
first NUL, reading at most `n` of them. -/
def buffer_cstr (mem : Nat → Nat) : Nat → Nat → List Nat
  | 0, _ => []
  | n + 1, i => if mem i = 0 then [] else mem i :: buffer_cstr mem n (i + 1)

/-- Two states of the scratch buffer with the same cursor and remaining size that hold
the same bytes from the start of the buffer up to some NUL.  The bytes after it may
differ. -/
def ErrState.Agree (e1 e2 : ErrState) : Prop :=
  e1.ctest_errorsize = e2.ctest_errorsize ∧ e1.ctest_errormsg = e2.ctest_errormsg ∧
    ∃ k, (∀ i, i ≤ k → e1.ctest_errorbuffer i = e2.ctest_errorbuffer i) ∧
      e1.ctest_errorbuffer k = 0

/-- Two worlds with the same state of the program under test, the same `color_output`,
and scratch buffers that agree. -/
def World.Agree {σ : Type} (w1 w2 : World σ) : Prop :=
  w1.user = w2.user ∧ w1.color_output = w2.color_output ∧ w1.err.Agree w2.err

/-- Two states of the protected region, reached from the outputs `base1` and `base2`,
with the same way of leaving, worlds that agree, and the same events added. -/
def SameProgress {σ : Type} (base1 base2 : List Event)
    (P1 P2 : Outcome × World σ × List Event) : Prop :=
  P1.1 = P2.1 ∧ P1.2.1.Agree P2.2.1 ∧ ∃ evs, P1.2.2 = base1 ++ evs ∧ P2.2.2 = base2 ++ evs

/-- A state earlier tests can have left: one test was recorded Failed, its message is in
the scratch buffer, its lines are in the output. -/
def example_after_failure : DriverState Nat :=
  { statics := { Statics.initial with num_fail := 1, idx := 2, total := 2 }
    world :=
      { user := 0
        err := CTEST_ERR 1 (some [33]) (reset_errorbuffer ErrState.zeroed)
        color_output := 1 }
    out := [Event.test_header 2 1 2, Event.fail, Event.errorbuffer]
    ctest_err := some 2 }

/-- The example program with the hooks left alone and the test function of `(Math, Sub)`
passing. -/
def example_code_sub_passes : Nat → Stage Nat := fun fn =>
  Stage.of_stmts (fun _ => if fn = 12 then [] else example_body fn)

/-! ## Notions used to state what the scratch buffer holds -/

/-- The scratch-buffer variables after `vprint_errormsg` has formatted the texts `msgs`,
one call for each, in order. -/
def vprint_all (e : ErrState) (msgs : List (List Nat)) : ErrState :=
  msgs.foldl (fun e1 text => vprint_errormsg e1 (some text)) e

/-- The scratch buffer holds the bytes `content` from its start, followed by a NUL; the
cursor is at that NUL, and the cursor offset and the remaining size add up to
`MSG_SIZE - 1`. -/
def ErrState.HoldsText (e : ErrState) (content : List Nat) : Prop :=
  e.ctest_errormsg = content.length ∧
    e.ctest_errormsg + e.ctest_errorsize = MSG_SIZE - 1 ∧
    (∀ i, i < content.length → e.ctest_errorbuffer i = content.getD i 0) ∧
    e.ctest_errorbuffer content.length = 0

/-! ## Notions used to state what a second call of the driver does -/

/-- The functions of the program under test behave the same on every call: whether a
function returns or leaves by `longjmp` does not depend on the state it is called in. -/
def OutcomeFixed {σ : Type} (code : Nat → Stage σ) : Prop :=
  ∀ (fn : Nat) (arg : Option Nat) (w1 w2 : World σ), (code fn arg w1).1 = (code fn arg w2).1

/-- The counters are not negative and can each go up by `n` without leaving the range of
`int`. -/
def Statics.Room (st : Statics) (n : Nat) : Prop :=
  (0 ≤ st.total ∧ st.total + n ≤ 2 ^ 31 - 1) ∧ (0 ≤ st.num_ok ∧ st.num_ok + n ≤ 2 ^ 31 - 1) ∧
    (0 ≤ st.num_fail ∧ st.num_fail + n ≤ 2 ^ 31 - 1) ∧
    (0 ≤ st.num_skip ∧ st.num_skip + n ≤ 2 ^ 31 - 1)

/-- A program whose functions behave the same on every call: the test function of
`(Math, Sub)` always fails, every other function returns. -/
def example_code_fixed : Nat → Stage Nat := fun fn =>
  Stage.of_stmts (fun _ =>
    if fn = 12 then [Stmt.check (fun _ => true) (fun _ => some [33])] else [])

/-! ## Notions used to state that the messages of a test fit the scratch buffer -/

/-- The record the lookup of `sname` finds on a suite index whose bucket chains are
`chains`: the first record of that name in the chain of the bucket of its hash, `none`
(`NULL`) when the chain has none. -/
def chain_lookup (char_signed : Bool) (sm : SuiteMem) (chains : Nat → List Nat)
    (sname : List Nat) : Option Nat :=
  (chains (ctest_impl_hash_suite char_signed sname % HASH_SIZE)).find?
    (fun b => decide (strcmp (sm.suites b).name sname = 0))

/-- The functions called for the test at `a` (the guarded setup, the test function, the
guarded teardown), called by the driver in the state `s` with `suite` the record found,
make no store past the end of `ctest_errorbuffer`: their messages fit the buffer. -/
@[reducible] def RegionInBounds {σ : Type} (code : Nat → Stage σ) (tm : TestMem) (sm : SuiteMem)
    (suite : Option Nat) (a : Nat) (s : DriverState σ) : Prop :=
  (after_teardown code tm sm suite a s).2.1.err.written_end ≤ MSG_SIZE

/-- The messages of every test of `l` that is not skipped fit the scratch buffer, in
whatever state the driver reaches the test, as long as no store has gone past the end of
the buffer before. -/
def RunInBounds {σ : Type} (char_signed : Bool) (code : Nat → Stage σ) (tm : TestMem)
    (sm : SuiteMem) (chains : Nat → List Nat) (l : List Nat) : Prop :=
  ∀ a ∈ l, (tm.tests a).skip = 0 → ∀ s : DriverState σ, s.world.err.written_end ≤ MSG_SIZE →
    RegionInBounds code tm sm (chain_lookup char_signed sm chains (tm.tests a).ssname) a s

/-- The bookkeeping of the scratch buffer is intact with the cursor at most `c` bytes
into the buffer, and no store has gone past its end. -/
def ErrState.Within (e : ErrState) (c : Nat) : Prop :=
  e.ctest_errormsg + e.ctest_errorsize = MSG_SIZE - 1 ∧ e.ctest_errormsg ≤ c ∧
    e.written_end ≤ MSG_SIZE

/-- The text a statement formats when run in the state `u` of the program, if any. -/
def Stmt.text {σ : Type} : Stmt σ → σ → Option (List Nat)
  | Stmt.user _, _ => none
  | Stmt.log out, u => out u
  | Stmt.check _ out, u => out u

/-- Every function body of the program has at most `N` statements, and every text one of
them formats has at most `K` bytes. -/
def ShortMessages {σ : Type} (body : Nat → Option Nat → List (Stmt σ)) (N K : Nat) : Prop :=
  ∀ fn arg, (body fn arg).length ≤ N ∧
    ∀ st ∈ body fn arg, ∀ u t, st.text u = some t → t.length ≤ K

/-! ## Facts about C strings -/

theorem cstr_nil : cstr [] = [] := rfl

theorem cstr_cons_zero (cs : List Nat) : cstr (0 :: cs) = [] := by
  simp [cstr]

theorem cstr_cons_ne {c : Nat} (h : c ≠ 0) (cs : List Nat) : cstr (c :: cs) = c :: cstr cs := by
  simp [cstr, h]

theorem strlen_eq_length_cstr (s : List Nat) : strlen s = (cstr s).length := by
  induction s with
  | nil => rfl
  | cons c cs ih =>
    by_cases h : c = 0
    · subst h; simp [strlen, cstr_cons_zero]
    · simp [strlen, h, cstr_cons_ne h, ih]

theorem strncmp_strlen_eq_zero_iff (f s : List Nat) :
    strncmp f s (strlen f) = 0 ↔ cstr f <+: cstr s := by
  induction f generalizing s with
  | nil => simp [strlen, strncmp, cstr_nil]
  | cons c cs ih =>
    by_cases hc : c = 0
    · subst hc; simp [strlen, strncmp, cstr_cons_zero]
    · rw [cstr_cons_ne hc]
      have hlen : strlen (c :: cs) = strlen cs + 1 := by simp [strlen, hc]
      rw [hlen]
      cases s with
      | nil =>
        simp [strncmp, cstr_nil, hc]
      | cons d ds =>
        by_cases hd : d = 0
        · subst hd
          simp [strncmp, cstr_cons_zero, hc]
        · rw [cstr_cons_ne hd]
          by_cases hcd : c = d
          · subst hcd
            simp [strncmp, hc, ih ds, List.cons_prefix_cons]
          · have : (c : Int) - (d : Int) ≠ 0 := by omega
            simp [strncmp, hcd, this, List.cons_prefix_cons]

theorem strcmp_eq_zero_iff (x y : List Nat) : strcmp x y = 0 ↔ cstr x = cstr y := by
  induction x generalizing y with
  | nil =>
    cases y with
    | nil => simp [strcmp]
    | cons b bs =>
      by_cases hb : b = 0
      · subst hb; simp [strcmp, cstr_cons_zero, cstr_nil]
      · simp [strcmp, cstr_cons_ne hb, cstr_nil, hb]
  | cons a as ih =>
    cases y with
    | nil =>
      by_cases ha : a = 0
      · subst ha; simp [strcmp, cstr_cons_zero, cstr_nil]
      · simp [strcmp, cstr_cons_ne ha, cstr_nil, ha]
    | cons b bs =>
      by_cases hab : a = b
      · subst hab
        by_cases ha : a = 0
        · subst ha; simp [strcmp, cstr_cons_zero]
        · simp [strcmp, ha, cstr_cons_ne ha, ih bs]
      · have hsub : (a : Int) - (b : Int) ≠ 0 := by omega
        by_cases ha : a = 0
        · subst ha
          have hb : b ≠ 0 := fun h => hab h.symm
          simp [strcmp, hb, hab, cstr_cons_zero, cstr_cons_ne hb]
        · by_cases hb : b = 0
          · subst hb
            simp [strcmp, hab, hsub, cstr_cons_zero, cstr_cons_ne ha]
          · simp [strcmp, hab, hsub, cstr_cons_ne ha, cstr_cons_ne hb]

/-! ## Walking a chain -/

theorem for_each_entry_eq_fold {P S R : Type} [DecidableEq P]
    (next : P → Option P) (entry : P → Option Nat) (head : P)
    (body : Nat → S → Option (S ⊕ R)) (l : List Nat) :
    ∀ (fuel : Nat) (cur : P) (s : S), IsChain next entry head cur l → l.length < fuel →
      ctest_impl_list_for_each_entry next entry head body fuel cur s = fold_entries body l s := by
  induction l with
  | nil =>
    intro fuel cur s hc hf
    cases fuel with
    | zero => simp at hf
    | succ n =>
      have : cur = head := hc
      subst this
      simp [ctest_impl_list_for_each_entry, fold_entries]
  | cons a l ih =>
    intro fuel cur s hc hf
    cases fuel with
    | zero => simp at hf
    | succ n =>
      obtain ⟨hne, hent, nx, hnx, hrest⟩ := hc
      have hlen : l.length < n := by simpa using hf
      simp only [ctest_impl_list_for_each_entry, fold_entries, hne, if_false, hent]
      cases hb : body a s with
      | none => rfl
      | some r =>
        cases r with
        | inr r => rfl
        | inl s1 => simp only [hnx]; exact ih n nx s1 hrest hlen

theorem IsChain_congr {P : Type} (next next2 : P → Option P) (entry : P → Option Nat) (head : P)
    (l : List Nat) :
    ∀ cur, (∀ p a, a ∈ l → entry p = some a → next2 p = next p) →
      IsChain next entry head cur l → IsChain next2 entry head cur l := by
  induction l with
  | nil => intro cur _ h; exact h
  | cons a l ih =>
    intro cur hag hc
    obtain ⟨hne, hent, nx, hnx, hrest⟩ := hc
    refine ⟨hne, hent, nx, ?_, ?_⟩
    · rw [hag cur a (List.mem_cons_self a l) hent]; exact hnx
    · exact ih nx (fun p b hb hp => hag p b (List.mem_cons_of_mem a hb) hp) hrest

/-! ## The test list -/

theorem test_next_set_next (m : TestMem) (p v q : list_loc) :
    (m.set_next p v).next q = if q = p then v else m.next q := by
  cases p <;> cases q <;> simp [TestMem.set_next, TestMem.next, Function.update]
  split <;> simp_all

theorem test_next_set_prev (m : TestMem) (p v q : list_loc) :
    (m.set_prev p v).next q = m.next q := by
  cases p <;> cases q <;> simp [TestMem.set_prev, TestMem.next, Function.update]
  split <;> simp_all

theorem test_prev_set_prev (m : TestMem) (p v q : list_loc) :
    (m.set_prev p v).prev q = if q = p then v else m.prev q := by
  cases p <;> cases q <;> simp [TestMem.set_prev, TestMem.prev, Function.update]
  split <;> simp_all

theorem test_prev_set_next (m : TestMem) (p v q : list_loc) :
    (m.set_next p v).prev q = m.prev q := by
  cases p <;> cases q <;> simp [TestMem.set_next, TestMem.prev, Function.update]
  split <;> simp_all

theorem register_test_next (m : TestMem) (a : Nat) (q : list_loc) :
    (register_test m a).next q =
      if q = list_loc.entry a then list_loc.head
      else if q = m.prev list_loc.head then list_loc.entry a
      else m.next q := by
  simp only [register_test, ctest_impl_list_add_tail, ctest_impl_list_add_between,
    test_next_set_prev, test_next_set_next]

theorem register_test_prev_head (m : TestMem) (a : Nat) :
    (register_test m a).prev list_loc.head = list_loc.entry a := by
  simp only [register_test, ctest_impl_list_add_tail, ctest_impl_list_add_between,
    test_prev_set_prev, if_true]

/-- The members of a test record other than its links, which registration leaves alone. -/
theorem register_test_fields (m : TestMem) (a c : Nat) :
    ((register_test m a).tests c).ssname = (m.tests c).ssname ∧
    ((register_test m a).tests c).ttname = (m.tests c).ttname ∧
    ((register_test m a).tests c).run = (m.tests c).run ∧
    ((register_test m a).tests c).data = (m.tests c).data ∧
    ((register_test m a).tests c).skip = (m.tests c).skip := by
  have key : ∀ (m : TestMem) (p v : list_loc),
      ((m.set_next p v).tests c).ssname = (m.tests c).ssname ∧
      ((m.set_next p v).tests c).ttname = (m.tests c).ttname ∧
      ((m.set_next p v).tests c).run = (m.tests c).run ∧
      ((m.set_next p v).tests c).data = (m.tests c).data ∧
      ((m.set_next p v).tests c).skip = (m.tests c).skip := by
    intro m p v
    cases p with
    | head => simp [TestMem.set_next]
    | entry b =>
      by_cases h : c = b
      · subst h; simp [TestMem.set_next]
      · simp [TestMem.set_next, Function.update, h]
  have key2 : ∀ (m : TestMem) (p v : list_loc),
      ((m.set_prev p v).tests c).ssname = (m.tests c).ssname ∧
      ((m.set_prev p v).tests c).ttname = (m.tests c).ttname ∧
      ((m.set_prev p v).tests c).run = (m.tests c).run ∧
      ((m.set_prev p v).tests c).data = (m.tests c).data ∧
      ((m.set_prev p v).tests c).skip = (m.tests c).skip := by
    intro m p v
    cases p with
    | head => simp [TestMem.set_prev]
    | entry b =>
      by_cases h : c = b
      · subst h; simp [TestMem.set_prev]
      · simp [TestMem.set_prev, Function.update, h]
  simp only [register_test, ctest_impl_list_add_tail, ctest_impl_list_add_between]
  obtain ⟨h1, h2, h3, h4, h5⟩ := key m (m.prev list_loc.head) (list_loc.entry a)
  obtain ⟨i1, i2, i3, i4, i5⟩ := key2 (m.set_next (m.prev list_loc.head) (list_loc.entry a))
    (list_loc.entry a) (m.prev list_loc.head)
  obtain ⟨j1, j2, j3, j4, j5⟩ := key
    ((m.set_next (m.prev list_loc.head) (list_loc.entry a)).set_prev
      (list_loc.entry a) (m.prev list_loc.head)) (list_loc.entry a) list_loc.head
  obtain ⟨k1, k2, k3, k4, k5⟩ := key2
    (((m.set_next (m.prev list_loc.head) (list_loc.entry a)).set_prev
      (list_loc.entry a) (m.prev list_loc.head)).set_next (list_loc.entry a) list_loc.head)
    list_loc.head (list_loc.entry a)
  refine ⟨?_, ?_, ?_, ?_, ?_⟩
  · rw [k1, j1, i1, h1]
  · rw [k2, j2, i2, h2]
  · rw [k3, j3, i3, h3]
  · rw [k4, j4, i4, h4]
  · rw [k5, j5, i5, h5]

theorem to_entry_eq_some (p : list_loc) (a : Nat) :
    list_loc.to_entry p = some a ↔ p = list_loc.entry a := by
  cases p <;> simp [list_loc.to_entry]

/-- Appending behind the last record of a chain. -/
theorem IsChain_snoc (next next2 : list_loc → list_loc) (a : Nat) (l : List Nat) :
    ∀ cur, l ≠ [] → l.Nodup → a ∉ l →
      next2 (list_loc.entry a) = list_loc.head →
      (∀ b, l.getLast? = some b → next2 (list_loc.entry b) = list_loc.entry a) →
      (∀ c, c ∈ l → l.getLast? ≠ some c → next2 (list_loc.entry c) = next (list_loc.entry c)) →
      IsChain (fun p => some (next p)) list_loc.to_entry list_loc.head cur l →
      IsChain (fun p => some (next2 p)) list_loc.to_entry list_loc.head cur (l ++ [a]) := by
  induction l with
  | nil => intro cur h; exact absurd rfl h
  | cons b l ih =>
    intro cur _ hnd ha h1 h2 h3 hc
    obtain ⟨hne, hent, nx, hnx, hrest⟩ := hc
    have hnx2 : next cur = nx := by simpa using hnx
    have hcur : cur = list_loc.entry b := (to_entry_eq_some cur b).1 hent
    subst hcur
    have hbl : b ∉ l := (List.nodup_cons.1 hnd).1
    have hndl : l.Nodup := (List.nodup_cons.1 hnd).2
    have hal : a ∉ l := fun h => ha (List.mem_cons_of_mem b h)
    cases l with
    | nil =>
      have hnxh : nx = list_loc.head := hrest
      refine ⟨hne, hent, list_loc.entry a, ?_, ?_⟩
      · simp [h2 b (by simp)]
      · refine ⟨by simp, by simp [list_loc.to_entry], list_loc.head, by simp [h1], rfl⟩
    | cons c l2 =>
      have hlast : (b :: c :: l2).getLast? = (c :: l2).getLast? := by
        simp [List.getLast?_cons_cons]
      refine ⟨hne, hent, nx, ?_, ?_⟩
      · have hb : (b :: c :: l2).getLast? ≠ some b := by
          rw [hlast]
          intro h
          exact hbl (List.mem_of_getLast?_eq_some h)
        simp [h3 b (List.mem_cons_self b _) hb, hnx2]
      · apply ih nx (by simp) hndl hal h1
        · intro d hd; exact h2 d (by rw [hlast]; exact hd)
        · intro d hd hd2
          exact h3 d (List.mem_cons_of_mem b hd) (by rw [hlast]; exact hd2)
        · exact hrest

theorem init_holds (tests : Nat → ctest) : (TestMem.init tests).Holds [] := by
  refine ⟨?_, ?_, List.nodup_nil⟩
  · show (TestMem.init tests).next list_loc.head = list_loc.head
    rfl
  · rfl

theorem register_test_holds (m : TestMem) (l : List Nat) (a : Nat)
    (h : m.Holds l) (ha : a ∉ l) : (register_test m a).Holds (l ++ [a]) := by
  obtain ⟨hchain, hprev, hnd⟩ := h
  refine ⟨?_, ?_, ?_⟩
  · cases l with
    | nil =>
      have hn : m.next list_loc.head = list_loc.head := hchain
      have hp : m.prev list_loc.head = list_loc.head := by simpa using hprev
      have h1 : (register_test m a).next list_loc.head = list_loc.entry a := by
        rw [register_test_next, hp]; simp
      have h2 : (register_test m a).next (list_loc.entry a) = list_loc.head := by
        rw [register_test_next]; simp
      rw [h1]
      exact ⟨by simp, by simp [list_loc.to_entry], list_loc.head, by simp [h2], rfl⟩
    | cons b l2 =>
      obtain ⟨last, hlast⟩ : ∃ last, (b :: l2).getLast? = some last := by
        cases hx : (b :: l2).getLast? with
        | none => simp at hx
        | some x => exact ⟨x, rfl⟩
      have hp : m.prev list_loc.head = list_loc.entry last := by
        rw [hprev, hlast]
      have hlastmem : last ∈ b :: l2 := List.mem_of_getLast?_eq_some hlast
      have h0 : (register_test m a).next list_loc.head = m.next list_loc.head := by
        rw [register_test_next, hp]; simp
      rw [h0]
      apply IsChain_snoc m.next (register_test m a).next a (b :: l2) _ (by simp) hnd ha
      · rw [register_test_next]; simp
      · intro c hc
        have hcl : c = last := by
          rw [hlast] at hc; exact (Option.some.inj hc).symm
        subst hcl
        have hca : c ≠ a := fun h => ha (h ▸ hlastmem)
        rw [register_test_next, hp]; simp [hca]
      · intro c hc hc2
        have hca : c ≠ a := fun h => ha (h ▸ hc)
        have hcl : c ≠ last := fun h => hc2 (by rw [hlast, h])
        rw [register_test_next, hp]; simp [hca, hcl]
      · exact hchain
  · rw [register_test_prev_head]; simp
  · exact List.nodup_append.2 ⟨hnd, List.nodup_singleton a, by
      intro x hx hxa; exact ha (by rw [List.mem_singleton] at hxa; exact hxa ▸ hx)⟩

theorem foldl_register_test_holds (as : List Nat) :
    ∀ (m : TestMem) (l : List Nat), m.Holds l → (l ++ as).Nodup →
      (as.foldl register_test m).Holds (l ++ as) := by
  induction as with
  | nil => intro m l h _; simpa using h
  | cons a as ih =>
    intro m l h hnd
    have ha : a ∉ l := by
      intro hmem
      have := (List.nodup_append.1 hnd).2.2
      exact this hmem (List.mem_cons_self a as)
    have := ih (register_test m a) (l ++ [a]) (register_test_holds m l a h ha)
      (by simpa using hnd)
    simpa using this

theorem foldl_register_test_fields (as : List Nat) :
    ∀ (m : TestMem) (c : Nat),
      ((as.foldl register_test m).tests c).ssname = (m.tests c).ssname ∧
      ((as.foldl register_test m).tests c).ttname = (m.tests c).ttname ∧
      ((as.foldl register_test m).tests c).run = (m.tests c).run ∧
      ((as.foldl register_test m).tests c).data = (m.tests c).data ∧
      ((as.foldl register_test m).tests c).skip = (m.tests c).skip := by
  induction as with
  | nil => intro m c; simp
  | cons a as ih =>
    intro m c
    obtain ⟨h1, h2, h3, h4, h5⟩ := ih (register_test m a) c
    obtain ⟨k1, k2, k3, k4, k5⟩ := register_test_fields m a c
    simp only [List.foldl_cons]
    exact ⟨h1.trans k1, h2.trans k2, h3.trans k3, h4.trans k4, h5.trans k5⟩

/-! ## The hash of a name -/

theorem char_at_cstr (x : List Nat) : ∀ i, i ≤ strlen x → char_at (cstr x) i = char_at x i := by
  induction x with
  | nil => intro i _; rfl
  | cons c cs ih =>
    intro i hi
    by_cases hc : c = 0
    · subst hc
      have : i = 0 := by simpa [strlen] using hi
      subst this
      simp [cstr_cons_zero, char_at]
    · rw [cstr_cons_ne hc]
      cases i with
      | zero => simp [char_at]
      | succ j =>
        have hj : j ≤ strlen cs := by simpa [strlen, hc] using hi
        have := ih j hj
        simpa [char_at] using this

theorem fnv1a32_cstr (char_signed : Bool) (x : List Nat) :
    ∀ n, n ≤ strlen x →
      ctest_impl_fnv1a32 char_signed (cstr x) n = ctest_impl_fnv1a32 char_signed x n := by
  intro n
  induction n with
  | zero => intro h; simp [ctest_impl_fnv1a32, char_at_cstr x 0 h]
  | succ k ih =>
    intro h
    simp [ctest_impl_fnv1a32, char_at_cstr x (k + 1) h, ih (by omega)]

theorem hash_suite_cstr (char_signed : Bool) (x : List Nat) :
    ctest_impl_hash_suite char_signed x =
      ctest_impl_fnv1a32 char_signed (cstr x) (cstr x).length := by
  unfold ctest_impl_hash_suite
  rw [← fnv1a32_cstr char_signed x (strlen x) (le_refl _), strlen_eq_length_cstr]

theorem hash_suite_congr (char_signed : Bool) (x y : List Nat) (h : cstr x = cstr y) :
    ctest_impl_hash_suite char_signed x = ctest_impl_hash_suite char_signed y := by
  rw [hash_suite_cstr, hash_suite_cstr, h]

/-! ## The suite index -/

theorem slist_to_entry_eq_some (p : slist_loc) (a : Nat) :
    slist_loc.to_entry p = some a ↔ p = slist_loc.entry a := by
  cases p <;> simp [slist_loc.to_entry]

theorem fold_entries_find (m : SuiteMem) (sname : List Nat) (l : List Nat) :
    fold_entries (fun iter (_ : Unit) =>
        if strcmp (m.suites iter).name sname = 0 then some (Sum.inr iter)
        else some (Sum.inl ())) l () =
      some (match l.find? (fun a => decide (strcmp (m.suites a).name sname = 0)) with
        | some a => Sum.inr a
        | none => Sum.inl ()) := by
  induction l with
  | nil => rfl
  | cons a l ih =>
    by_cases h : strcmp (m.suites a).name sname = 0
    · simp [fold_entries, List.find?, h]
    · simp [fold_entries, List.find?, h, ih]

/-- On a table whose chains are `chains`, `ctest_impl_find_suite` returns the first record
of the name's bucket whose name compares equal. -/
theorem find_suite_eq (char_signed : Bool) (m : SuiteMem) (chains : Nat → List Nat)
    (h : m.Chains chains) (sname : List Nat) (fuel : Nat)
    (hfuel : (chains (ctest_impl_hash_suite char_signed sname % HASH_SIZE)).length < fuel) :
    ctest_impl_find_suite char_signed fuel m sname =
      some ((chains (ctest_impl_hash_suite char_signed sname % HASH_SIZE)).find?
        (fun a => decide (strcmp (m.suites a).name sname = 0))) := by
  have hk : ctest_impl_hash_suite char_signed sname % HASH_SIZE < HASH_SIZE :=
    Nat.mod_lt _ (by decide)
  obtain ⟨first, hfirst, hchain⟩ := h _ hk
  unfold ctest_impl_find_suite
  simp only [SuiteMem.next, hfirst]
  rw [for_each_entry_eq_fold _ _ _ _ _ fuel first () hchain hfuel, fold_entries_find]
  cases (chains (ctest_impl_hash_suite char_signed sname % HASH_SIZE)).find?
      (fun a => decide (strcmp (m.suites a).name sname = 0)) <;> rfl

theorem suite_next_set_next (m : SuiteMem) (p q : slist_loc) (v : Option slist_loc) :
    (m.set_next p v).next q = if q = p then v else m.next q := by
  cases p <;> cases q <;> simp [SuiteMem.set_next, SuiteMem.next, Function.update]
  all_goals split <;> simp_all

theorem suites_set_next (m : SuiteMem) (p : slist_loc) (v : Option slist_loc) (c : Nat) :
    ((m.set_next p v).suites c).name = (m.suites c).name ∧
    ((m.set_next p v).suites c).setup = (m.suites c).setup ∧
    ((m.set_next p v).suites c).teardown = (m.suites c).teardown := by
  cases p with
  | head i => simp [SuiteMem.set_next]
  | entry b =>
    by_cases h : c = b
    · subst h; simp [SuiteMem.set_next]
    · simp [SuiteMem.set_next, Function.update, h]

theorem add_suite_next (char_signed : Bool) (m : SuiteMem) (a : Nat) (q : slist_loc) :
    (ctest_impl_add_suite char_signed m a).next q =
      if q = slist_loc.head (ctest_impl_hash_suite char_signed (m.suites a).name % HASH_SIZE)
      then some (slist_loc.entry a)
      else if q = slist_loc.entry a
      then m.next (slist_loc.head (ctest_impl_hash_suite char_signed (m.suites a).name % HASH_SIZE))
      else m.next q := by
  simp only [ctest_impl_add_suite, ctest_impl_slist_add_helper, ctest_impl_slist_add,
    suite_next_set_next]

theorem add_suite_suites (char_signed : Bool) (m : SuiteMem) (a c : Nat) :
    ((ctest_impl_add_suite char_signed m a).suites c).name = (m.suites c).name ∧
    ((ctest_impl_add_suite char_signed m a).suites c).setup = (m.suites c).setup ∧
    ((ctest_impl_add_suite char_signed m a).suites c).teardown = (m.suites c).teardown := by
  simp only [ctest_impl_add_suite, ctest_impl_slist_add_helper, ctest_impl_slist_add]
  obtain ⟨h1, h2, h3⟩ := suites_set_next m (slist_loc.entry a)
    (m.next (slist_loc.head (ctest_impl_hash_suite char_signed (m.suites a).name % HASH_SIZE))) c
  obtain ⟨k1, k2, k3⟩ := suites_set_next
    (m.set_next (slist_loc.entry a)
      (m.next (slist_loc.head (ctest_impl_hash_suite char_signed (m.suites a).name % HASH_SIZE))))
    (slist_loc.head (ctest_impl_hash_suite char_signed (m.suites a).name % HASH_SIZE))
    (some (slist_loc.entry a)) c
  exact ⟨k1.trans h1, k2.trans h2, k3.trans h3⟩

/-- A memory that agrees with a well-formed one on the table and on the names and links of
the chained records is well-formed with the same chains. -/
theorem wf_of_agree (char_signed : Bool) (m m2 : SuiteMem) (chains : Nat → List Nat)
    (h : m.Wf char_signed chains)
    (htable : m2.ctest_impl_suite_hashtable = m.ctest_impl_suite_hashtable)
    (hrec : ∀ i, i < HASH_SIZE → ∀ c ∈ chains i,
      (m2.suites c).name = (m.suites c).name ∧ (m2.suites c).list = (m.suites c).list) :
    m2.Wf char_signed chains := by
  obtain ⟨hch, hnd, hbk, hdist⟩ := h
  refine ⟨?_, hnd, ?_, ?_⟩
  · intro i hi
    obtain ⟨first, hfirst, hchain⟩ := hch i hi
    refine ⟨first, by rw [htable]; exact hfirst, ?_⟩
    apply IsChain_congr m.next m2.next _ _ _ _ _ hchain
    intro p c hc hp
    have : p = slist_loc.entry c := (slist_to_entry_eq_some p c).1 hp
    subst this
    exact (hrec i hi c hc).2
  · intro i hi a ha
    rw [(hrec i hi a ha).1]; exact hbk i hi a ha
  · intro i j hi hj a ha b hb hab
    rw [(hrec i hi a ha).1, (hrec j hj b hb).1] at hab
    exact hdist i j hi hj a ha b hb hab

theorem emplace_suite_found (char_signed : Bool) (m : SuiteMem) (chains : Nat → List Nat)
    (h : m.Wf char_signed chains) (fuel : Nat) (hfuel : ∀ i, i < HASH_SIZE → (chains i).length < fuel)
    (a b j : Nat) (hj : j < HASH_SIZE) (hb : b ∈ chains j)
    (hname : cstr (m.suites b).name = cstr (m.suites a).name) :
    ctest_impl_emplace_suite char_signed fuel m a = some (m, b) := by
  obtain ⟨hch, hnd, hbk, hdist⟩ := h
  have hk : ctest_impl_hash_suite char_signed (m.suites a).name % HASH_SIZE < HASH_SIZE :=
    Nat.mod_lt _ (by decide)
  have hjk : j = ctest_impl_hash_suite char_signed (m.suites a).name % HASH_SIZE := by
    rw [← hbk j hj b hb, hash_suite_congr char_signed _ _ hname]
  subst hjk
  unfold ctest_impl_emplace_suite
  rw [find_suite_eq char_signed m chains hch _ fuel (hfuel _ hk)]
  cases hf : (chains (ctest_impl_hash_suite char_signed (m.suites a).name % HASH_SIZE)).find?
      (fun c => decide (strcmp (m.suites c).name (m.suites a).name = 0)) with
  | none =>
    have := List.find?_eq_none.1 hf b hb
    simp [strcmp_eq_zero_iff, hname] at this
  | some c =>
    have hc : c ∈ chains (ctest_impl_hash_suite char_signed (m.suites a).name % HASH_SIZE) :=
      List.mem_of_find?_eq_some hf
    have hp := List.find?_some hf
    have hcn : cstr (m.suites c).name = cstr (m.suites a).name := by
      simpa [strcmp_eq_zero_iff] using hp
    have : c = b := hdist _ _ hk hk c hc b hb (hcn.trans hname.symm)
    subst this
    rfl

theorem emplace_suite_fresh (char_signed : Bool) (m : SuiteMem) (chains : Nat → List Nat)
    (h : m.Wf char_signed chains) (fuel : Nat) (hfuel : ∀ i, i < HASH_SIZE → (chains i).length < fuel)
    (a : Nat)
    (hnew : ∀ j, j < HASH_SIZE → ∀ b ∈ chains j, cstr (m.suites b).name ≠ cstr (m.suites a).name) :
    ctest_impl_emplace_suite char_signed fuel m a =
        some (ctest_impl_add_suite char_signed m a, a) ∧
      (ctest_impl_add_suite char_signed m a).Wf char_signed
        (Function.update chains (ctest_impl_hash_suite char_signed (m.suites a).name % HASH_SIZE)
          (a :: chains (ctest_impl_hash_suite char_signed (m.suites a).name % HASH_SIZE))) := by
  obtain ⟨hch, hnd, hbk, hdist⟩ := h
  have hk : ctest_impl_hash_suite char_signed (m.suites a).name % HASH_SIZE < HASH_SIZE :=
    Nat.mod_lt _ (by decide)
  generalize hkdef : ctest_impl_hash_suite char_signed (m.suites a).name % HASH_SIZE = k at hk
  have hanot : ∀ j, j < HASH_SIZE → a ∉ chains j := fun j hj ha => hnew j hj a ha rfl
  constructor
  · unfold ctest_impl_emplace_suite
    rw [find_suite_eq char_signed m chains hch _ fuel (by rw [hkdef]; exact hfuel _ hk), hkdef]
    cases hf : (chains k).find?
        (fun c => decide (strcmp (m.suites c).name (m.suites a).name = 0)) with
    | none => rfl
    | some c =>
      have hc : c ∈ chains k := List.mem_of_find?_eq_some hf
      have hp := List.find?_some hf
      have hcn : cstr (m.suites c).name = cstr (m.suites a).name := by
        simpa [strcmp_eq_zero_iff] using hp
      exact absurd hcn (hnew k hk c hc)
  · have hnext : ∀ i, i < HASH_SIZE → ∀ c ∈ chains i,
        (ctest_impl_add_suite char_signed m a).next (slist_loc.entry c) =
          m.next (slist_loc.entry c) := by
      intro i hi c hc
      have hca : c ≠ a := fun e => hanot i hi (e ▸ hc)
      rw [add_suite_next]; simp [hca]
    have hcongr : ∀ i, i < HASH_SIZE → ∀ hd first,
        IsChain m.next slist_loc.to_entry hd first (chains i) →
        IsChain (ctest_impl_add_suite char_signed m a).next slist_loc.to_entry hd first
          (chains i) := by
      intro i hi hd first hc
      apply IsChain_congr m.next _ _ _ _ _ _ hc
      intro p c hc hp
      have : p = slist_loc.entry c := (slist_to_entry_eq_some p c).1 hp
      subst this
      exact hnext i hi c hc
    refine ⟨?_, ?_, ?_, ?_⟩
    · intro i hi
      obtain ⟨first, hfirst, hchain⟩ := hch i hi
      by_cases hik : i = k
      · subst hik
        refine ⟨slist_loc.entry a, ?_, ?_⟩
        · show (ctest_impl_add_suite char_signed m a).next (slist_loc.head i) = _
          rw [add_suite_next, hkdef]; simp
        · rw [Function.update_same]
          refine ⟨by simp, by simp [slist_loc.to_entry], first, ?_, hcongr i hi _ _ hchain⟩
          rw [add_suite_next, hkdef]; simp
          exact hfirst
      · refine ⟨first, ?_, ?_⟩
        · show (ctest_impl_add_suite char_signed m a).next (slist_loc.head i) = _
          rw [add_suite_next, hkdef]; simp [hik]
          exact hfirst
        · rw [Function.update_noteq hik]
          exact hcongr i hi _ _ hchain
    · intro i hi
      by_cases hik : i = k
      · subst hik
        rw [Function.update_same]
        exact List.nodup_cons.2 ⟨hanot i hi, hnd i hi⟩
      · rw [Function.update_noteq hik]; exact hnd i hi
    · intro i hi c hc
      rw [(add_suite_suites char_signed m a c).1]
      by_cases hik : i = k
      · subst hik
        rw [Function.update_same] at hc
        rcases List.mem_cons.1 hc with hca | hc
        · subst hca; exact hkdef
        · exact hbk i hi c hc
      · rw [Function.update_noteq hik] at hc
        exact hbk i hi c hc
    · intro i j hi hj c hc d hd hcd
      rw [(add_suite_suites char_signed m a c).1, (add_suite_suites char_signed m a d).1] at hcd
      have hmem : ∀ i, i < HASH_SIZE → ∀ c,
          c ∈ Function.update chains k (a :: chains k) i → c = a ∨ c ∈ chains i := by
        intro i hi c hc
        by_cases hik : i = k
        · subst hik
          rw [Function.update_same] at hc
          exact List.mem_cons.1 hc
        · rw [Function.update_noteq hik] at hc
          exact Or.inr hc
      rcases hmem i hi c hc with hca | hc2
      · rcases hmem j hj d hd with hda | hd2
        · rw [hca, hda]
        · subst hca
          exact absurd hcd.symm (hnew j hj d hd2)
      · rcases hmem j hj d hd with hda | hd2
        · subst hda
          exact absurd hcd (hnew i hi c hc2)
        · exact hdist i j hi hj c hc2 d hd2 hcd

theorem hash_init_loop_apply (n : Nat) :
    ∀ (heads : Nat → Option slist_loc) (i j : Nat),
      hash_init_loop heads i n j =
        if i ≤ j ∧ j < i + n then some (slist_loc.head j) else heads j := by
  induction n with
  | zero =>
    intro heads i j
    have : ¬ (i ≤ j ∧ j < i) := by omega
    simp only [hash_init_loop, Nat.add_zero, this, if_false]
  | succ n ih =>
    intro heads i j
    rw [hash_init_loop, ih]
    by_cases hij : j = i
    · subst hij; simp
    · by_cases h1 : i + 1 ≤ j ∧ j < i + 1 + n
      · have h2 : i ≤ j ∧ j < i + (n + 1) := by omega
        simp [h1, h2]
      · have h2 : ¬ (i ≤ j ∧ j < i + (n + 1)) := by omega
        simp [h1, h2, Function.update_noteq hij]

theorem init_helper_apply (heads : Nat → Option slist_loc) (j : Nat) (hj : j < HASH_SIZE) :
    ctest_impl_hash_init_helper heads HASH_SIZE j = some (slist_loc.head j) := by
  unfold ctest_impl_hash_init_helper
  rw [hash_init_loop_apply]; simp [hj]

theorem wf_of_empty (char_signed : Bool) (m : SuiteMem)
    (h : ∀ i, i < HASH_SIZE → m.ctest_impl_suite_hashtable i = some (slist_loc.head i)) :
    m.Wf char_signed (fun _ => []) := by
  refine ⟨?_, ?_, ?_, ?_⟩
  · intro i hi; exact ⟨slist_loc.head i, h i hi, rfl⟩
  · intro i _; exact List.nodup_nil
  · intro i _ a ha; simp at ha
  · intro i j _ _ a ha; simp at ha

theorem init_once_of_wf (char_signed : Bool) (m : SuiteMem) (chains : Nat → List Nat)
    (h : m.Wf char_signed chains) : ctest_impl_hash_init_once m = m := by
  obtain ⟨first, hfirst, _⟩ := h.1 0 (by decide)
  simp [ctest_impl_hash_init_once, ctest_impl_hash_init_once_helper, hfirst]

theorem init_once_prior (char_signed : Bool) (m : SuiteMem) (chains : Nat → List Nat)
    (h : m.Prior char_signed chains) : (ctest_impl_hash_init_once m).Wf char_signed chains := by
  rcases h with ⟨hu, hc⟩ | h
  · subst hc
    apply wf_of_empty
    intro i hi
    rcases hu with hz | hi0
    · simp only [ctest_impl_hash_init_once, ctest_impl_hash_init_once_helper, hz 0, if_true]
      exact init_helper_apply _ i hi
    · simp only [ctest_impl_hash_init_once, ctest_impl_hash_init_once_helper,
        hi0 0 (by decide)]
      simpa using hi0 i hi
  · rw [init_once_of_wf char_signed m chains h]; exact h

theorem init_once_idem (m : SuiteMem) :
    ctest_impl_hash_init_once (ctest_impl_hash_init_once m) = ctest_impl_hash_init_once m := by
  by_cases h0 : m.ctest_impl_suite_hashtable 0 = none
  · have : ctest_impl_hash_init_helper m.ctest_impl_suite_hashtable HASH_SIZE 0 ≠ none := by
      rw [init_helper_apply _ 0 (by decide)]; simp
    simp [ctest_impl_hash_init_once, ctest_impl_hash_init_once_helper, h0, this]
  · simp [ctest_impl_hash_init_once, ctest_impl_hash_init_once_helper, h0]

theorem fixture_init_once (char_signed : Bool) (fuel : Nat) (sname : List Nat)
    (member : fixture_member) (fn suite : Nat) (m : SuiteMem) :
    CTEST_IMPL_FIXTURE char_signed fuel sname member fn suite (ctest_impl_hash_init_once m) =
      CTEST_IMPL_FIXTURE char_signed fuel sname member fn suite m := by
  unfold CTEST_IMPL_FIXTURE
  rw [init_once_idem]

theorem wf_with_candidate (char_signed : Bool) (m : SuiteMem) (chains : Nat → List Nat)
    (h : m.Wf char_signed chains) (sname : List Nat) (a : Nat)
    (ha : ∀ i, i < HASH_SIZE → a ∉ chains i) :
    (m.with_candidate sname a).Wf char_signed chains := by
  apply wf_of_agree char_signed m (m.with_candidate sname a) chains h rfl
  intro i hi c hc
  have hca : c ≠ a := fun e => ha i hi (e ▸ hc)
  simp [SuiteMem.with_candidate, Function.update_noteq hca]

theorem wf_set_member (char_signed : Bool) (m : SuiteMem) (chains : Nat → List Nat)
    (h : m.Wf char_signed chains) (r : Nat) (member : fixture_member) (fn : Nat) :
    (m.set_member r member fn).Wf char_signed chains := by
  apply wf_of_agree char_signed m (m.set_member r member fn) chains h
  · cases member <;> rfl
  · intro i _ c _
    by_cases hcr : c = r
    · subst hcr; cases member <;> simp [SuiteMem.set_member]
    · cases member <;> simp [SuiteMem.set_member, Function.update_noteq hcr]

theorem set_member_name (m : SuiteMem) (r : Nat) (member : fixture_member) (fn c : Nat) :
    ((m.set_member r member fn).suites c).name = (m.suites c).name := by
  by_cases hcr : c = r
  · subst hcr; cases member <;> simp [SuiteMem.set_member]
  · cases member <;> simp [SuiteMem.set_member, Function.update_noteq hcr]

theorem set_member_setup (m : SuiteMem) (r : Nat) (member : fixture_member) (fn c : Nat) :
    ((m.set_member r member fn).suites c).setup =
      if c = r ∧ member = fixture_member.setup then some fn else (m.suites c).setup := by
  by_cases hcr : c = r
  · subst hcr; cases member <;> simp [SuiteMem.set_member]
  · cases member <;> simp [SuiteMem.set_member, Function.update_noteq hcr, hcr]

theorem set_member_teardown (m : SuiteMem) (r : Nat) (member : fixture_member) (fn c : Nat) :
    ((m.set_member r member fn).suites c).teardown =
      if c = r ∧ member = fixture_member.teardown then some fn else (m.suites c).teardown := by
  by_cases hcr : c = r
  · subst hcr; cases member <;> simp [SuiteMem.set_member]
  · cases member <;> simp [SuiteMem.set_member, Function.update_noteq hcr, hcr]

theorem with_candidate_same (m : SuiteMem) (sname : List Nat) (a : Nat) :
    (m.with_candidate sname a).suites a =
      { name := sname, setup := none, teardown := none, list := some (slist_loc.entry a) } := by
  simp [SuiteMem.with_candidate]

theorem with_candidate_other (m : SuiteMem) (sname : List Nat) (a c : Nat) (h : c ≠ a) :
    (m.with_candidate sname a).suites c = m.suites c := by
  simp [SuiteMem.with_candidate, Function.update_noteq h]

/-- A fixture registration for a name the index already holds, at record `b`. -/
theorem fixture_found (char_signed : Bool) (m : SuiteMem) (chains : Nat → List Nat)
    (h : m.Wf char_signed chains) (fuel : Nat)
    (hfuel : ∀ i, i < HASH_SIZE → (chains i).length < fuel)
    (sname : List Nat) (member : fixture_member) (fn a : Nat)
    (ha : ∀ i, i < HASH_SIZE → a ∉ chains i)
    (b j : Nat) (hj : j < HASH_SIZE) (hb : b ∈ chains j)
    (hname : cstr (m.suites b).name = cstr sname) :
    CTEST_IMPL_FIXTURE char_signed fuel sname member fn a m =
        some ((m.with_candidate sname a).set_member b member fn) ∧
      ((m.with_candidate sname a).set_member b member fn).Wf char_signed chains := by
  have hwf2 := wf_with_candidate char_signed m chains h sname a ha
  have hba : b ≠ a := fun e => ha j hj (e ▸ hb)
  constructor
  · unfold CTEST_IMPL_FIXTURE
    rw [init_once_of_wf char_signed m chains h]
    simp only
    rw [emplace_suite_found char_signed _ chains hwf2 fuel hfuel a b j hj hb
      (by rw [with_candidate_other m sname a b hba, with_candidate_same]; exact hname)]
  · exact wf_set_member char_signed _ chains hwf2 b member fn

/-- A fixture registration for a name the index does not hold yet. -/
theorem fixture_fresh (char_signed : Bool) (m : SuiteMem) (chains : Nat → List Nat)
    (h : m.Wf char_signed chains) (fuel : Nat)
    (hfuel : ∀ i, i < HASH_SIZE → (chains i).length < fuel)
    (sname : List Nat) (member : fixture_member) (fn a : Nat)
    (ha : ∀ i, i < HASH_SIZE → a ∉ chains i)
    (hnew : ∀ j, j < HASH_SIZE → ∀ b ∈ chains j, cstr (m.suites b).name ≠ cstr sname) :
    CTEST_IMPL_FIXTURE char_signed fuel sname member fn a m =
        some ((ctest_impl_add_suite char_signed (m.with_candidate sname a) a).set_member
          a member fn) ∧
      ((ctest_impl_add_suite char_signed (m.with_candidate sname a) a).set_member
          a member fn).Wf char_signed
        (Function.update chains (ctest_impl_hash_suite char_signed sname % HASH_SIZE)
          (a :: chains (ctest_impl_hash_suite char_signed sname % HASH_SIZE))) := by
  have hwf2 := wf_with_candidate char_signed m chains h sname a ha
  have hnew2 : ∀ j, j < HASH_SIZE → ∀ b ∈ chains j,
      cstr ((m.with_candidate sname a).suites b).name ≠
        cstr ((m.with_candidate sname a).suites a).name := by
    intro j hj b hb
    have hba : b ≠ a := fun e => ha j hj (e ▸ hb)
    rw [with_candidate_other m sname a b hba, with_candidate_same]
    exact hnew j hj b hb
  obtain ⟨he, hw⟩ := emplace_suite_fresh char_signed _ chains hwf2 fuel hfuel a hnew2
  rw [with_candidate_same] at hw
  constructor
  · unfold CTEST_IMPL_FIXTURE
    rw [init_once_of_wf char_signed m chains h]
    simp only
    rw [he]
  · exact wf_set_member char_signed _ _ hw a member fn

theorem set_member_hook (m : SuiteMem) (r : Nat) (member : fixture_member) (fn c : Nat)
    (member2 : fixture_member) :
    ((m.set_member r member fn).suites c).hook member2 =
      if c = r ∧ member2 = member then some fn else (m.suites c).hook member2 := by
  cases member2 <;> cases member <;>
    simp [ctest_impl_suite.hook, set_member_setup, set_member_teardown]

/-- Two fixture registrations for one name, for different members, on a well-formed
index: they end on one record of that name, which has both members set. -/
theorem fixture_two (char_signed : Bool) (m : SuiteMem) (chains : Nat → List Nat)
    (h : m.Wf char_signed chains) (fuel : Nat)
    (hfuel : ∀ i, i < HASH_SIZE → (chains i).length + 1 < fuel)
    (sname : List Nat) (member1 member2 : fixture_member) (hmem : member1 ≠ member2)
    (fn1 fn2 a1 a2 : Nat)
    (ha1 : ∀ i, i < HASH_SIZE → a1 ∉ chains i) (ha2 : ∀ i, i < HASH_SIZE → a2 ∉ chains i)
    (ha : a1 ≠ a2) :
    ∃ m2 chains2 rcd,
      (CTEST_IMPL_FIXTURE char_signed fuel sname member1 fn1 a1 m).bind
        (CTEST_IMPL_FIXTURE char_signed fuel sname member2 fn2 a2) = some m2 ∧
      m2.Wf char_signed chains2 ∧
      (∃ i, i < HASH_SIZE ∧ rcd ∈ chains2 i) ∧
      cstr (m2.suites rcd).name = cstr sname ∧
      (m2.suites rcd).hook member1 = some fn1 ∧ (m2.suites rcd).hook member2 = some fn2 := by
  have hfuel0 : ∀ i, i < HASH_SIZE → (chains i).length < fuel := fun i hi => by
    have := hfuel i hi; omega
  by_cases hpres : ∃ j, j < HASH_SIZE ∧ ∃ b ∈ chains j, cstr (m.suites b).name = cstr sname
  · obtain ⟨j, hj, b, hb, hname⟩ := hpres
    have hba1 : b ≠ a1 := fun e => ha1 j hj (e ▸ hb)
    have hba2 : b ≠ a2 := fun e => ha2 j hj (e ▸ hb)
    obtain ⟨e1, w1⟩ := fixture_found char_signed m chains h fuel hfuel0 sname member1 fn1 a1
      ha1 b j hj hb hname
    have hname1 : cstr (((m.with_candidate sname a1).set_member b member1 fn1).suites b).name =
        cstr sname := by
      rw [set_member_name, with_candidate_other m sname a1 b hba1]; exact hname
    obtain ⟨e2, w2⟩ := fixture_found char_signed _ chains w1 fuel hfuel0 sname member2 fn2 a2
      ha2 b j hj hb hname1
    refine ⟨_, chains, b, ?_, w2, ⟨j, hj, hb⟩, ?_, ?_, ?_⟩
    · rw [e1]; exact e2
    · rw [set_member_name, with_candidate_other _ sname a2 b hba2]; exact hname1
    · rw [set_member_hook, with_candidate_other _ sname a2 b hba2, set_member_hook]
      simp [hmem]
    · rw [set_member_hook]; simp
  · have hnew : ∀ j, j < HASH_SIZE → ∀ b ∈ chains j, cstr (m.suites b).name ≠ cstr sname :=
      fun j hj b hb hn => hpres ⟨j, hj, b, hb, hn⟩
    obtain ⟨e1, w1⟩ := fixture_fresh char_signed m chains h fuel hfuel0 sname member1 fn1 a1
      ha1 hnew
    have hk : ctest_impl_hash_suite char_signed sname % HASH_SIZE < HASH_SIZE :=
      Nat.mod_lt _ (by decide)
    generalize hkdef : ctest_impl_hash_suite char_signed sname % HASH_SIZE = k at hk e1 w1
    generalize hm1 : (ctest_impl_add_suite char_signed (m.with_candidate sname a1) a1).set_member
      a1 member1 fn1 = m1 at e1 w1
    have hfuel1 : ∀ i, i < HASH_SIZE →
        (Function.update chains k (a1 :: chains k) i).length < fuel := by
      intro i hi
      by_cases hik : i = k
      · subst hik; rw [Function.update_same]; simpa using hfuel i hi
      · rw [Function.update_noteq hik]; exact hfuel0 i hi
    have ha2b : ∀ i, i < HASH_SIZE → a2 ∉ Function.update chains k (a1 :: chains k) i := by
      intro i hi
      by_cases hik : i = k
      · subst hik; rw [Function.update_same]
        intro hm
        rcases List.mem_cons.1 hm with e | hm
        · exact ha e.symm
        · exact ha2 i hi hm
      · rw [Function.update_noteq hik]; exact ha2 i hi
    have hmem1 : a1 ∈ Function.update chains k (a1 :: chains k) k := by
      rw [Function.update_same]; exact List.mem_cons_self _ _
    have hname1 : cstr (m1.suites a1).name = cstr sname := by
      rw [← hm1, set_member_name, (add_suite_suites char_signed _ a1 a1).1, with_candidate_same]
    have hhook1 : (m1.suites a1).hook member1 = some fn1 := by
      rw [← hm1, set_member_hook]; simp
    obtain ⟨e2, w2⟩ := fixture_found char_signed m1 _ w1 fuel hfuel1 sname member2 fn2 a2
      ha2b a1 k hk hmem1 hname1
    refine ⟨_, _, a1, ?_, w2, ⟨k, hk, hmem1⟩, ?_, ?_, ?_⟩
    · rw [e1]; exact e2
    · rw [set_member_name, with_candidate_other _ sname a2 a1 ha]; exact hname1
    · rw [set_member_hook, with_candidate_other _ sname a2 a1 ha]
      simp [hmem, hhook1]
    · rw [set_member_hook]; simp

theorem one_suite_of_wf (char_signed : Bool) (r : Option SuiteMem) (sname : List Nat)
    (setup_fn teardown_fn : Nat)
    (h : ∃ m chains rcd, r = some m ∧ m.Wf char_signed chains ∧
      (∃ i, i < HASH_SIZE ∧ rcd ∈ chains i) ∧ cstr (m.suites rcd).name = cstr sname ∧
      (m.suites rcd).setup = some setup_fn ∧ (m.suites rcd).teardown = some teardown_fn) :
    OneSuiteWithHooks r sname setup_fn teardown_fn := by
  obtain ⟨m, chains, rcd, hr, ⟨hch, hnd, hbk, hdist⟩, ⟨i, hi, hmem⟩, hname, hs, ht⟩ := h
  refine ⟨m, chains, rcd, hr, hch, hnd, ⟨i, hi, hmem⟩, ?_, ?_, hs, ht⟩
  · intro j hj b hb
    constructor
    · intro hbn
      exact hdist j i hj hi b hb rcd hmem (hbn.trans hname.symm)
    · intro e; rw [e]; exact hname
  · intro i1 j1 hi1 hj1 h1 h2
    rw [← hbk i1 hi1 rcd h1, ← hbk j1 hj1 rcd h2]

/-- C9: for every suite name and every prior state of the suite index (untouched, or
well-formed), registering a setup hook and a teardown hook for the name through
`CTEST_IMPL_FIXTURE`, in either order and from two distinct fresh candidate records, leaves
exactly one record of that name in the index, with both hooks set to the registered
functions. -/
theorem fixture_setup_teardown_one_suite (char_signed : Bool) (m : SuiteMem)
    (chains : Nat → List Nat) (sname : List Nat) (setup_fn teardown_fn a1 a2 fuel : Nat)
    (hprior : m.Prior char_signed chains)
    (hfuel : ∀ i, i < HASH_SIZE → (chains i).length + 1 < fuel)
    (ha1 : ∀ i, i < HASH_SIZE → a1 ∉ chains i) (ha2 : ∀ i, i < HASH_SIZE → a2 ∉ chains i)
    (ha : a1 ≠ a2) :
    OneSuiteWithHooks
      ((CTEST_IMPL_FIXTURE char_signed fuel sname fixture_member.setup setup_fn a1 m).bind
        (CTEST_IMPL_FIXTURE char_signed fuel sname fixture_member.teardown teardown_fn a2))
      sname setup_fn teardown_fn ∧
    OneSuiteWithHooks
      ((CTEST_IMPL_FIXTURE char_signed fuel sname fixture_member.teardown teardown_fn a2 m).bind
        (CTEST_IMPL_FIXTURE char_signed fuel sname fixture_member.setup setup_fn a1))
      sname setup_fn teardown_fn := by
  have hwf := init_once_prior char_signed m chains hprior
  constructor
  · apply one_suite_of_wf char_signed
    rw [← fixture_init_once]
    obtain ⟨m2, chains2, rcd, e, w, hm, hn, h1, h2⟩ :=
      fixture_two char_signed _ chains hwf fuel hfuel sname fixture_member.setup
        fixture_member.teardown (by decide) setup_fn teardown_fn a1 a2 ha1 ha2 ha
    exact ⟨m2, chains2, rcd, e, w, hm, hn, h1, h2⟩
  · apply one_suite_of_wf char_signed
    rw [← fixture_init_once]
    obtain ⟨m2, chains2, rcd, e, w, hm, hn, h1, h2⟩ :=
      fixture_two char_signed _ chains hwf fuel hfuel sname fixture_member.teardown
        fixture_member.setup (by decide) teardown_fn setup_fn a2 a1 ha2 ha1 (Ne.symm ha)
    exact ⟨m2, chains2, rcd, e, w, hm, hn, h2, h1⟩

theorem fixture_setup_teardown_one_suite_witness :
    OneSuiteWithHooks
      ((CTEST_IMPL_FIXTURE true 2 [83] fixture_member.setup 20 100 SuiteMem.zeroed).bind
        (CTEST_IMPL_FIXTURE true 2 [83] fixture_member.teardown 21 101))
      [83] 20 21 ∧
    OneSuiteWithHooks
      ((CTEST_IMPL_FIXTURE true 2 [83] fixture_member.teardown 21 101 SuiteMem.zeroed).bind
        (CTEST_IMPL_FIXTURE true 2 [83] fixture_member.setup 20 100))
      [83] 20 21 :=
  fixture_setup_teardown_one_suite true SuiteMem.zeroed (fun _ => []) [83] 20 21 100 101 2
    (Or.inl ⟨Or.inl (fun _ => rfl), rfl⟩) (fun _ _ => by simp) (fun _ _ => by simp)
    (fun _ _ => by simp) (by decide)

theorem emplace_seq_wf (char_signed : Bool) (fuel : Nat) (as : List Nat) :
    ∀ (m : SuiteMem) (chains : Nat → List Nat) (n : Nat), m.Wf char_signed chains →
      (∀ i, i < HASH_SIZE → (chains i).length ≤ n) → n + as.length < fuel →
      ∃ m2 chains2, emplace_seq char_signed fuel m as = some m2 ∧ m2.Wf char_signed chains2 ∧
        (∀ i, i < HASH_SIZE → (chains2 i).length ≤ n + as.length) := by
  induction as with
  | nil =>
    intro m chains n h hlen _
    exact ⟨m, chains, rfl, h, by simpa using hlen⟩
  | cons a as ih =>
    intro m chains n h hlen hfuel
    have hlen2 : n + 1 + as.length < fuel := by simp at hfuel; omega
    have hfuel0 : ∀ i, i < HASH_SIZE → (chains i).length < fuel := fun i hi => by
      have := hlen i hi; omega
    by_cases hpres : ∃ j, j < HASH_SIZE ∧ ∃ b ∈ chains j,
        cstr (m.suites b).name = cstr (m.suites a).name
    · obtain ⟨j, hj, b, hb, hname⟩ := hpres
      have e := emplace_suite_found char_signed m chains h fuel hfuel0 a b j hj hb hname
      obtain ⟨m2, chains2, e2, w2, l2⟩ := ih m chains (n + 1) h
        (fun i hi => Nat.le_succ_of_le (hlen i hi)) hlen2
      refine ⟨m2, chains2, ?_, w2, ?_⟩
      · simp only [emplace_seq, e]; exact e2
      · intro i hi; have := l2 i hi; simp; omega
    · have hnew : ∀ j, j < HASH_SIZE → ∀ b ∈ chains j,
          cstr (m.suites b).name ≠ cstr (m.suites a).name :=
        fun j hj b hb hn => hpres ⟨j, hj, b, hb, hn⟩
      obtain ⟨e, w⟩ := emplace_suite_fresh char_signed m chains h fuel hfuel0 a hnew
      obtain ⟨m2, chains2, e2, w2, l2⟩ := ih _ _ (n + 1) w
        (by
          intro i hi
          by_cases hik : i = ctest_impl_hash_suite char_signed (m.suites a).name % HASH_SIZE
          · rw [hik, Function.update_same]; simpa using hlen _ (hik ▸ hi)
          · rw [Function.update_noteq hik]; exact Nat.le_succ_of_le (hlen i hi)) hlen2
      refine ⟨m2, chains2, ?_, w2, ?_⟩
      · simp only [emplace_seq, e]; exact e2
      · intro i hi; have := l2 i hi; simp; omega

/-- C10: after any sequence of `ctest_impl_emplace_suite` calls on an initialised empty
index, every bucket chain lists each of its records once and no two records of the index
have the same name; and an emplace of a candidate whose name is present returns the
existing record of that name and leaves the memory, hence every chain, as it was. -/
theorem emplace_seq_one_record_per_name (char_signed : Bool)
    (heads : Nat → Option slist_loc) (suites : Nat → ctest_impl_suite) (as : List Nat)
    (fuel : Nat) (hfuel : as.length < fuel) :
    ∃ m chains,
      emplace_seq char_signed fuel
        { ctest_impl_suite_hashtable := ctest_impl_hash_init_helper heads HASH_SIZE
          suites := suites } as = some m ∧
      m.Chains chains ∧
      (∀ i, i < HASH_SIZE → (chains i).Nodup) ∧
      (∀ i j, i < HASH_SIZE → j < HASH_SIZE → ∀ a ∈ chains i, ∀ b ∈ chains j,
        cstr (m.suites a).name = cstr (m.suites b).name → a = b ∧ i = j) ∧
      (∀ cand j b, j < HASH_SIZE → b ∈ chains j →
        cstr (m.suites b).name = cstr (m.suites cand).name →
        ctest_impl_emplace_suite char_signed fuel m cand = some (m, b)) := by
  have h0 : SuiteMem.Wf char_signed
      { ctest_impl_suite_hashtable := ctest_impl_hash_init_helper heads HASH_SIZE
        suites := suites } (fun _ => []) := by
    apply wf_of_empty
    intro i hi
    dsimp only
    exact init_helper_apply heads i hi
  obtain ⟨m, chains, e, w, hl⟩ := emplace_seq_wf char_signed fuel as _ _ 0 h0
    (fun _ _ => by simp) (by simpa using hfuel)
  refine ⟨m, chains, e, w.1, w.2.1, ?_, ?_⟩
  · intro i j hi hj a ha b hb hab
    have hab2 := w.2.2.2 i j hi hj a ha b hb hab
    refine ⟨hab2, ?_⟩
    rw [← w.2.2.1 i hi a ha, ← w.2.2.1 j hj b hb, hab2]
  · intro cand j b hj hb hname
    exact emplace_suite_found char_signed m chains w fuel
      (fun i hi => by have := hl i hi; simp at this; omega) cand b j hj hb hname

theorem emplace_seq_one_record_per_name_witness :
    ∃ m chains,
      emplace_seq true 3
        { ctest_impl_suite_hashtable :=
            ctest_impl_hash_init_helper SuiteMem.zeroed.ctest_impl_suite_hashtable HASH_SIZE
          suites := fun a =>
            { name := [83, a % 2 + 1], setup := none, teardown := none,
              list := some (slist_loc.entry a) } } [1, 2] = some m ∧
      m.Chains chains ∧
      (∀ i, i < HASH_SIZE → (chains i).Nodup) ∧
      (∀ i j, i < HASH_SIZE → j < HASH_SIZE → ∀ a ∈ chains i, ∀ b ∈ chains j,
        cstr (m.suites a).name = cstr (m.suites b).name → a = b ∧ i = j) ∧
      (∀ cand j b, j < HASH_SIZE → b ∈ chains j →
        cstr (m.suites b).name = cstr (m.suites cand).name →
        ctest_impl_emplace_suite true 3 m cand = some (m, b)) :=
  emplace_seq_one_record_per_name true SuiteMem.zeroed.ctest_impl_suite_hashtable _ [1, 2] 3
    (by decide)

theorem find_suite_chain_lookup (char_signed : Bool) (sm : SuiteMem) (chains : Nat → List Nat)
    (hch : sm.Chains chains) (fuel : Nat)
    (hfuel : ∀ i, i < HASH_SIZE → (chains i).length < fuel) (sname : List Nat) :
    ctest_impl_find_suite char_signed fuel sm sname =
      some (chain_lookup char_signed sm chains sname) :=
  find_suite_eq char_signed sm chains hch sname fuel (hfuel _ (Nat.mod_lt _ (by decide)))

/-- The bucket chains of the example index: the one record of `Math`, in bucket 125. -/
theorem example_sm_chains :
    example_sm.Chains (Function.update (fun _ => []) 125 [100]) := by
  have hwf0 : (ctest_impl_hash_init_once SuiteMem.zeroed).Wf true (fun _ => []) :=
    init_once_prior true SuiteMem.zeroed _ (Or.inl ⟨Or.inl (fun _ => rfl), rfl⟩)
  obtain ⟨e1, w1⟩ := fixture_fresh true _ _ hwf0 2 (fun _ _ => by simp) example_Math
    fixture_member.setup 20 100 (fun _ _ => by simp) (fun _ _ b hb => by simp at hb)
  rw [fixture_init_once] at e1
  have hk : ctest_impl_hash_suite true example_Math % HASH_SIZE = 125 := by decide
  rw [hk] at w1
  have hlen : ∀ i, i < HASH_SIZE →
      ((Function.update (fun _ => ([] : List Nat)) 125 [100]) i).length < 2 := by
    intro i _
    by_cases h : i = 125
    · subst h; simp
    · simp [Function.update, h]
  have hnot : ∀ i, i < HASH_SIZE →
      101 ∉ (Function.update (fun _ => ([] : List Nat)) 125 [100]) i := by
    intro i _
    by_cases h : i = 125
    · subst h; simp
    · simp [Function.update, h]
  obtain ⟨e2, w2⟩ := fixture_found true _ _ w1 2 hlen example_Math
    fixture_member.teardown 21 101 hnot 100 125 (by decide) (by simp)
    (by rw [set_member_name, (add_suite_suites true _ 100 100).1, with_candidate_same])
  unfold example_sm
  rw [e1, Option.some_bind, e2, Option.getD_some]
  exact w2.1

theorem example_sm_fuel (i : Nat) :
    ((Function.update (fun _ => ([] : List Nat)) 125 [100]) i).length < 3 := by
  by_cases h : i = 125
  · subst h; simp
  · simp [Function.update, h]

/-! ## One iteration of the driver loop -/

theorem int_wrap_incr (x : Int) (h : int_can_incr x) : int_wrap (x + 1) = x + 1 := by
  obtain ⟨h1, h2⟩ := h
  unfold int_wrap
  have e1 : ((2:Int) ^ 31) = 2147483648 := by norm_num
  have e2 : ((2:Int) ^ 32) = 4294967296 := by norm_num
  rw [e1, e2] at *
  omega

theorem invoke_returned {σ : Type} (code : Nat → Stage σ) (ev : Nat → Event) (fn : Option Nat)
    (arg : Option Nat) (w : World σ) (out : List Event) :
    invoke code ev fn arg (Outcome.returned, w, out) =
      match fn with
      | none => (Outcome.returned, w, out)
      | some f => ((code f arg w).1, (code f arg w).2, out ++ [ev f]) := rfl

theorem invoke_longjmp {σ : Type} (code : Nat → Stage σ) (ev : Nat → Event) (fn : Option Nat)
    (arg : Option Nat) (w : World σ) (out : List Event) :
    invoke code ev fn arg (Outcome.longjmp, w, out) = (Outcome.longjmp, w, out) := rfl

/-- The events a guarded hook call appends are the expected calls. -/
theorem invoke_hook_out {σ : Type} (code : Nat → Stage σ) (tm : TestMem) (sm : SuiteMem)
    (suite : Option Nat) (a : Nat) (w : World σ) (out : List Event) :
    (protected_setup code tm sm suite a (Outcome.returned, w, out)).2.2 =
        out ++ expected_hook_calls tm sm suite a fixture_member.setup ∧
      (protected_teardown code tm sm suite a (Outcome.returned, w, out)).2.2 =
        out ++ expected_hook_calls tm sm suite a fixture_member.teardown := by
  unfold protected_setup protected_teardown expected_hook_calls guarded_hook
  cases suite with
  | none => simp [invoke_returned]
  | some rcd =>
    cases hd : (tm.tests a).data with
    | none => simp [invoke_returned]
    | some d =>
      constructor
      · cases hs : (sm.suites rcd).setup <;>
          simp [invoke_returned, ctest_impl_suite.hook, hs]
      · cases hs : (sm.suites rcd).teardown <;>
          simp [invoke_returned, ctest_impl_suite.hook, hs]

theorem protected_run_out {σ : Type} (code : Nat → Stage σ) (tm : TestMem) (a : Nat)
    (w : World σ) (out : List Event) :
    protected_run code tm a (Outcome.returned, w, out) =
      ((code (tm.tests a).run (tm.tests a).data w).1,
        (code (tm.tests a).run (tm.tests a).data w).2,
        out ++ [Event.call_run a (tm.tests a).run (tm.tests a).data]) := rfl

/-- One more iteration of the loop over the test list: when the body continues, the
loop goes on from the next link. -/
theorem for_each_entry_step {S R : Type} (tm : TestMem) (body : Nat → S → Option (S ⊕ R))
    (a : Nat) (s s2 : S) (h : body a s = some (Sum.inl s2)) (n : Nat) :
    ctest_impl_list_for_each_entry (fun p => some (tm.next p)) list_loc.to_entry list_loc.head
        body (n + 1) (list_loc.entry a) s =
      ctest_impl_list_for_each_entry (fun p => some (tm.next p)) list_loc.to_entry list_loc.head
        body n (tm.next (list_loc.entry a)) s2 := by
  simp [ctest_impl_list_for_each_entry, list_loc.to_entry, h]

/-- C5: a selected test whose skip flag is set is recorded Skipped: `num_skip` goes up by
one, `num_ok` and `num_fail` are unchanged, the driver prints the progress line and
`[SKIPPED]` and nothing else, so it makes no suite lookup and no call of setup, test
function or teardown (whatever the state of the suite index), the state of the program
under test is untouched, and the loop goes on with the next test. -/
theorem skipped_test_recorded {σ : Type} (char_signed : Bool) (code : Nat → Stage σ)
    (fuel : Nat) (tm : TestMem) (sm : SuiteMem) (a : Nat) (s : DriverState σ) (r : Int)
    (hsel : s.statics.call_filter (tm.tests a) = some r) (hr : r ≠ 0)
    (hskip : (tm.tests a).skip ≠ 0) (hb : int_can_incr s.statics.num_skip) :
    ∃ s2, run_body char_signed code fuel tm sm a s = some (Sum.inl s2) ∧
      s2.statics.num_skip = s.statics.num_skip + 1 ∧
      s2.statics.num_ok = s.statics.num_ok ∧
      s2.statics.num_fail = s.statics.num_fail ∧
      s2.out = s.out ++ [Event.test_header a s.statics.idx s.statics.total, Event.skipped] ∧
      s2.world.user = s.world.user ∧
      (∀ n, ctest_impl_list_for_each_entry (fun p => some (tm.next p)) list_loc.to_entry
          list_loc.head (run_body char_signed code fuel tm sm) (n + 1) (list_loc.entry a) s =
        ctest_impl_list_for_each_entry (fun p => some (tm.next p)) list_loc.to_entry
          list_loc.head (run_body char_signed code fuel tm sm) n (tm.next (list_loc.entry a))
          s2) := by
  have hrun : run_body char_signed code fuel tm sm a s = some (Sum.inl
      { statics := { s.statics with
          num_skip := int_wrap (s.statics.num_skip + 1)
          idx := int_wrap (s.statics.idx + 1) }
        world := { s.world with err := reset_errorbuffer s.world.err }
        out := s.out ++ [Event.test_header a s.statics.idx s.statics.total] ++
          [Event.skipped]
        ctest_err := s.ctest_err }) := by
    simp [run_body, hsel, hr, hskip]
  refine ⟨_, hrun, ?_, rfl, rfl, by simp, rfl, ?_⟩
  · exact int_wrap_incr _ hb
  · intro n; exact for_each_entry_step tm _ a s _ hrun n

theorem run_protected_eq {σ : Type} (char_signed : Bool) (code : Nat → Stage σ) (fuel : Nat)
    (tm : TestMem) (sm : SuiteMem) (a : Nat) (s : DriverState σ) (suite : Option Nat)
    (hfind : ctest_impl_find_suite char_signed fuel sm (tm.tests a).ssname = some suite) :
    run_protected char_signed code fuel tm sm a
        { s.world with err := reset_errorbuffer s.world.err }
        (s.out ++ [Event.test_header a s.statics.idx s.statics.total]) =
      some (protected_teardown code tm sm suite a
        (protected_run code tm a (protected_setup code tm sm suite a (protected_start tm a s)))) := by
  simp [run_protected, hfind, protected_start]

theorem run_body_returned {σ : Type} (char_signed : Bool) (code : Nat → Stage σ) (fuel : Nat)
    (tm : TestMem) (sm : SuiteMem) (a : Nat) (s : DriverState σ) (r : Int)
    (suite : Option Nat) (w1 : World σ) (out1 : List Event)
    (hsel : s.statics.call_filter (tm.tests a) = some r) (hr : r ≠ 0)
    (hskip : (tm.tests a).skip = 0)
    (hfind : ctest_impl_find_suite char_signed fuel sm (tm.tests a).ssname = some suite)
    (hP : protected_teardown code tm sm suite a
        (protected_run code tm a (protected_setup code tm sm suite a (protected_start tm a s))) =
      (Outcome.returned, w1, out1))
    (hin : w1.err.written_end ≤ MSG_SIZE) :
    run_body char_signed code fuel tm sm a s = some (Sum.inl
      { statics := { s.statics with
          num_ok := int_wrap (s.statics.num_ok + 1)
          idx := int_wrap (s.statics.idx + 1) }
        world := w1
        out := out1 ++ [Event.ok] ++ errorbuffer_print w1
        ctest_err := some a }) := by
  have h := run_protected_eq char_signed code fuel tm sm a s suite hfind
  rw [hP] at h
  have hn : ¬ MSG_SIZE < w1.err.written_end := Nat.not_lt.2 hin
  simp only [run_body, hsel, hr, hskip, ne_eq, not_false_eq_true, if_true, not_true_eq_false,
    if_false, h, hn, errorbuffer_print]

theorem run_body_longjmp {σ : Type} (char_signed : Bool) (code : Nat → Stage σ) (fuel : Nat)
    (tm : TestMem) (sm : SuiteMem) (a : Nat) (s : DriverState σ) (r : Int)
    (suite : Option Nat) (w1 : World σ) (out1 : List Event)
    (hsel : s.statics.call_filter (tm.tests a) = some r) (hr : r ≠ 0)
    (hskip : (tm.tests a).skip = 0)
    (hfind : ctest_impl_find_suite char_signed fuel sm (tm.tests a).ssname = some suite)
    (hP : protected_teardown code tm sm suite a
        (protected_run code tm a (protected_setup code tm sm suite a (protected_start tm a s))) =
      (Outcome.longjmp, w1, out1))
    (hin : w1.err.written_end ≤ MSG_SIZE) :
    run_body char_signed code fuel tm sm a s = some (Sum.inl
      { statics := { s.statics with
          num_fail := int_wrap (s.statics.num_fail + 1)
          idx := int_wrap (s.statics.idx + 1) }
        world := w1
        out := out1 ++ [Event.fail] ++ errorbuffer_print w1
        ctest_err := some a }) := by
  have h := run_protected_eq char_signed code fuel tm sm a s suite hfind
  rw [hP] at h
  have hn : ¬ MSG_SIZE < w1.err.written_end := Nat.not_lt.2 hin
  simp only [run_body, hsel, hr, hskip, ne_eq, not_false_eq_true, if_true, not_true_eq_false,
    if_false, h, hn, errorbuffer_print]

theorem exec_stmts_failing_check {σ : Type} (pre post : List (Stmt σ)) (fails : σ → Bool)
    (out_fn : σ → Option (List Nat)) :
    ∀ (w wp : World σ), exec_stmts pre w = (Outcome.returned, wp) → fails wp.user = true →
      exec_stmts (pre ++ Stmt.check fails out_fn :: post) w =
        (Outcome.longjmp,
          { wp with err := CTEST_ERR wp.color_output (out_fn wp.user) wp.err }) := by
  induction pre with
  | nil =>
    intro w wp h hf
    have : w = wp := by simpa [exec_stmts] using h
    subst this
    simp [exec_stmts, hf]
  | cons st pre ih =>
    intro w wp h hf
    cases st with
    | user f => simp only [List.cons_append, exec_stmts] at h ⊢; exact ih _ wp h hf
    | log o => simp only [List.cons_append, exec_stmts] at h ⊢; exact ih _ wp h hf
    | check c o =>
      simp only [List.cons_append, exec_stmts] at h ⊢
      by_cases hc : c w.user = true
      · simp [hc] at h
      · simp only [hc] at h ⊢
        exact ih _ wp h hf

theorem expected_setup_calls_mem (tm : TestMem) (sm : SuiteMem) (suite : Option Nat) (a : Nat)
    (e : Event) (h : e ∈ expected_hook_calls tm sm suite a fixture_member.setup) :
    ∃ fn d, e = Event.call_setup a fn d := by
  unfold expected_hook_calls at h
  cases suite with
  | none => simp at h
  | some rcd =>
    cases hd : (tm.tests a).data with
    | none => simp [hd] at h
    | some d =>
      cases hs : (sm.suites rcd).hook fixture_member.setup with
      | none => simp [hd, hs] at h
      | some fn => simp [hd, hs] at h; exact ⟨fn, some d, h⟩

theorem errorbuffer_print_mem {σ : Type} (w : World σ) (e : Event)
    (h : e ∈ errorbuffer_print w) : e = Event.errorbuffer := by
  unfold errorbuffer_print at h
  split at h <;> simp at h
  exact h

theorem protected_setup_start {σ : Type} (code : Nat → Stage σ) (tm : TestMem) (sm : SuiteMem)
    (suite : Option Nat) (a : Nat) (s : DriverState σ)
    (hsetup : (protected_setup code tm sm suite a (protected_start tm a s)).1 =
      Outcome.returned) :
    protected_setup code tm sm suite a (protected_start tm a s) =
      (Outcome.returned, (protected_setup code tm sm suite a (protected_start tm a s)).2.1,
        s.out ++ [Event.test_header a s.statics.idx s.statics.total,
            Event.find_suite (tm.tests a).ssname] ++
          expected_hook_calls tm sm suite a fixture_member.setup) := by
  have h2 := (invoke_hook_out code tm sm suite a
    { s.world with err := reset_errorbuffer s.world.err }
    (s.out ++ [Event.test_header a s.statics.idx s.statics.total] ++
      [Event.find_suite (tm.tests a).ssname])).1
  have h3 : protected_start tm a s = (Outcome.returned,
      { s.world with err := reset_errorbuffer s.world.err },
      s.out ++ [Event.test_header a s.statics.idx s.statics.total] ++
        [Event.find_suite (tm.tests a).ssname]) := rfl
  rw [← h3] at h2
  ext
  · exact hsetup
  · rfl
  · rw [h2]; simp

/-- C3: on a suite index whose buckets are chains, a selected, non-skipped test whose
function runs into a failing assertion (after the lookup has returned `suite` and setup,
if called, returned), with a message that `CTEST_ERR` stores inside the scratch buffer,
is recorded Failed: `num_fail` goes up by one, `num_ok` and `num_skip` are unchanged, the
driver prints `[FAIL]`, no teardown call is made, the state is the one at the `longjmp` of
`CTEST_ERR`, whatever statements follow the failing assertion in the body, and the loop
goes on with the next test. -/
theorem failing_assertion_recorded_failed {σ : Type} (char_signed : Bool)
    (code : Nat → Stage σ) (fuel : Nat) (tm : TestMem) (sm : SuiteMem)
    (chains : Nat → List Nat) (a : Nat)
    (s : DriverState σ) (r : Int) (suite : Option Nat) (body : Option Nat → List (Stmt σ))
    (pre post : List (Stmt σ)) (fails : σ → Bool) (out_fn : σ → Option (List Nat))
    (wp : World σ)
    (hch : sm.Chains chains) (hfuel : ∀ i, i < HASH_SIZE → (chains i).length < fuel)
    (hsuite : suite = chain_lookup char_signed sm chains (tm.tests a).ssname)
    (hsel : s.statics.call_filter (tm.tests a) = some r) (hr : r ≠ 0)
    (hskip : (tm.tests a).skip = 0) (hb : int_can_incr s.statics.num_fail)
    (hsetup : (protected_setup code tm sm suite a (protected_start tm a s)).1 =
      Outcome.returned)
    (hcode : code (tm.tests a).run = Stage.of_stmts body)
    (hbody : body (tm.tests a).data = pre ++ Stmt.check fails out_fn :: post)
    (hpre : exec_stmts pre (protected_setup code tm sm suite a (protected_start tm a s)).2.1 =
      (Outcome.returned, wp))
    (hfails : fails wp.user = true)
    (hfit : (CTEST_ERR wp.color_output (out_fn wp.user) wp.err).written_end ≤ MSG_SIZE) :
    ∃ s2, run_body char_signed code fuel tm sm a s = some (Sum.inl s2) ∧
      s2.statics.num_fail = s.statics.num_fail + 1 ∧
      s2.statics.num_ok = s.statics.num_ok ∧
      s2.statics.num_skip = s.statics.num_skip ∧
      s2.out = s.out ++ [Event.test_header a s.statics.idx s.statics.total,
          Event.find_suite (tm.tests a).ssname] ++
        expected_hook_calls tm sm suite a fixture_member.setup ++
        [Event.call_run a (tm.tests a).run (tm.tests a).data, Event.fail] ++
        errorbuffer_print s2.world ∧
      (∀ t fn d, Event.call_teardown t fn d ∈ s2.out → Event.call_teardown t fn d ∈ s.out) ∧
      s2.world = { wp with err := CTEST_ERR wp.color_output (out_fn wp.user) wp.err } ∧
      (∀ n, ctest_impl_list_for_each_entry (fun p => some (tm.next p)) list_loc.to_entry
          list_loc.head (run_body char_signed code fuel tm sm) (n + 1) (list_loc.entry a) s =
        ctest_impl_list_for_each_entry (fun p => some (tm.next p)) list_loc.to_entry
          list_loc.head (run_body char_signed code fuel tm sm) n (tm.next (list_loc.entry a))
          s2) ∧
      ctest_impl_find_suite char_signed fuel sm (tm.tests a).ssname = some suite ∧
      s2.ctest_err = some a := by
  have hfind : ctest_impl_find_suite char_signed fuel sm (tm.tests a).ssname = some suite := by
    rw [hsuite]; exact find_suite_chain_lookup char_signed sm chains hch fuel hfuel _
  have h1 := protected_setup_start code tm sm suite a s hsetup
  have hexec := exec_stmts_failing_check pre post fails out_fn _ wp hpre hfails
  have hP : protected_teardown code tm sm suite a
      (protected_run code tm a (protected_setup code tm sm suite a (protected_start tm a s))) =
      (Outcome.longjmp,
        { wp with err := CTEST_ERR wp.color_output (out_fn wp.user) wp.err },
        s.out ++ [Event.test_header a s.statics.idx s.statics.total,
            Event.find_suite (tm.tests a).ssname] ++
          expected_hook_calls tm sm suite a fixture_member.setup ++
          [Event.call_run a (tm.tests a).run (tm.tests a).data]) := by
    rw [h1, protected_run_out, hcode]
    simp only [Stage.of_stmts, hbody, hexec]
    rfl
  have hrun := run_body_longjmp char_signed code fuel tm sm a s r suite _ _ hsel hr hskip
    hfind hP hfit
  refine ⟨_, hrun, int_wrap_incr _ hb, rfl, rfl, by simp, ?_, rfl, ?_, hfind, rfl⟩
  · intro t fn d hmem
    simp only [List.mem_append, List.mem_cons, List.mem_singleton, List.not_mem_nil,
      or_false] at hmem
    rcases hmem with (((((h | h) | h) | h) | h) | h)
    · exact h
    · rcases h with h | h <;> cases h
    · obtain ⟨fn2, d2, e⟩ := expected_setup_calls_mem tm sm suite a _ h
      cases e
    · cases h
    · cases h
    · have := errorbuffer_print_mem _ _ h
      cases this
  · intro n; exact for_each_entry_step tm _ a s _ hrun n

theorem expected_teardown_calls_mem (tm : TestMem) (sm : SuiteMem) (suite : Option Nat)
    (a : Nat) (e : Event)
    (h : e ∈ expected_hook_calls tm sm suite a fixture_member.teardown) :
    ∃ rcd fn d, suite = some rcd ∧ (sm.suites rcd).teardown = some fn ∧
      (tm.tests a).data = some d ∧ e = Event.call_teardown a fn (some d) := by
  unfold expected_hook_calls at h
  cases suite with
  | none => simp at h
  | some rcd =>
    cases hd : (tm.tests a).data with
    | none => simp [hd] at h
    | some d =>
      cases hs : (sm.suites rcd).teardown with
      | none => simp [hd, ctest_impl_suite.hook, hs] at h
      | some fn =>
        simp [hd, ctest_impl_suite.hook, hs] at h
        exact ⟨rcd, fn, d, rfl, hs, rfl, h⟩

/-- C4: on a suite index whose buckets are chains, a selected, non-skipped test in which
no assertion fails (the lookup has returned `suite`, and setup if called, the test
function, and teardown if called all returned) and whose functions store inside the
scratch buffer only (their `CTEST_LOG` messages fit) is recorded
Passed: `num_ok` goes up by one, `num_fail` and `num_skip` are unchanged.  The calls the
driver makes for it are, in this order, the expected setup call, the test function, the
expected teardown call, all before `[OK]` is printed and the loop goes on with the next
test; the teardown call is made once, with the test's fixture data, when the suite was
found, declares a teardown and the test carries fixture data, and not at all otherwise. -/
theorem passing_test_recorded_passed {σ : Type} (char_signed : Bool)
    (code : Nat → Stage σ) (fuel : Nat) (tm : TestMem) (sm : SuiteMem)
    (chains : Nat → List Nat) (a : Nat)
    (s : DriverState σ) (r : Int) (suite : Option Nat)
    (hch : sm.Chains chains) (hfuel : ∀ i, i < HASH_SIZE → (chains i).length < fuel)
    (hsuite : suite = chain_lookup char_signed sm chains (tm.tests a).ssname)
    (hsel : s.statics.call_filter (tm.tests a) = some r) (hr : r ≠ 0)
    (hskip : (tm.tests a).skip = 0) (hb : int_can_incr s.statics.num_ok)
    (hsetup : (protected_setup code tm sm suite a (protected_start tm a s)).1 =
      Outcome.returned)
    (hrun : (protected_run code tm a
      (protected_setup code tm sm suite a (protected_start tm a s))).1 = Outcome.returned)
    (hteardown : (protected_teardown code tm sm suite a (protected_run code tm a
      (protected_setup code tm sm suite a (protected_start tm a s)))).1 = Outcome.returned)
    (hfit : RegionInBounds code tm sm suite a s) :
    ∃ s2, run_body char_signed code fuel tm sm a s = some (Sum.inl s2) ∧
      s2.statics.num_ok = s.statics.num_ok + 1 ∧
      s2.statics.num_fail = s.statics.num_fail ∧
      s2.statics.num_skip = s.statics.num_skip ∧
      s2.out = s.out ++ [Event.test_header a s.statics.idx s.statics.total,
          Event.find_suite (tm.tests a).ssname] ++
        expected_hook_calls tm sm suite a fixture_member.setup ++
        [Event.call_run a (tm.tests a).run (tm.tests a).data] ++
        expected_hook_calls tm sm suite a fixture_member.teardown ++
        [Event.ok] ++ errorbuffer_print s2.world ∧
      (∀ rcd fn d, suite = some rcd → (sm.suites rcd).teardown = some fn →
        (tm.tests a).data = some d →
        expected_hook_calls tm sm suite a fixture_member.teardown =
          [Event.call_teardown a fn (some d)]) ∧
      ((tm.tests a).data = none ∨ suite = none ∨
          (∃ rcd, suite = some rcd ∧ (sm.suites rcd).teardown = none) →
        expected_hook_calls tm sm suite a fixture_member.teardown = []) ∧
      (∀ t fn d, Event.call_teardown t fn d ∈ s2.out → Event.call_teardown t fn d ∈ s.out ∨
        Event.call_teardown t fn d ∈ expected_hook_calls tm sm suite a fixture_member.teardown) ∧
      (∀ n, ctest_impl_list_for_each_entry (fun p => some (tm.next p)) list_loc.to_entry
          list_loc.head (run_body char_signed code fuel tm sm) (n + 1) (list_loc.entry a) s =
        ctest_impl_list_for_each_entry (fun p => some (tm.next p)) list_loc.to_entry
          list_loc.head (run_body char_signed code fuel tm sm) n (tm.next (list_loc.entry a))
          s2) ∧
      ctest_impl_find_suite char_signed fuel sm (tm.tests a).ssname = some suite ∧
      s2.ctest_err = some a := by
  have hfind : ctest_impl_find_suite char_signed fuel sm (tm.tests a).ssname = some suite := by
    rw [hsuite]; exact find_suite_chain_lookup char_signed sm chains hch fuel hfuel _
  have h1 := protected_setup_start code tm sm suite a s hsetup
  generalize hw1 : (protected_setup code tm sm suite a (protected_start tm a s)).2.1 = w1
    at h1
  have h2 : protected_run code tm a (protected_setup code tm sm suite a (protected_start tm a s))
      = (Outcome.returned, (code (tm.tests a).run (tm.tests a).data w1).2,
        s.out ++ [Event.test_header a s.statics.idx s.statics.total,
            Event.find_suite (tm.tests a).ssname] ++
          expected_hook_calls tm sm suite a fixture_member.setup ++
          [Event.call_run a (tm.tests a).run (tm.tests a).data]) := by
    have hrun2 := hrun
    rw [h1, protected_run_out] at hrun2 ⊢
    ext
    · exact hrun2
    · rfl
    · rfl
  generalize hw2 : (code (tm.tests a).run (tm.tests a).data w1).2 = w2 at h2
  have h3 := (invoke_hook_out code tm sm suite a w2
    (s.out ++ [Event.test_header a s.statics.idx s.statics.total,
        Event.find_suite (tm.tests a).ssname] ++
      expected_hook_calls tm sm suite a fixture_member.setup ++
      [Event.call_run a (tm.tests a).run (tm.tests a).data])).2
  rw [← h2] at h3
  have hP : protected_teardown code tm sm suite a
      (protected_run code tm a (protected_setup code tm sm suite a (protected_start tm a s))) =
      (Outcome.returned,
        (protected_teardown code tm sm suite a (protected_run code tm a
          (protected_setup code tm sm suite a (protected_start tm a s)))).2.1,
        s.out ++ [Event.test_header a s.statics.idx s.statics.total,
            Event.find_suite (tm.tests a).ssname] ++
          expected_hook_calls tm sm suite a fixture_member.setup ++
          [Event.call_run a (tm.tests a).run (tm.tests a).data] ++
          expected_hook_calls tm sm suite a fixture_member.teardown) := by
    ext
    · exact hteardown
    · rfl
    · rw [h3]
  have hres := run_body_returned char_signed code fuel tm sm a s r suite _ _ hsel hr hskip
    hfind hP hfit
  refine ⟨_, hres, int_wrap_incr _ hb, rfl, rfl, rfl, ?_, ?_, ?_, ?_, hfind, rfl⟩
  · intro rcd fn d hs ht hd
    simp [expected_hook_calls, hs, hd, ctest_impl_suite.hook, ht]
  · intro h
    rcases h with h | h | ⟨rcd, h, ht⟩
    · unfold expected_hook_calls; rw [h]; cases suite <;> rfl
    · unfold expected_hook_calls; rw [h]
    · unfold expected_hook_calls; rw [h]
      cases (tm.tests a).data with
      | none => rfl
      | some d => simp [ctest_impl_suite.hook, ht]
  · intro t fn d hmem
    simp only [List.mem_append, List.mem_cons, List.mem_singleton, List.not_mem_nil,
      or_false] at hmem
    rcases hmem with ((((((h | h) | h) | h) | h) | h) | h)
    · exact Or.inl h
    · rcases h with h | h <;> cases h
    · obtain ⟨fn2, d2, e⟩ := expected_setup_calls_mem tm sm suite a _ h
      cases e
    · cases h
    · exact Or.inr h
    · cases h
    · have := errorbuffer_print_mem _ _ h
      cases this
  · intro n; exact for_each_entry_step tm _ a s _ hres n

theorem skipped_test_recorded_witness :
    ∃ s2, run_body true example_code 0 example_tm example_sm 3 example_start =
        some (Sum.inl s2) ∧
      s2.statics.num_skip = 1 ∧ s2.statics.num_ok = 0 ∧ s2.statics.num_fail = 0 ∧
      s2.out = [Event.test_header 3 1 0, Event.skipped] :=
  (skipped_test_recorded true example_code 0 example_tm example_sm 3 example_start 1
    (by rfl) (by decide) (by decide)
    (by norm_num [int_can_incr, example_start, Statics.initial])).imp
    (fun _ h => ⟨h.1, h.2.1, h.2.2.1, h.2.2.2.1, h.2.2.2.2.1⟩)

theorem failing_assertion_recorded_failed_witness :
    ∃ s2, run_body true example_code 3 example_tm example_sm 2 example_start =
        some (Sum.inl s2) ∧
      s2.statics.num_fail = 1 ∧ s2.statics.num_ok = 0 ∧ s2.world.user = 10 :=
  (failing_assertion_recorded_failed true example_code 3 example_tm example_sm
    (Function.update (fun _ => []) 125 [100]) 2 example_start
    1 (some 100) (fun _ => example_body 12) [Stmt.user (fun n => n + 10)]
    [Stmt.user (fun n => n + 100)] (fun n => decide (n ≠ 5)) (fun _ => some [53])
    { user := 10, err := reset_errorbuffer ErrState.zeroed, color_output := 1 }
    example_sm_chains (fun i _ => example_sm_fuel i) (by decide)
    (by rfl) (by decide) (by decide)
    (by norm_num [int_can_incr, example_start, Statics.initial])
    (by decide) (by rfl) (by rfl) (by rfl) (by decide) (by decide)).imp
    (fun _ h => ⟨h.1, h.2.1, h.2.2.1, by rw [h.2.2.2.2.2.2.1]⟩)

theorem passing_test_recorded_passed_witness :
    ∃ s2, run_body true example_code 3 example_tm example_sm 1 example_start =
        some (Sum.inl s2) ∧
      s2.statics.num_ok = 1 ∧ s2.statics.num_fail = 0 ∧
      Event.call_teardown 1 21 (some 50) ∈ s2.out :=
  (passing_test_recorded_passed true example_code 3 example_tm example_sm
    (Function.update (fun _ => []) 125 [100]) 1 example_start
    1 (some 100) example_sm_chains (fun i _ => example_sm_fuel i) (by decide)
    (by rfl) (by decide) (by decide)
    (by norm_num [int_can_incr, example_start, Statics.initial])
    (by decide) (by decide) (by decide) (by decide)).imp
    (fun s2 h => ⟨h.1, h.2.1, h.2.2.1, by
      rw [h.2.2.2.2.1]
      apply List.mem_append_left
      apply List.mem_append_left
      apply List.mem_append_right
      decide⟩)

/-! ## Messages that stay inside the scratch buffer -/

/-- The variables after `vprint_errormsg` has formatted a text of fewer than `2^31`
bytes. -/
theorem vprint_errormsg_some (e : ErrState) (text : List Nat) (h : text.length < 2 ^ 31) :
    (vprint_errormsg e (some text)).ctest_errormsg =
        e.ctest_errormsg +
          (if e.ctest_errorsize ≤ text.length then text.length - e.ctest_errorsize
           else text.length) ∧
      (vprint_errormsg e (some text)).ctest_errorsize =
        (e.ctest_errorsize + 2 ^ 64 -
          (if e.ctest_errorsize ≤ text.length then text.length - e.ctest_errorsize
           else text.length)) % 2 ^ 64 ∧
      (vprint_errormsg e (some text)).written_end =
        (if e.ctest_errorsize = 0 then e.written_end
         else max e.written_end
          (e.ctest_errormsg + (min (e.ctest_errorsize - 1) text.length + 1))) := by
  have e31 : (2:Nat) ^ 31 = 2147483648 := by norm_num
  have h2 : ¬ (2147483648 ≤ text.length) := by omega
  have hret : vsnprintf_ret (some text) = (text.length : Int) := by
    show (if text.length < 2 ^ 31 then (text.length : Int) else -1) = _
    rw [if_pos h]
  have hneg : ¬ ((text.length : Int) < 0) := by omega
  refine ⟨?_, ?_, ?_⟩
  · simp only [vprint_errormsg, hret, hneg, if_false, Int.toNat_ofNat, ErrState.store]
  · simp only [vprint_errormsg, hret, hneg, if_false, Int.toNat_ofNat, ErrState.store]
  · simp only [vprint_errormsg, hret, hneg, if_false, Int.toNat_ofNat, ErrState.store]
    by_cases h0 : e.ctest_errorsize = 0
    · simp [vsnprintf_stored, h0]
    · simp [vsnprintf_stored, h0, h2]

theorem cstr_length_le (l : List Nat) : (cstr l).length ≤ l.length := by
  induction l with
  | nil => simp [cstr_nil]
  | cons c cs ih =>
    by_cases h : c = 0
    · subst h; simp [cstr_cons_zero]
    · simp only [cstr_cons_ne h, List.length_cons]; omega

theorem within_mono (e : ErrState) (c c2 : Nat) (h : e.Within c) (hc : c ≤ c2) :
    e.Within c2 :=
  ⟨h.1, Nat.le_trans h.2.1 hc, h.2.2⟩

theorem reset_within (e : ErrState) (h : e.written_end ≤ MSG_SIZE) :
    (reset_errorbuffer e).Within 0 :=
  ⟨rfl, Nat.le_refl 0, h⟩

/-- A text that fits what is left of the buffer is stored inside it, and the bookkeeping
stays intact. -/
theorem vprint_errormsg_within (e : ErrState) (out : Option (List Nat)) (c n : Nat)
    (h : e.Within c) (hlen : ∀ t, out = some t → t.length ≤ n)
    (hfit : c + n < MSG_SIZE - 1) : (vprint_errormsg e out).Within (c + n) := by
  obtain ⟨hs, hc, hw⟩ := h
  have hM : MSG_SIZE = 4096 := rfl
  rw [hM] at hs hfit hw
  cases out with
  | none =>
    refine ⟨?_, ?_, ?_⟩
    · simpa [vprint_errormsg, vsnprintf_ret, vsnprintf_stored, ErrState.store, hM] using hs
    · simp only [vprint_errormsg, vsnprintf_ret, vsnprintf_stored, ErrState.store]
      simp only [show ((-1 : Int) < 0) from by decide, if_true]
      omega
    · simp only [vprint_errormsg, vsnprintf_ret, vsnprintf_stored, ErrState.store, hM]
      simp only [show ((-1 : Int) < 0) from by decide, if_true]
      simp
      omega
  | some t =>
    have ht := hlen t rfl
    have h31 : t.length < 2 ^ 31 := by
      have : (4096 : Nat) < 2 ^ 31 := by norm_num
      omega
    obtain ⟨a1, a2, a3⟩ := vprint_errormsg_some e t h31
    have hnle : ¬ e.ctest_errorsize ≤ t.length := by omega
    have hne : e.ctest_errorsize ≠ 0 := by omega
    rw [if_neg hnle] at a1 a2
    rw [if_neg hne] at a3
    have e64 : (2 : Nat) ^ 64 = 18446744073709551616 := by norm_num
    have hmin : min (e.ctest_errorsize - 1) t.length = t.length := Nat.min_eq_right (by omega)
    refine ⟨?_, ?_, ?_⟩
    · rw [a1, a2, hM, e64]; omega
    · rw [a1]; omega
    · rw [a3, hmin, hM]
      exact max_le hw (by omega)

theorem msg_start_within (c : Int) (color title : List Nat) (e : ErrState) (u : Nat)
    (h : e.Within u) (hfit : u + color.length + title.length + 4 < MSG_SIZE - 1) :
    (msg_start c color title e).Within (u + color.length + title.length + 4) := by
  have hc := cstr_length_le color
  have ht := cstr_length_le title
  have h1 : (if c ≠ 0 then print_errormsg e (some (cstr color)) else e).Within
      (u + color.length) := by
    by_cases hc0 : c ≠ 0
    · rw [if_pos hc0]
      exact vprint_errormsg_within e _ u color.length h
        (fun t ht2 => by cases ht2; exact hc) (by omega)
    · rw [if_neg hc0]
      exact within_mono e u _ h (by omega)
  have h2 := vprint_errormsg_within _ (some ([32, 32] ++ cstr title ++ [58, 32]))
    (u + color.length) (title.length + 4) h1
    (fun t ht2 => by
      cases ht2
      simp only [List.length_append, List.length_cons, List.length_nil]
      omega)
    (by omega)
  exact within_mono _ _ _ h2 (by omega)

theorem msg_end_within (c : Int) (e : ErrState) (u : Nat)
    (h : e.Within u) (hfit : u + 5 < MSG_SIZE - 1) : (msg_end c e).Within (u + 5) := by
  have h1 : (if c ≠ 0 then print_errormsg e (some ANSI_NORMAL) else e).Within (u + 4) := by
    by_cases hc0 : c ≠ 0
    · rw [if_pos hc0]
      exact vprint_errormsg_within e _ u 4 h (fun t ht2 => by cases ht2; decide) (by omega)
    · rw [if_neg hc0]
      exact within_mono e u _ h (by omega)
  exact vprint_errormsg_within _ (some [10]) (u + 4) 1 h1
    (fun t ht2 => by cases ht2; decide) (by omega)

theorem CTEST_LOG_within (c : Int) (out : Option (List Nat)) (e : ErrState) (u n : Nat)
    (h : e.Within u) (hlen : ∀ t, out = some t → t.length ≤ n)
    (hfit : u + (n + 19) < MSG_SIZE - 1) : (CTEST_LOG c out e).Within (u + (n + 19)) := by
  have h1 := msg_start_within c ANSI_BLUE [76, 79, 71] e u h
    (by simp only [ANSI_BLUE, List.length_cons, List.length_nil]; omega)
  simp only [ANSI_BLUE, List.length_cons, List.length_nil] at h1
  have h2 := vprint_errormsg_within _ out _ n h1 hlen (by omega)
  have h3 := msg_end_within c _ _ h2 (by omega)
  exact within_mono _ _ _ h3 (by omega)

theorem CTEST_ERR_within (c : Int) (out : Option (List Nat)) (e : ErrState) (u n : Nat)
    (h : e.Within u) (hlen : ∀ t, out = some t → t.length ≤ n)
    (hfit : u + (n + 19) < MSG_SIZE - 1) : (CTEST_ERR c out e).Within (u + (n + 19)) := by
  have h1 := msg_start_within c ANSI_YELLOW [69, 82, 82] e u h
    (by simp only [ANSI_YELLOW, List.length_cons, List.length_nil]; omega)
  simp only [ANSI_YELLOW, List.length_cons, List.length_nil] at h1
  have h2 := vprint_errormsg_within _ out _ n h1 hlen (by omega)
  have h3 := msg_end_within c _ _ h2 (by omega)
  exact within_mono _ _ _ h3 (by omega)

/-- A function body whose texts have at most `K` bytes each uses at most `K + 19` bytes
of the buffer for each of its statements. -/
theorem exec_stmts_within {σ : Type} (K : Nat) (l : List (Stmt σ)) :
    ∀ (w : World σ) (u : Nat), w.err.Within u →
      (∀ st ∈ l, ∀ x t, st.text x = some t → t.length ≤ K) →
      u + l.length * (K + 19) < MSG_SIZE - 1 →
      (exec_stmts l w).2.err.Within (u + l.length * (K + 19)) := by
  induction l with
  | nil => intro w u h _ _; simpa [exec_stmts] using h
  | cons st rest ih =>
    intro w u h hK hfit
    have hrest : ∀ st2 ∈ rest, ∀ x t, st2.text x = some t → t.length ≤ K :=
      fun st2 h2 => hK st2 (List.mem_cons_of_mem st h2)
    have hlen : (st :: rest).length * (K + 19) = (K + 19) + rest.length * (K + 19) := by
      rw [List.length_cons, Nat.succ_mul, Nat.add_comm]
    rw [hlen] at hfit ⊢
    cases st with
    | user f =>
      simp only [exec_stmts]
      exact within_mono _ _ _ (ih _ u h hrest (by omega)) (by omega)
    | log out =>
      simp only [exec_stmts]
      have h1 := CTEST_LOG_within w.color_output (out w.user) w.err u K h
        (fun t ht => hK (Stmt.log out) (List.mem_cons_self _ _) w.user t ht) (by omega)
      have h2 := ih { w with err := CTEST_LOG w.color_output (out w.user) w.err }
        (u + (K + 19)) h1 hrest (by omega)
      exact within_mono _ _ _ h2 (by omega)
    | check fails out =>
      simp only [exec_stmts]
      by_cases hf : fails w.user = true
      · simp only [hf, if_true]
        have h1 := CTEST_ERR_within w.color_output (out w.user) w.err u K h
          (fun t ht => hK (Stmt.check fails out) (List.mem_cons_self _ _) w.user t ht)
          (by omega)
        exact within_mono _ _ _ h1 (by omega)
      · simp only [hf, if_false, Bool.false_eq_true]
        exact within_mono _ _ _ (ih _ u h hrest (by omega)) (by omega)

theorem invoke_within {σ : Type} (code : Nat → Stage σ)
    (body : Nat → Option Nat → List (Stmt σ)) (N K : Nat)
    (hcode : ∀ fn, code fn = Stage.of_stmts (body fn)) (hshort : ShortMessages body N K)
    (ev : Nat → Event) (fn : Option Nat) (arg : Option Nat)
    (P : Outcome × World σ × List Event) (u : Nat) (h : P.2.1.err.Within u)
    (hfit : u + N * (K + 19) < MSG_SIZE - 1) :
    (invoke code ev fn arg P).2.1.err.Within (u + N * (K + 19)) := by
  obtain ⟨o, w, out⟩ := P
  cases o with
  | longjmp => exact within_mono _ _ _ h (by omega)
  | returned =>
    cases fn with
    | none => exact within_mono _ _ _ h (by omega)
    | some f =>
      obtain ⟨hn, hk⟩ := hshort f arg
      have hle : (body f arg).length * (K + 19) ≤ N * (K + 19) := Nat.mul_le_mul_right _ hn
      have h1 := exec_stmts_within K (body f arg) w u h hk (by omega)
      show (code f arg w).2.err.Within _
      rw [hcode f]
      exact within_mono _ _ _ h1 (by omega)

/-- A program of statement lists with few and short messages keeps the stores of every
test inside the scratch buffer. -/
theorem region_in_bounds_of_short {σ : Type} (code : Nat → Stage σ)
    (body : Nat → Option Nat → List (Stmt σ)) (N K : Nat)
    (hcode : ∀ fn, code fn = Stage.of_stmts (body fn)) (hshort : ShortMessages body N K)
    (hfit : 3 * (N * (K + 19)) < MSG_SIZE - 1)
    (tm : TestMem) (sm : SuiteMem) (suite : Option Nat) (a : Nat) (s : DriverState σ)
    (hs : s.world.err.written_end ≤ MSG_SIZE) : RegionInBounds code tm sm suite a s := by
  have h0 : (protected_start tm a s).2.1.err.Within 0 := reset_within _ hs
  have h1 := invoke_within code body N K hcode hshort
    (fun f => Event.call_setup a f (tm.tests a).data)
    (guarded_hook sm suite fixture_member.setup (tm.tests a)) (tm.tests a).data _ 0 h0
    (by omega)
  have h2 := invoke_within code body N K hcode hshort
    (fun f => Event.call_run a f (tm.tests a).data) (some (tm.tests a).run)
    (tm.tests a).data _ _ h1 (by omega)
  have h3 := invoke_within code body N K hcode hshort
    (fun f => Event.call_teardown a f (tm.tests a).data)
    (guarded_hook sm suite fixture_member.teardown (tm.tests a)) (tm.tests a).data _ _ h2
    (by omega)
  exact h3.2.2

theorem run_in_bounds_of_short {σ : Type} (char_signed : Bool) (code : Nat → Stage σ)
    (body : Nat → Option Nat → List (Stmt σ)) (N K : Nat)
    (hcode : ∀ fn, code fn = Stage.of_stmts (body fn)) (hshort : ShortMessages body N K)
    (hfit : 3 * (N * (K + 19)) < MSG_SIZE - 1)
    (tm : TestMem) (sm : SuiteMem) (chains : Nat → List Nat) (l : List Nat) :
    RunInBounds char_signed code tm sm chains l :=
  fun a _ _ s hs => region_in_bounds_of_short code body N K hcode hshort hfit tm sm _ a s hs

theorem example_body_short (fn : Nat) :
    (example_body fn).length ≤ 3 ∧
      ∀ st ∈ example_body fn, ∀ (x : Nat) (t : List Nat), st.text x = some t → t.length ≤ 1 := by
  unfold example_body
  split_ifs
  all_goals
    refine ⟨by simp, ?_⟩
    intro st hst x t ht
    fin_cases hst <;> simp [Stmt.text] at ht <;> subst ht <;> simp

theorem example_code_short : ShortMessages (fun fn (_ : Option Nat) => example_body fn) 3 1 :=
  fun fn _ => example_body_short fn

/-- The messages of the example program fit the scratch buffer. -/
theorem example_code_in_bounds (tm : TestMem) (sm : SuiteMem) (chains : Nat → List Nat)
    (l : List Nat) : RunInBounds true example_code tm sm chains l :=
  run_in_bounds_of_short true example_code _ 3 1 (fun _ => rfl) example_code_short (by decide)
    tm sm chains l

/-! ## The driver loops -/

theorem invoke_out {σ : Type} (code : Nat → Stage σ) (ev : Nat → Event) (fn : Option Nat)
    (arg : Option Nat) (s : Outcome × World σ × List Event) :
    ∃ calls, (invoke code ev fn arg s).2.2 = s.2.2 ++ calls ∧ ∀ e ∈ calls, ∃ f, e = ev f := by
  obtain ⟨o, w, out⟩ := s
  cases o with
  | longjmp => exact ⟨[], by simp [invoke_longjmp], by simp⟩
  | returned =>
    cases fn with
    | none => exact ⟨[], by simp [invoke_returned], by simp⟩
    | some f => exact ⟨[ev f], by simp [invoke_returned], by simp⟩

/-- The events of the protected region: the lookup and calls, no progress line and no
`[FAIL]`. -/
theorem protected_out {σ : Type} (code : Nat → Stage σ) (tm : TestMem) (sm : SuiteMem)
    (suite : Option Nat) (a : Nat) (s : DriverState σ) :
    ∃ evs, (protected_teardown code tm sm suite a (protected_run code tm a
        (protected_setup code tm sm suite a (protected_start tm a s)))).2.2 =
        s.out ++ Event.test_header a s.statics.idx s.statics.total :: evs ∧
      (∀ e ∈ evs, e.header_test = none ∧ e ≠ Event.fail) := by
  obtain ⟨c1, h1, g1⟩ := invoke_out code (fun f => Event.call_setup a f (tm.tests a).data)
    (guarded_hook sm suite fixture_member.setup (tm.tests a)) (tm.tests a).data
    (protected_start tm a s)
  obtain ⟨c2, h2, g2⟩ := invoke_out code (fun f => Event.call_run a f (tm.tests a).data)
    (some (tm.tests a).run) (tm.tests a).data
    (protected_setup code tm sm suite a (protected_start tm a s))
  obtain ⟨c3, h3, g3⟩ := invoke_out code (fun f => Event.call_teardown a f (tm.tests a).data)
    (guarded_hook sm suite fixture_member.teardown (tm.tests a)) (tm.tests a).data
    (protected_run code tm a (protected_setup code tm sm suite a (protected_start tm a s)))
  refine ⟨Event.find_suite (tm.tests a).ssname :: (c1 ++ c2 ++ c3), ?_, ?_⟩
  · unfold protected_teardown
    rw [h3]
    unfold protected_run
    rw [h2]
    unfold protected_setup
    rw [h1]
    simp [protected_start]
  · intro e he
    simp only [List.mem_cons, List.mem_append] at he
    rcases he with h | (h | h) | h
    · subst h; exact ⟨rfl, by simp⟩
    · obtain ⟨f, hf⟩ := g1 e h; subst hf; exact ⟨rfl, by simp⟩
    · obtain ⟨f, hf⟩ := g2 e h; subst hf; exact ⟨rfl, by simp⟩
    · obtain ⟨f, hf⟩ := g3 e h; subst hf; exact ⟨rfl, by simp⟩

theorem call_filter_of_consistent (st : Statics) (h : st.Consistent) (t : ctest) :
    ∃ r, st.call_filter t = some r := by
  unfold Statics.call_filter
  cases hf : st.filter with
  | suite_all => exact ⟨_, rfl⟩
  | suite_filter =>
    cases hn : st.suite_name with
    | none => exact absurd hn (h hf)
    | some name => exact ⟨_, rfl⟩

/-- One iteration of the second loop, on a suite index whose lookups return, for a test
whose messages fit the scratch buffer: a test that is not selected leaves the state
alone; for a selected test the driver prints the progress line, records one outcome, and
prints `[FAIL]` once exactly when the outcome is Failed.  No store has gone past the end
of the buffer afterwards. -/
theorem run_body_step {σ : Type} (char_signed : Bool) (code : Nat → Stage σ) (fuel : Nat)
    (tm : TestMem) (sm : SuiteMem) (chains : Nat → List Nat) (hch : sm.Chains chains)
    (hfuel : ∀ i, i < HASH_SIZE → (chains i).length < fuel) (a : Nat) (s : DriverState σ)
    (hok : s.statics.Consistent) (hw : s.world.err.written_end ≤ MSG_SIZE)
    (hfit : (tm.tests a).skip = 0 →
      RegionInBounds code tm sm (chain_lookup char_signed sm chains (tm.tests a).ssname) a s) :
    ∃ s2, run_body char_signed code fuel tm sm a s = some (Sum.inl s2) ∧
      s2.world.err.written_end ≤ MSG_SIZE ∧
      ((s.statics.selects (tm.tests a) = false ∧ s2 = s) ∨
        (s.statics.selects (tm.tests a) = true ∧ ∃ v evs,
          s2.statics = s.statics.record v ∧
          s2.out = s.out ++ Event.test_header a s.statics.idx s.statics.total :: evs ∧
          (∀ e ∈ evs, e.header_test = none) ∧
          evs.count Event.fail = (if v = Verdict.failed then 1 else 0))) := by
  obtain ⟨r, hsel⟩ := call_filter_of_consistent s.statics hok (tm.tests a)
  by_cases hr : r = 0
  · subst hr
    refine ⟨s, by simp [run_body, hsel], hw, Or.inl ⟨by simp [Statics.selects, hsel], rfl⟩⟩
  · have hselects : s.statics.selects (tm.tests a) = true := by
      simp [Statics.selects, hsel, hr]
    by_cases hskip : (tm.tests a).skip = 0
    · have hfind := find_suite_chain_lookup char_signed sm chains hch fuel hfuel
        (tm.tests a).ssname
      obtain ⟨evs, hevs, hg⟩ := protected_out code tm sm
        (chain_lookup char_signed sm chains (tm.tests a).ssname) a s
      have hin : (protected_teardown code tm sm
          (chain_lookup char_signed sm chains (tm.tests a).ssname) a (protected_run code tm a
          (protected_setup code tm sm (chain_lookup char_signed sm chains (tm.tests a).ssname)
            a (protected_start tm a s)))).2.1.err.written_end ≤ MSG_SIZE := hfit hskip
      generalize hP : protected_teardown code tm sm
        (chain_lookup char_signed sm chains (tm.tests a).ssname) a (protected_run code tm a
        (protected_setup code tm sm (chain_lookup char_signed sm chains (tm.tests a).ssname)
          a (protected_start tm a s))) = P at hevs hin
      obtain ⟨o, w1, out1⟩ := P
      have hout1 : out1 = s.out ++ Event.test_header a s.statics.idx s.statics.total :: evs :=
        hevs
      have hcount : evs.count Event.fail = 0 :=
        List.count_eq_zero.2 (fun hmem => (hg _ hmem).2 rfl)
      have hep : ∀ e ∈ errorbuffer_print w1, e.header_test = none ∧ e ≠ Event.fail := by
        intro e he
        rw [errorbuffer_print_mem w1 e he]; exact ⟨rfl, by simp⟩
      have hcount2 : (errorbuffer_print w1).count Event.fail = 0 :=
        List.count_eq_zero.2 (fun hmem => (hep _ hmem).2 rfl)
      cases o with
      | returned =>
        have hres := run_body_returned char_signed code fuel tm sm a s r _ w1 out1 hsel hr
          hskip hfind hP hin
        refine ⟨_, hres, hin, Or.inr ⟨hselects, Verdict.passed,
          evs ++ [Event.ok] ++ errorbuffer_print w1, rfl, by simp [hout1], ?_, ?_⟩⟩
        · intro e he
          simp only [List.mem_append, List.mem_singleton] at he
          rcases he with (h | h) | h
          · exact (hg e h).1
          · subst h; rfl
          · exact (hep e h).1
        · simp [List.count_append, hcount, hcount2]
      | longjmp =>
        have hres := run_body_longjmp char_signed code fuel tm sm a s r _ w1 out1 hsel hr
          hskip hfind hP hin
        refine ⟨_, hres, hin, Or.inr ⟨hselects, Verdict.failed,
          evs ++ [Event.fail] ++ errorbuffer_print w1, rfl, by simp [hout1], ?_, ?_⟩⟩
        · intro e he
          simp only [List.mem_append, List.mem_singleton] at he
          rcases he with (h | h) | h
          · exact (hg e h).1
          · subst h; rfl
          · exact (hep e h).1
        · simp [List.count_append, hcount, hcount2]
    · refine ⟨_, by simp [run_body, hsel, hr, hskip]; rfl, ?_,
        Or.inr ⟨hselects, Verdict.skipped, [Event.skipped], rfl, by simp, ?_, ?_⟩⟩
      · exact hw
      · intro e he
        simp only [List.mem_singleton] at he
        subst he; rfl
      · simp

theorem record_frame (st : Statics) (v : Verdict) :
    (st.record v).filter = st.filter ∧ (st.record v).suite_name = st.suite_name ∧
      (st.record v).total = st.total := by
  cases v <;> exact ⟨rfl, rfl, rfl⟩

theorem selects_congr (st st2 : Statics) (hf : st2.filter = st.filter)
    (hn : st2.suite_name = st.suite_name) (t : ctest) : st2.selects t = st.selects t := by
  simp [Statics.selects, Statics.call_filter, hf, hn]

theorem foldl_record_frame (vs : List Verdict) :
    ∀ st : Statics, (vs.foldl Statics.record st).filter = st.filter ∧
      (vs.foldl Statics.record st).suite_name = st.suite_name ∧
      (vs.foldl Statics.record st).total = st.total := by
  induction vs with
  | nil => intro st; exact ⟨rfl, rfl, rfl⟩
  | cons v vs ih =>
    intro st
    obtain ⟨h1, h2, h3⟩ := ih (st.record v)
    obtain ⟨k1, k2, k3⟩ := record_frame st v
    exact ⟨h1.trans k1, h2.trans k2, h3.trans k3⟩

/-- The counters after recording a list of outcomes, as long as no counter leaves the
range of `int`. -/
theorem foldl_record_counters (vs : List Verdict) :
    ∀ st : Statics,
      (-2 ^ 31 ≤ st.num_ok ∧ st.num_ok + vs.length ≤ 2 ^ 31 - 1) →
      (-2 ^ 31 ≤ st.num_fail ∧ st.num_fail + vs.length ≤ 2 ^ 31 - 1) →
      (-2 ^ 31 ≤ st.num_skip ∧ st.num_skip + vs.length ≤ 2 ^ 31 - 1) →
      (vs.foldl Statics.record st).num_ok = st.num_ok + vs.count Verdict.passed ∧
      (vs.foldl Statics.record st).num_fail = st.num_fail + vs.count Verdict.failed ∧
      (vs.foldl Statics.record st).num_skip = st.num_skip + vs.count Verdict.skipped := by
  induction vs with
  | nil => intro st _ _ _; simp
  | cons v vs ih =>
    intro st h1 h2 h3
    simp only [List.length_cons, Nat.cast_add, Nat.cast_one] at h1 h2 h3
    have len0 : (0:Int) ≤ vs.length := Int.ofNat_nonneg _
    have i1 : int_wrap (st.num_ok + 1) = st.num_ok + 1 :=
      int_wrap_incr _ ⟨h1.1, by have := h1.2; omega⟩
    have i2 : int_wrap (st.num_fail + 1) = st.num_fail + 1 :=
      int_wrap_incr _ ⟨h2.1, by have := h2.2; omega⟩
    have i3 : int_wrap (st.num_skip + 1) = st.num_skip + 1 :=
      int_wrap_incr _ ⟨h3.1, by have := h3.2; omega⟩
    cases v with
    | passed =>
      obtain ⟨r1, r2, r3⟩ := ih (st.record Verdict.passed)
        (by simp only [Statics.record, i1]; constructor <;> omega)
        (by simp only [Statics.record]; constructor <;> omega)
        (by simp only [Statics.record]; constructor <;> omega)
      rw [List.foldl_cons, r1, r2, r3]
      simp only [Statics.record, i1]
      simp [List.count_cons]
      omega
    | failed =>
      obtain ⟨r1, r2, r3⟩ := ih (st.record Verdict.failed)
        (by simp only [Statics.record]; constructor <;> omega)
        (by simp only [Statics.record, i2]; constructor <;> omega)
        (by simp only [Statics.record]; constructor <;> omega)
      rw [List.foldl_cons, r1, r2, r3]
      simp only [Statics.record, i2]
      simp [List.count_cons]
      omega
    | skipped =>
      obtain ⟨r1, r2, r3⟩ := ih (st.record Verdict.skipped)
        (by simp only [Statics.record]; constructor <;> omega)
        (by simp only [Statics.record]; constructor <;> omega)
        (by simp only [Statics.record, i3]; constructor <;> omega)
      rw [List.foldl_cons, r1, r2, r3]
      simp only [Statics.record, i3]
      simp [List.count_cons]
      omega

theorem verdict_counts (vs : List Verdict) :
    vs.count Verdict.passed + vs.count Verdict.failed + vs.count Verdict.skipped = vs.length := by
  induction vs with
  | nil => rfl
  | cons v vs ih => cases v <;> simp [List.count_cons] <;> omega

/-- The second loop of `ctest_main` over the registered tests `l`, whose messages fit
the scratch buffer. -/
theorem run_loop {σ : Type} (char_signed : Bool) (code : Nat → Stage σ) (fuel : Nat)
    (tm : TestMem) (sm : SuiteMem) (chains : Nat → List Nat) (hch : sm.Chains chains)
    (hfuel : ∀ i, i < HASH_SIZE → (chains i).length < fuel) (l : List Nat)
    (hfit : RunInBounds char_signed code tm sm chains l) :
    ∀ s : DriverState σ, s.statics.Consistent → s.world.err.written_end ≤ MSG_SIZE →
      ∃ (s2 : DriverState σ) (vs : List Verdict) (evs : List Event),
        fold_entries (run_body char_signed code fuel tm sm) l s = some (Sum.inl s2) ∧
        s2.world.err.written_end ≤ MSG_SIZE ∧
        s2.statics = vs.foldl Statics.record s.statics ∧
        vs.length = (l.filter (fun a => s.statics.selects (tm.tests a))).length ∧
        s2.out = s.out ++ evs ∧
        evs.filterMap Event.header_test = l.filter (fun a => s.statics.selects (tm.tests a)) ∧
        evs.count Event.fail = vs.count Verdict.failed := by
  induction l with
  | nil => intro s _ hw; exact ⟨s, [], [], rfl, hw, rfl, rfl, by simp, rfl, rfl⟩
  | cons a l ih =>
    intro s hok hw
    have hfit2 : RunInBounds char_signed code tm sm chains l :=
      fun b hb => hfit b (List.mem_cons_of_mem a hb)
    obtain ⟨s1, hrun, hw1, hcase⟩ := run_body_step char_signed code fuel tm sm chains hch hfuel
      a s hok hw (fun hskip => hfit a (List.mem_cons_self a l) hskip s hw)
    rcases hcase with ⟨hns, hs1⟩ | ⟨hsel, v, evs1, hst, hout, hhead, hcount⟩
    · subst hs1
      obtain ⟨s2, vs, evs, h1, hw2, h2, h3, h4, h5, h6⟩ := ih hfit2 s1 hok hw1
      refine ⟨s2, vs, evs, ?_, hw2, h2, ?_, h4, ?_, h6⟩
      · simp only [fold_entries, hrun]; exact h1
      · simp [List.filter_cons, hns, h3]
      · simp [List.filter_cons, hns, h5]
    · obtain ⟨f1, f2, _⟩ := record_frame s.statics v
      have hok1 : s1.statics.Consistent := by
        intro hf; rw [hst, f2]; exact hok (by rw [← f1, ← hst]; exact hf)
      have hsame : ∀ t, s1.statics.selects t = s.statics.selects t := fun t =>
        selects_congr s.statics s1.statics (by rw [hst, f1]) (by rw [hst, f2]) t
      obtain ⟨s2, vs, evs, h1, hw2, h2, h3, h4, h5, h6⟩ := ih hfit2 s1 hok1 hw1
      simp only [hsame] at h3 h5
      refine ⟨s2, v :: vs, Event.test_header a s.statics.idx s.statics.total :: evs1 ++ evs,
        ?_, hw2, ?_, ?_, ?_, ?_, ?_⟩
      · simp only [fold_entries, hrun]; exact h1
      · rw [h2, hst]; rfl
      · simp [List.filter_cons, hsel, h3]
      · rw [h4, hout]; simp
      · have hnil : evs1.filterMap Event.header_test = [] :=
          List.filterMap_eq_nil_iff.2 hhead
        simp [List.filter_cons, hsel, List.filterMap_cons, List.filterMap_append,
          Event.header_test, hnil, h5]
      · simp only [List.cons_append, List.count_cons, List.count_append, hcount, h6]
        cases v <;> simp
        omega

/-- The first loop of `ctest_main` over the registered tests `l`: only `total` changes,
and it goes up by the number of selected tests as long as it stays in the range of `int`. -/
theorem count_loop (tm : TestMem) (l : List Nat) :
    ∀ st : Statics, st.Consistent →
      ∃ st1, fold_entries (count_body tm) l st = some (Sum.inl st1) ∧
        st1.filter = st.filter ∧ st1.suite_name = st.suite_name ∧
        st1.num_ok = st.num_ok ∧ st1.num_fail = st.num_fail ∧ st1.num_skip = st.num_skip ∧
        st1.idx = st.idx ∧
        (-2 ^ 31 ≤ st.total → st.total + l.length ≤ 2 ^ 31 - 1 →
          st1.total = st.total + (l.filter (fun a => st.selects (tm.tests a))).length) := by
  induction l with
  | nil => intro st _; exact ⟨st, rfl, rfl, rfl, rfl, rfl, rfl, rfl, by simp⟩
  | cons a l ih =>
    intro st hok
    obtain ⟨r, hr⟩ := call_filter_of_consistent st hok (tm.tests a)
    by_cases hr0 : r = 0
    · subst hr0
      obtain ⟨st1, h, f1, f2, f3, f4, f5, f6, ht⟩ := ih st hok
      refine ⟨st1, ?_, f1, f2, f3, f4, f5, f6, ?_⟩
      · simp only [fold_entries, count_body, hr]; simpa using h
      · intro hlo hhi
        have hsel : st.selects (tm.tests a) = false := by simp [Statics.selects, hr]
        simp only [List.length_cons, Nat.cast_add, Nat.cast_one] at hhi
        rw [ht hlo (by omega)]
        simp [List.filter_cons, hsel]
    · have hok1 : Statics.Consistent { st with total := int_wrap (st.total + 1) } := hok
      obtain ⟨st1, h, f1, f2, f3, f4, f5, f6, ht⟩ := ih _ hok1
      refine ⟨st1, ?_, f1, f2, f3, f4, f5, f6, ?_⟩
      · simp only [fold_entries, count_body, hr]; simpa [hr0] using h
      · intro hlo hhi
        have hsel : st.selects (tm.tests a) = true := by simp [Statics.selects, hr, hr0]
        simp only [List.length_cons, Nat.cast_add, Nat.cast_one] at hhi
        have len0 : (0:Int) ≤ l.length := Int.ofNat_nonneg _
        have hw : int_wrap (st.total + 1) = st.total + 1 :=
          int_wrap_incr _ ⟨hlo, by omega⟩
        have hsame : ∀ t, Statics.selects { st with total := int_wrap (st.total + 1) } t =
            st.selects t := fun t => selects_congr st _ rfl rfl t
        have htot : ({ st with total := int_wrap (st.total + 1) } : Statics).total =
            st.total + 1 := hw
        have := ht (by rw [htot]; omega) (by rw [htot]; omega)
        rw [this, htot]
        simp only [hsame, List.filter_cons, hsel, if_true, List.length_cons, Nat.cast_add,
          Nat.cast_one]
        omega

theorem select_filter_consistent (argv : List (List Nat)) (st : Statics) (h : st.Consistent) :
    (select_filter argv st).Consistent := by
  unfold select_filter
  by_cases h2 : argv.length = 2
  · simp only [h2, if_true]
    intro _
    match argv, h2 with
    | [_, f], _ => simp
  · simp only [h2, if_false]; exact h

theorem select_filter_counters (argv : List (List Nat)) (st : Statics) :
    (select_filter argv st).total = st.total ∧ (select_filter argv st).num_ok = st.num_ok ∧
      (select_filter argv st).num_fail = st.num_fail ∧
      (select_filter argv st).num_skip = st.num_skip ∧
      (select_filter argv st).idx = st.idx := by
  unfold select_filter
  split <;> exact ⟨rfl, rfl, rfl, rfl, rfl⟩

/-- A run of `ctest_main` on a registry holding the tests `l`, whose messages fit the
scratch buffer, and a suite index whose lookups return: the run returns, and its result
is described by the outcomes `vs` recorded for the selected tests and the events `evs` of
the second loop. -/
theorem ctest_main_run {σ : Type} (char_signed : Bool) (code : Nat → Stage σ) (isatty : Int)
    (fuel : Nat) (tm : TestMem) (sm : SuiteMem) (argv : List (List Nat)) (s : DriverState σ)
    (l : List Nat) (chains : Nat → List Nat)
    (hl : tm.Holds l) (hch : sm.Chains chains) (hfl : l.length < fuel)
    (hfuel : ∀ i, i < HASH_SIZE → (chains i).length < fuel)
    (hok0 : (select_filter argv s.statics).Consistent)
    (hstart : s.world.err.written_end ≤ MSG_SIZE)
    (hfit : RunInBounds char_signed code tm sm chains l) :
    ∃ (st1 : Statics) (s2 : DriverState σ) (vs : List Verdict) (evs : List Event),
      ctest_main char_signed code isatty fuel tm sm argv s =
        some (s2.statics.num_fail,
          { s2 with out := s2.out ++ [Event.results s2.statics.total s2.statics.num_ok
              s2.statics.num_fail s2.statics.num_skip] }) ∧
      st1.filter = (select_filter argv s.statics).filter ∧
      st1.suite_name = (select_filter argv s.statics).suite_name ∧
      st1.num_ok = s.statics.num_ok ∧ st1.num_fail = s.statics.num_fail ∧
      st1.num_skip = s.statics.num_skip ∧ st1.idx = s.statics.idx ∧
      (-2 ^ 31 ≤ s.statics.total → s.statics.total + l.length ≤ 2 ^ 31 - 1 →
        st1.total = s.statics.total +
          (l.filter (fun a => (select_filter argv s.statics).selects (tm.tests a))).length) ∧
      s2.statics = vs.foldl Statics.record st1 ∧
      vs.length =
        (l.filter (fun a => (select_filter argv s.statics).selects (tm.tests a))).length ∧
      s2.out = s.out ++ evs ∧
      evs.filterMap Event.header_test =
        l.filter (fun a => (select_filter argv s.statics).selects (tm.tests a)) ∧
      evs.count Event.fail = vs.count Verdict.failed ∧
      s2.world.err.written_end ≤ MSG_SIZE := by
  obtain ⟨c1, c2, c3, c4, c5⟩ := select_filter_counters argv s.statics
  obtain ⟨st1, hcount, f1, f2, f3, f4, f5, f6, ht⟩ :=
    count_loop tm l (select_filter argv s.statics) hok0
  have hok1 : st1.Consistent := by
    intro hf; rw [f2]; exact hok0 (by rw [← f1]; exact hf)
  obtain ⟨s2, vs, evs, hrun, hw2, h2, h3, h4, h5, h6⟩ :=
    run_loop char_signed code fuel tm sm chains hch hfuel l hfit
      { statics := st1, world := { s.world with color_output := isatty }, out := s.out,
        ctest_err := s.ctest_err } hok1 hstart
  have hsame : ∀ t, st1.selects t = (select_filter argv s.statics).selects t := fun t =>
    selects_congr _ st1 f1 f2 t
  simp only [hsame] at h3 h5
  refine ⟨st1, s2, vs, evs, ?_, f1, f2, f3.trans c2, f4.trans c3, f5.trans c4, f6.trans c5,
    ?_, h2, h3, h4, h5, h6, hw2⟩
  · unfold ctest_main
    simp only
    rw [for_each_entry_eq_fold _ _ _ _ l fuel _ _ hl.1 hfl, hcount]
    simp only
    rw [for_each_entry_eq_fold _ _ _ _ l fuel _ _ hl.1 hfl, hrun]
  · intro hlo hhi
    rw [← c1] at hlo hhi ⊢
    exact ht hlo hhi

/-! ## The claims about a whole run -/

/-- C1: when `ctest_main` is run from zeroed counters on a registry of fewer than `2^31`
tests `l` (with any filter, any behaviour of the test functions and hooks that keeps
their messages inside the scratch buffer, and a suite index whose lookups return), it
returns, and the counters it leaves satisfy
`total == num_ok + num_fail + num_skip`, where `total` is the number of tests the
filter selects. -/
theorem counters_add_up {σ : Type} (char_signed : Bool) (code : Nat → Stage σ) (isatty : Int)
    (fuel : Nat) (tm : TestMem) (sm : SuiteMem) (argv : List (List Nat)) (s : DriverState σ)
    (l : List Nat) (chains : Nat → List Nat)
    (hl : tm.Holds l) (hch : sm.Chains chains) (hfl : l.length < fuel)
    (hfuel : ∀ i, i < HASH_SIZE → (chains i).length < fuel) (hok : s.statics.Consistent)
    (hsize : l.length < 2 ^ 31)
    (hzero : s.statics.total = 0 ∧ s.statics.num_ok = 0 ∧ s.statics.num_fail = 0 ∧
      s.statics.num_skip = 0)
    (hstart : s.world.err.written_end ≤ MSG_SIZE)
    (hfit : RunInBounds char_signed code tm sm chains l) :
    ∃ ret s2, ctest_main char_signed code isatty fuel tm sm argv s = some (ret, s2) ∧
      s2.statics.total = s2.statics.num_ok + s2.statics.num_fail + s2.statics.num_skip ∧
      s2.statics.total =
        ((l.filter (fun a => (select_filter argv s.statics).selects (tm.tests a))).length :
          Int) := by
  obtain ⟨st1, s2, vs, evs, hrun, _, _, g1, g2, g3, _, ht, hst, hlen, _, _, _, _⟩ :=
    ctest_main_run char_signed code isatty fuel tm sm argv s l chains hl hch hfl hfuel
      (select_filter_consistent argv s.statics hok) hstart hfit
  obtain ⟨z0, z1, z2, z3⟩ := hzero
  have hle : (l.filter (fun a => (select_filter argv s.statics).selects (tm.tests a))).length ≤
      l.length := List.length_filter_le _ _
  have hsz : (l.length : Int) < 2 ^ 31 := by exact_mod_cast hsize
  have hvs : (vs.length : Int) ≤ l.length := by rw [hlen]; exact_mod_cast hle
  have htot := ht (by rw [z0]; norm_num) (by rw [z0]; omega)
  rw [z0, zero_add] at htot
  obtain ⟨_, _, ftot⟩ := foldl_record_frame vs st1
  obtain ⟨c1, c2, c3⟩ := foldl_record_counters vs st1
    (by rw [g1, z1]; constructor <;> [norm_num; omega])
    (by rw [g2, z2]; constructor <;> [norm_num; omega])
    (by rw [g3, z3]; constructor <;> [norm_num; omega])
  have hcounts := verdict_counts vs
  refine ⟨_, _, hrun, ?_, ?_⟩
  · show s2.statics.total = s2.statics.num_ok + s2.statics.num_fail + s2.statics.num_skip
    rw [hst, ftot, c1, c2, c3, htot, g1, g2, g3, z1, z2, z3, ← hlen, ← hcounts]
    push_cast
    ring
  · show s2.statics.total = _
    rw [hst, ftot, htot]

/-- C2: the first call of `ctest_main` in a process (the static variables have their
initialisers, nothing has been stored past the scratch buffer), on a registry of fewer
than `2^31` tests whose messages fit the scratch buffer, returns the number of `[FAIL]`
outcomes recorded in the run, one per selected, non-skipped test recorded Failed; it
returns 0 exactly when no test was recorded Failed.  The tests recorded Failed are among
the tests the filter selects, so the value is at most their number. -/
theorem returns_failed_count {σ : Type} (char_signed : Bool) (code : Nat → Stage σ)
    (isatty : Int) (fuel : Nat) (tm : TestMem) (sm : SuiteMem) (argv : List (List Nat))
    (s : DriverState σ) (l : List Nat) (chains : Nat → List Nat)
    (hl : tm.Holds l) (hch : sm.Chains chains) (hfl : l.length < fuel)
    (hfuel : ∀ i, i < HASH_SIZE → (chains i).length < fuel)
    (hsize : l.length < 2 ^ 31) (hfirst : s.statics = Statics.initial)
    (hstart : s.world.err.written_end ≤ MSG_SIZE)
    (hfit : RunInBounds char_signed code tm sm chains l) :
    ∃ ret s2 evs, ctest_main char_signed code isatty fuel tm sm argv s = some (ret, s2) ∧
      s2.out = s.out ++ evs ∧
      ret = (evs.count Event.fail : Int) ∧
      ret = s2.statics.num_fail ∧
      (ret = 0 ↔ Event.fail ∉ evs) ∧
      evs.filterMap Event.header_test =
        l.filter (fun a => (select_filter argv s.statics).selects (tm.tests a)) ∧
      ret ≤ ((l.filter (fun a => (select_filter argv s.statics).selects (tm.tests a))).length :
        Int) := by
  have hok : s.statics.Consistent := by
    rw [hfirst]; intro h; cases h
  obtain ⟨st1, s2, vs, evs, hrun, _, _, g1, g2, g3, _, _, hst, hlen, hout, hhead, hfail, _⟩ :=
    ctest_main_run char_signed code isatty fuel tm sm argv s l chains hl hch hfl hfuel
      (select_filter_consistent argv s.statics hok) hstart hfit
  have hle : (l.filter (fun a => (select_filter argv s.statics).selects (tm.tests a))).length ≤
      l.length := List.length_filter_le _ _
  have hsz : (l.length : Int) < 2 ^ 31 := by exact_mod_cast hsize
  have hvs : (vs.length : Int) ≤ l.length := by rw [hlen]; exact_mod_cast hle
  rw [hfirst] at g1 g2 g3
  obtain ⟨c1, c2, c3⟩ := foldl_record_counters vs st1
    (by rw [g1]; simp only [Statics.initial]; constructor <;> [norm_num; omega])
    (by rw [g2]; simp only [Statics.initial]; constructor <;> [norm_num; omega])
    (by rw [g3]; simp only [Statics.initial]; constructor <;> [norm_num; omega])
  obtain ⟨evsF, hE⟩ : ∃ evsF, evsF = evs ++ [Event.results s2.statics.total s2.statics.num_ok
      s2.statics.num_fail s2.statics.num_skip] := ⟨_, rfl⟩
  have hret : s2.statics.num_fail = (evsF.count Event.fail : Int) := by
    rw [hE, hst, c2, g2, List.count_append, hfail]
    simp [Statics.initial]
  refine ⟨_, _, evsF, hrun, ?_, hret, rfl, ?_, ?_, ?_⟩
  · show s2.out ++ _ = _
    rw [hE, hout, List.append_assoc]
  · constructor
    · intro h
      rw [hret] at h
      exact List.count_eq_zero.1 (by exact_mod_cast h)
    · intro h
      rw [hret]
      exact_mod_cast List.count_eq_zero.2 h
  · rw [hE, List.filterMap_append, hhead]
    simp [Event.header_test]
  · show s2.statics.num_fail ≤ _
    rw [hst, c2, g2, ← hlen]
    have : vs.count Verdict.failed ≤ vs.length := List.count_le_length _ _
    simp only [Statics.initial, zero_add]
    exact_mod_cast this

/-- C7: for every number of test records registered (at distinct addresses, with any
names) by `ctest_impl_list_add_tail` on the empty list, a run with the accept-all filter,
of tests whose messages fit the scratch buffer, prints its progress lines for exactly
these records, each once, in the order of registration; records with equal suite and test
names are all kept and visited. -/
theorem accept_all_visits_in_registration_order {σ : Type} (char_signed : Bool)
    (code : Nat → Stage σ) (isatty : Int) (fuel : Nat) (tests : Nat → ctest) (as : List Nat)
    (sm : SuiteMem) (argv : List (List Nat)) (s : DriverState σ) (chains : Nat → List Nat)
    (hnd : as.Nodup) (hch : sm.Chains chains) (hfl : as.length < fuel)
    (hfuel : ∀ i, i < HASH_SIZE → (chains i).length < fuel)
    (hargv : argv.length ≠ 2) (hall : s.statics.filter = ctest_filter_func.suite_all)
    (hstart : s.world.err.written_end ≤ MSG_SIZE)
    (hfit : RunInBounds char_signed code (as.foldl register_test (TestMem.init tests)) sm
      chains as) :
    ∃ ret s2 evs,
      ctest_main char_signed code isatty fuel (as.foldl register_test (TestMem.init tests)) sm
        argv s = some (ret, s2) ∧
      s2.out = s.out ++ evs ∧
      evs.filterMap Event.header_test = as ∧
      (∀ a ∈ as, (evs.filterMap Event.header_test).count a = 1) ∧
      (∀ a, ((as.foldl register_test (TestMem.init tests)).tests a).ssname = (tests a).ssname ∧
        ((as.foldl register_test (TestMem.init tests)).tests a).ttname = (tests a).ttname) := by
  have hl : (as.foldl register_test (TestMem.init tests)).Holds as := by
    have := foldl_register_test_holds as (TestMem.init tests) [] (init_holds tests)
      (by simpa using hnd)
    simpa using this
  have hok : s.statics.Consistent := by
    intro h; rw [hall] at h; cases h
  obtain ⟨st1, s2, vs, evs, hrun, _, _, _, _, _, _, _, _, _, hout, hhead, _, _⟩ :=
    ctest_main_run char_signed code isatty fuel _ sm argv s as chains hl hch hfl hfuel
      (select_filter_consistent argv s.statics hok) hstart hfit
  have hsel : ∀ t, (select_filter argv s.statics).selects t = true := by
    intro t
    simp [select_filter, hargv, Statics.selects, Statics.call_filter, hall, suite_all]
  have hhead2 : evs.filterMap Event.header_test = as := by
    rw [hhead]; simp [hsel]
  refine ⟨_, _, evs ++ [Event.results s2.statics.total s2.statics.num_ok
      s2.statics.num_fail s2.statics.num_skip], hrun, ?_, ?_, ?_, ?_⟩
  · show s2.out ++ _ = _
    rw [hout, List.append_assoc]
  · rw [List.filterMap_append, hhead2]; simp [Event.header_test]
  · intro a ha
    rw [List.filterMap_append, hhead2]
    simp [Event.header_test, List.count_eq_one_of_mem hnd ha]
  · intro a
    obtain ⟨h1, h2, _⟩ := foldl_register_test_fields as (TestMem.init tests) a
    exact ⟨h1, h2⟩

theorem example_tm_holds : example_tm.Holds [1, 2, 3] :=
  foldl_register_test_holds [1, 2, 3] (TestMem.init example_tests) [] (init_holds example_tests)
    (by decide)

theorem example_empty_index_chains :
    (ctest_impl_hash_init_once SuiteMem.zeroed).Chains (fun _ => []) :=
  (init_once_prior true SuiteMem.zeroed (fun _ => []) (Or.inl ⟨Or.inl (fun _ => rfl), rfl⟩)).1

theorem counters_add_up_witness :
    ∃ ret s2, ctest_main true example_code 1 4 example_tm
        (ctest_impl_hash_init_once SuiteMem.zeroed) [[99], example_Math] example_start =
        some (ret, s2) ∧
      s2.statics.total = s2.statics.num_ok + s2.statics.num_fail + s2.statics.num_skip ∧
      s2.statics.total = 2 :=
  counters_add_up true example_code 1 4 example_tm (ctest_impl_hash_init_once SuiteMem.zeroed)
    [[99], example_Math] example_start [1, 2, 3] (fun _ => []) example_tm_holds
    example_empty_index_chains (by decide) (fun _ _ => by simp)
    (by intro h; exact absurd h (by decide)) (by norm_num) ⟨rfl, rfl, rfl, rfl⟩
    (by decide) (example_code_in_bounds _ _ _ _)

theorem returns_failed_count_witness :
    ∃ ret s2 evs, ctest_main true example_code 1 4 example_tm
        (ctest_impl_hash_init_once SuiteMem.zeroed) [[99]] example_start = some (ret, s2) ∧
      s2.out = example_start.out ++ evs ∧
      ret = (evs.count Event.fail : Int) ∧
      ret = s2.statics.num_fail ∧
      (ret = 0 ↔ Event.fail ∉ evs) :=
  (returns_failed_count true example_code 1 4 example_tm
    (ctest_impl_hash_init_once SuiteMem.zeroed) [[99]] example_start [1, 2, 3] (fun _ => [])
    example_tm_holds example_empty_index_chains (by decide) (fun _ _ => by simp) (by norm_num)
    rfl (by decide) (example_code_in_bounds _ _ _ _)).imp
    (fun _ h => h.imp (fun _ h2 => h2.imp (fun _ h3 =>
      ⟨h3.1, h3.2.1, h3.2.2.1, h3.2.2.2.1, h3.2.2.2.2.1⟩)))

theorem accept_all_visits_in_registration_order_witness :
    ∃ ret s2 evs, ctest_main true example_code 1 4 example_tm
        (ctest_impl_hash_init_once SuiteMem.zeroed) [[99]] example_start = some (ret, s2) ∧
      s2.out = example_start.out ++ evs ∧
      evs.filterMap Event.header_test = [1, 2, 3] :=
  (accept_all_visits_in_registration_order true example_code 1 4 example_tests [1, 2, 3]
    (ctest_impl_hash_init_once SuiteMem.zeroed) [[99]] example_start (fun _ => [])
    (by decide) example_empty_index_chains (by decide) (fun _ _ => by simp) (by decide)
    rfl (by decide) (example_code_in_bounds _ _ _ _)).imp
    (fun _ h => h.imp (fun _ h2 => h2.imp (fun _ h3 => ⟨h3.1, h3.2.1, h3.2.2.1⟩)))

/-! ## The filter -/

theorem filter_call_with_argument (prog F : List Nat) (st : Statics) (t : ctest) :
    (select_filter [prog, F] st).call_filter t =
      some (if strncmp F t.ssname (strlen F) = 0 then 1 else 0) := by
  simp [select_filter, Statics.call_filter, suite_filter]

theorem selects_with_argument (prog F : List Nat) (st : Statics) (t : ctest) :
    (select_filter [prog, F] st).selects t = decide (cstr F <+: cstr t.ssname) := by
  unfold Statics.selects
  rw [filter_call_with_argument]
  by_cases h : strncmp F t.ssname (strlen F) = 0
  · have hp := (strncmp_strlen_eq_zero_iff F t.ssname).1 h
    simp [h, hp]
  · have hp : ¬ cstr F <+: cstr t.ssname := fun hp =>
      h ((strncmp_strlen_eq_zero_iff F t.ssname).2 hp)
    simp [h, hp]

/-- C6, counterexample: in the scenario of three tests, a call of `ctest_main` with the
argument `Str` followed by a call without argument.  The second call does not select
every registered test: the filter string of the first call is still installed, `filter`
returns 0 for `(Math, Add)` and `(Math, Sub)`, and the second call, like the first,
prints the progress line of `(Str, Concat)` alone. -/
theorem call_without_argument_keeps_earlier_filter :
    (ctest_main true scenario_code 1 4 scenario_tm (ctest_impl_hash_init_once SuiteMem.zeroed)
        [[112], example_Str] scenario_start).map
      (fun p => [1, 2, 3].map (fun a =>
        (select_filter [[112]] p.2.statics).call_filter (scenario_tm.tests a))) =
      some [some 0, some 0, some 1] ∧
    ((ctest_main true scenario_code 1 4 scenario_tm (ctest_impl_hash_init_once SuiteMem.zeroed)
        [[112], example_Str] scenario_start).bind
      (fun p => (ctest_main true scenario_code 1 4 scenario_tm
        (ctest_impl_hash_init_once SuiteMem.zeroed) [[112]] p.2).map
        (fun q => q.2.out.filterMap Event.header_test))) = some [3, 3] := by
  decide

/-- C6: with the filter string `F` as the single command-line argument, the call
`filter(test)` returns, and it returns nonzero exactly when `F` is an initial segment,
byte for byte, of the test's suite name; so a suite name shorter than `F` is not
selected.  With the empty string as `F` every test is selected.  Without argument every
test is selected on the first call and on any call made while `suite_all` is the
installed filter; once an earlier call has installed the filter string `G`, a call without
argument selects exactly the tests whose suite name starts with `G`.  A run with the
argument `F` on the registry `l`, of tests whose messages fit the scratch buffer, prints
its progress lines for exactly the tests of `l` whose suite name starts with `F`, in
order. -/
theorem suite_filter_selects_by_initial_segment {σ : Type} (char_signed : Bool)
    (code : Nat → Stage σ) (isatty : Int) (fuel : Nat) (tm : TestMem) (sm : SuiteMem)
    (prog F G : List Nat) (s : DriverState σ) (l : List Nat) (chains : Nat → List Nat)
    (t : ctest)
    (hl : tm.Holds l) (hch : sm.Chains chains) (hfl : l.length < fuel)
    (hfuel : ∀ i, i < HASH_SIZE → (chains i).length < fuel)
    (hstart : s.world.err.written_end ≤ MSG_SIZE)
    (hfit : RunInBounds char_signed code tm sm chains l) :
    (∃ r, (select_filter [prog, F] s.statics).call_filter t = some r ∧
      (r ≠ 0 ↔ cstr F <+: cstr t.ssname)) ∧
    ((cstr t.ssname).length < (cstr F).length →
      (select_filter [prog, F] s.statics).call_filter t = some 0) ∧
    (select_filter [prog, []] s.statics).call_filter t = some 1 ∧
    (select_filter [prog] Statics.initial).call_filter t = some 1 ∧
    (s.statics.filter = ctest_filter_func.suite_all →
      (select_filter [prog] s.statics).call_filter t = some 1) ∧
    (∃ r, (select_filter [prog] (select_filter [prog, G] s.statics)).call_filter t = some r ∧
      (r ≠ 0 ↔ cstr G <+: cstr t.ssname)) ∧
    (∃ ret s2 evs,
      ctest_main char_signed code isatty fuel tm sm [prog, F] s = some (ret, s2) ∧
      s2.out = s.out ++ evs ∧
      evs.filterMap Event.header_test =
        l.filter (fun a => decide (cstr F <+: cstr (tm.tests a).ssname))) := by
  have hcall := filter_call_with_argument prog F s.statics t
  have hagain : select_filter [prog] (select_filter [prog, G] s.statics) =
      select_filter [prog, G] s.statics := by
    simp [select_filter]
  refine ⟨⟨_, hcall, ?_⟩, ?_, ?_, ?_, ?_,
    ⟨_, hagain ▸ filter_call_with_argument prog G s.statics t, ?_⟩, ?_⟩
  · rw [← strncmp_strlen_eq_zero_iff]
    by_cases h : strncmp F t.ssname (strlen F) = 0 <;> simp [h]
  · intro hlen
    have hnp : ¬ cstr F <+: cstr t.ssname := fun hp => by
      have := hp.length_le
      omega
    rw [← strncmp_strlen_eq_zero_iff] at hnp
    rw [hcall]; simp [hnp]
  · simp [select_filter, Statics.call_filter, suite_filter, strlen, strncmp]
  · simp [select_filter, Statics.call_filter, Statics.initial, suite_all]
  · intro hall
    simp [select_filter, Statics.call_filter, hall, suite_all]
  · rw [← strncmp_strlen_eq_zero_iff]
    by_cases h : strncmp G t.ssname (strlen G) = 0 <;> simp [h]
  · have hok0 : (select_filter [prog, F] s.statics).Consistent := by
      intro _; simp [select_filter]
    obtain ⟨st1, s2, vs, evs, hrun, _, _, _, _, _, _, _, _, _, hout, hhead, _, _⟩ :=
      ctest_main_run char_signed code isatty fuel tm sm [prog, F] s l chains hl hch hfl hfuel
        hok0 hstart hfit
    refine ⟨_, _, evs ++ [Event.results s2.statics.total s2.statics.num_ok
        s2.statics.num_fail s2.statics.num_skip], hrun, ?_, ?_⟩
    · show s2.out ++ _ = _
      rw [hout, List.append_assoc]
    · rw [List.filterMap_append, hhead]
      simp only [selects_with_argument]
      simp [Event.header_test]

theorem suite_filter_selects_by_initial_segment_witness :
    ∃ ret s2 evs, ctest_main true example_code 1 4 example_tm
        (ctest_impl_hash_init_once SuiteMem.zeroed) [[99], [77, 97]] example_start =
        some (ret, s2) ∧
      s2.out = example_start.out ++ evs ∧
      evs.filterMap Event.header_test = [1, 2] :=
  (suite_filter_selects_by_initial_segment true example_code 1 4 example_tm
    (ctest_impl_hash_init_once SuiteMem.zeroed) [99] [77, 97] [83] example_start [1, 2, 3]
    (fun _ => []) (example_tests 1) example_tm_holds example_empty_index_chains (by decide)
    (fun _ _ => by simp) (by decide) (example_code_in_bounds _ _ _ _)).2.2.2.2.2.2

/-! ## The scratch buffer -/

theorem vprint_errormsg_advance (e : ErrState) (text : List Nat) (h : text.length < 2 ^ 31) :
    (vprint_errormsg e (some text)).cursor_size_end =
      errormsg_advance e.cursor_size_end text.length := by
  obtain ⟨h1, h2, h3⟩ := vprint_errormsg_some e text h
  simp only [ErrState.cursor_size_end, errormsg_advance, h1, h2, h3]

/-- The cursor, the size counter and the written range after one message of 10000 bytes
and the closing writes. -/
theorem errorbuffer_overflow_of_length (text : List Nat) (h : text.length = 10000) :
    (vprint_errormsg (reset_errorbuffer ErrState.zeroed) (some text)).cursor_size_end =
        (5905, 2 ^ 64 - 1810, 4095) ∧
      (msg_end 1 (vprint_errormsg (reset_errorbuffer ErrState.zeroed)
        (some text))).cursor_size_end = (5910, 2 ^ 64 - 1815, 5911) ∧
      (msg_end 0 (vprint_errormsg (reset_errorbuffer ErrState.zeroed)
        (some text))).cursor_size_end = (5906, 2 ^ 64 - 1811, 5907) ∧
      (CTEST_ERR 1 (some text) (reset_errorbuffer ErrState.zeroed)).cursor_size_end =
        (5938, 2 ^ 64 - 1843, 5939) := by
  have hlen : text.length < 2 ^ 31 := by rw [h]; norm_num
  have h0 : (reset_errorbuffer ErrState.zeroed).cursor_size_end = (0, 4095, 0) := rfl
  refine ⟨?_, ?_, ?_, ?_⟩
  · rw [vprint_errormsg_advance _ _ hlen, h0, h]; decide
  · simp only [msg_end, print_errormsg]
    rw [if_pos (by decide), vprint_errormsg_advance _ _ (by decide),
      vprint_errormsg_advance _ _ (by decide), vprint_errormsg_advance _ _ hlen, h0, h]
    decide
  · simp only [msg_end, print_errormsg]
    rw [if_neg (by decide), vprint_errormsg_advance _ _ (by decide),
      vprint_errormsg_advance _ _ hlen, h0, h]
    decide
  · simp only [CTEST_ERR, msg_start, msg_end, print_errormsg]
    rw [if_pos (by decide), if_pos (by decide), vprint_errormsg_advance _ _ (by decide),
      vprint_errormsg_advance _ _ (by decide), vprint_errormsg_advance _ _ hlen,
      vprint_errormsg_advance _ _ (by decide), vprint_errormsg_advance _ _ (by decide), h0, h]
    decide

/-- C8, the code at the failing input: after the per-test reset, one message of 10000
bytes formatted by `vprint_errormsg` moves the cursor 5905 bytes past the start of the
4096-byte buffer and wraps the remaining-size counter around to `2^64 - 1810`; the
closing writes of `msg_end` then store bytes up to offset 5911 (5907 without colour),
outside the buffer.  The same happens through `CTEST_ERR`, whose writes end at offset
5939. -/
theorem errorbuffer_overflow :
    (vprint_errormsg (reset_errorbuffer ErrState.zeroed)
      (some (List.replicate 10000 65))).cursor_size_end = (5905, 2 ^ 64 - 1810, 4095) ∧
    (msg_end 1 (vprint_errormsg (reset_errorbuffer ErrState.zeroed)
      (some (List.replicate 10000 65)))).cursor_size_end = (5910, 2 ^ 64 - 1815, 5911) ∧
    (msg_end 0 (vprint_errormsg (reset_errorbuffer ErrState.zeroed)
      (some (List.replicate 10000 65)))).cursor_size_end = (5906, 2 ^ 64 - 1811, 5907) ∧
    (CTEST_ERR 1 (some (List.replicate 10000 65))
      (reset_errorbuffer ErrState.zeroed)).cursor_size_end = (5938, 2 ^ 64 - 1843, 5939) ∧
    MSG_SIZE = 4096 :=
  ⟨(errorbuffer_overflow_of_length _ (List.length_replicate 10000 65)).1,
    (errorbuffer_overflow_of_length _ (List.length_replicate 10000 65)).2.1,
    (errorbuffer_overflow_of_length _ (List.length_replicate 10000 65)).2.2.1,
    (errorbuffer_overflow_of_length _ (List.length_replicate 10000 65)).2.2.2, rfl⟩

/-! ## The hash function and the initialisation of the table -/

theorem map_char_at_range (c : List Nat) :
    (List.range (c.length + 1)).map (char_at c) = c ++ [0] := by
  induction c with
  | nil => rfl
  | cons a t ih =>
    rw [List.length_cons, List.range_succ_eq_map, List.map_cons, List.map_map]
    have h0 : char_at (a :: t) 0 = a := rfl
    have hs : (char_at (a :: t) ∘ Nat.succ) = char_at t := by
      funext i; rfl
    rw [h0, hs, ih]; rfl

theorem fnv1a32_eq_foldl (char_signed : Bool) (s : List Nat) (n : Nat) :
    ctest_impl_fnv1a32 char_signed s n =
      ((List.range (n + 1)).map (char_at s)).foldl (fnv1a32_step char_signed) 2166136261 := by
  induction n with
  | zero => rfl
  | succ k ih =>
    rw [List.range_succ, List.map_append, List.foldl_append, ← ih]
    rfl

/-- The hash of a name is the fold of the FNV-1a step over the bytes of the name and the
NUL that terminates it. -/
theorem hash_suite_eq_foldl (char_signed : Bool) (name : List Nat) :
    ctest_impl_hash_suite char_signed name =
      (cstr name ++ [0]).foldl (fnv1a32_step char_signed) 2166136261 := by
  rw [hash_suite_cstr, fnv1a32_eq_foldl, map_char_at_range]

/-- C12, as amended: for every name, `ctest_impl_hash_suite` is the fold of the FNV-1a
step (XOR, then multiply by 16777619 modulo `2^32`) from the offset basis 2166136261
over the bytes of the name followed by its terminating zero byte, each byte entering as
its conversion from `char` to `unsigned int`; and `ctest_impl_add_suite` chains a record
in the bucket with index that hash modulo 1024. -/
theorem hash_suite_folds_name_and_terminator (char_signed : Bool) (name : List Nat)
    (m : SuiteMem) (a : Nat) :
    ctest_impl_hash_suite char_signed name =
        (cstr name ++ [0]).foldl (fnv1a32_step char_signed) 2166136261 ∧
      ctest_impl_add_suite char_signed m a =
        ctest_impl_slist_add (slist_loc.entry a)
          (slist_loc.head
            ((cstr (m.suites a).name ++ [0]).foldl (fnv1a32_step char_signed) 2166136261 % 1024))
          m := by
  refine ⟨hash_suite_eq_foldl char_signed name, ?_⟩
  rw [← hash_suite_eq_foldl]
  rfl

/-- C12, the claim as stated fails: the hash of the empty name is
`2166136261 * 16777619 mod 2^32 = 84696351`, where standard FNV-1a over the (no) bytes of
the name is the offset basis 2166136261; and the hash of `"Math"` differs from the
standard hash of its four bytes as well.  Where `char` is signed, the byte `0xc8` does
not enter as the value 200: the hash of the one-byte name differs from the standard hash
of that byte and the terminator, which it equals where `char` is unsigned. -/
theorem hash_suite_not_standard_fnv1a :
    ctest_impl_hash_suite true [] = 84696351 ∧ ctest_impl_hash_suite false [] = 84696351 ∧
      fnv1a32_standard (cstr []) = 2166136261 ∧
      ctest_impl_hash_suite true example_Math ≠ fnv1a32_standard (cstr example_Math) ∧
      ctest_impl_hash_suite true [200] ≠ fnv1a32_standard [200, 0] ∧
      ctest_impl_hash_suite false [200] = fnv1a32_standard [200, 0] := by
  decide

theorem example_bucket0_chains :
    example_bucket0.Chains (fun i => if i = 0 then [7] else []) := by
  intro i hi
  have hinit := example_empty_index_chains
  by_cases h0 : i = 0
  · subst h0
    refine ⟨slist_loc.entry 7, ?_, ?_⟩
    · show (ctest_impl_slist_add (slist_loc.entry 7) (slist_loc.head 0)
        (ctest_impl_hash_init_once SuiteMem.zeroed)).next (slist_loc.head 0) = _
      simp only [ctest_impl_slist_add, suite_next_set_next]
      simp
    · obtain ⟨first, hfirst, hchain⟩ := hinit 0 hi
      have hf : first = slist_loc.head 0 := hchain
      refine ⟨by simp, rfl, slist_loc.head 0, ?_, rfl⟩
      simp only [example_bucket0, ctest_impl_slist_add, suite_next_set_next]
      simp
      rw [hf] at hfirst; exact hfirst
  · obtain ⟨first, hfirst, hchain⟩ := hinit i hi
    refine ⟨first, ?_, ?_⟩
    · show (ctest_impl_slist_add (slist_loc.entry 7) (slist_loc.head 0)
        (ctest_impl_hash_init_once SuiteMem.zeroed)).next (slist_loc.head i) = _
      simp only [ctest_impl_slist_add, suite_next_set_next]
      simp [h0]
      exact hfirst
    · simp only [h0, if_false]
      exact hchain

/-- C13: `ctest_impl_hash_init_once` makes every bucket of an all-unset table an empty
chain, and leaves alone (the whole memory, hence every chain of) a table that has been
initialised, whatever records its buckets chain, bucket 0 included; so it is idempotent. -/
theorem hash_init_once_idempotent (m0 m : SuiteMem) (chains : Nat → List Nat)
    (hz : ∀ i, m0.ctest_impl_suite_hashtable i = none) (h : m.Chains chains) :
    (∀ i, i < HASH_SIZE →
      (ctest_impl_hash_init_once m0).ctest_impl_suite_hashtable i = some (slist_loc.head i)) ∧
    (ctest_impl_hash_init_once m0).Chains (fun _ => []) ∧
    ctest_impl_hash_init_once m = m ∧
    (ctest_impl_hash_init_once m).Chains chains ∧
    ctest_impl_hash_init_once (ctest_impl_hash_init_once m0) = ctest_impl_hash_init_once m0 := by
  have h1 : ∀ i, i < HASH_SIZE →
      (ctest_impl_hash_init_once m0).ctest_impl_suite_hashtable i = some (slist_loc.head i) := by
    intro i hi
    simp only [ctest_impl_hash_init_once, ctest_impl_hash_init_once_helper, hz 0, if_true]
    exact init_helper_apply _ i hi
  have h2 : ctest_impl_hash_init_once m = m := by
    obtain ⟨first, hfirst, _⟩ := h 0 (by decide)
    simp [ctest_impl_hash_init_once, ctest_impl_hash_init_once_helper, hfirst]
  refine ⟨h1, ?_, h2, by rw [h2]; exact h, init_once_idem m0⟩
  intro i hi
  exact ⟨slist_loc.head i, h1 i hi, rfl⟩

theorem hash_init_once_idempotent_witness :
    ctest_impl_hash_init_once example_bucket0 = example_bucket0 ∧
      (ctest_impl_hash_init_once SuiteMem.zeroed).Chains (fun _ => []) :=
  ⟨(hash_init_once_idempotent SuiteMem.zeroed example_bucket0 _ (fun _ => rfl)
      example_bucket0_chains).2.2.1,
    (hash_init_once_idempotent SuiteMem.zeroed example_bucket0 _ (fun _ => rfl)
      example_bucket0_chains).2.1⟩

/-! ## Lookup after inserts and emplaces -/

theorem add_suite_linked (char_signed : Bool) (m : SuiteMem) (chains : Nat → List Nat)
    (h : m.Linked char_signed chains) (a : Nat) (hanot : ∀ j, j < HASH_SIZE → a ∉ chains j) :
    (ctest_impl_add_suite char_signed m a).Linked char_signed
      (Function.update chains (ctest_impl_hash_suite char_signed (m.suites a).name % HASH_SIZE)
        (a :: chains (ctest_impl_hash_suite char_signed (m.suites a).name % HASH_SIZE))) := by
  obtain ⟨hch, hnd, hbk⟩ := h
  have hk : ctest_impl_hash_suite char_signed (m.suites a).name % HASH_SIZE < HASH_SIZE :=
    Nat.mod_lt _ (by decide)
  generalize hkdef : ctest_impl_hash_suite char_signed (m.suites a).name % HASH_SIZE = k at hk
  have hnext : ∀ i, i < HASH_SIZE → ∀ c ∈ chains i,
      (ctest_impl_add_suite char_signed m a).next (slist_loc.entry c) =
        m.next (slist_loc.entry c) := by
    intro i hi c hc
    have hca : c ≠ a := fun e => hanot i hi (e ▸ hc)
    rw [add_suite_next]; simp [hca]
  have hcongr : ∀ i, i < HASH_SIZE → ∀ hd first,
      IsChain m.next slist_loc.to_entry hd first (chains i) →
      IsChain (ctest_impl_add_suite char_signed m a).next slist_loc.to_entry hd first
        (chains i) := by
    intro i hi hd first hc
    apply IsChain_congr m.next _ _ _ _ _ _ hc
    intro p c hc hp
    have : p = slist_loc.entry c := (slist_to_entry_eq_some p c).1 hp
    subst this
    exact hnext i hi c hc
  refine ⟨?_, ?_, ?_⟩
  · intro i hi
    obtain ⟨first, hfirst, hchain⟩ := hch i hi
    by_cases hik : i = k
    · subst hik
      refine ⟨slist_loc.entry a, ?_, ?_⟩
      · show (ctest_impl_add_suite char_signed m a).next (slist_loc.head i) = _
        rw [add_suite_next, hkdef]; simp
      · rw [Function.update_same]
        refine ⟨by simp, by simp [slist_loc.to_entry], first, ?_, hcongr i hi _ _ hchain⟩
        rw [add_suite_next, hkdef]; simp
        exact hfirst
    · refine ⟨first, ?_, ?_⟩
      · show (ctest_impl_add_suite char_signed m a).next (slist_loc.head i) = _
        rw [add_suite_next, hkdef]; simp [hik]
        exact hfirst
      · rw [Function.update_noteq hik]
        exact hcongr i hi _ _ hchain
  · intro i hi
    by_cases hik : i = k
    · subst hik
      rw [Function.update_same]
      exact List.nodup_cons.2 ⟨hanot i hi, hnd i hi⟩
    · rw [Function.update_noteq hik]; exact hnd i hi
  · intro i hi c hc
    rw [(add_suite_suites char_signed m a c).1]
    by_cases hik : i = k
    · subst hik
      rw [Function.update_same] at hc
      rcases List.mem_cons.1 hc with hca | hc
      · subst hca; exact hkdef
      · exact hbk i hi c hc
    · rw [Function.update_noteq hik] at hc
      exact hbk i hi c hc

/-- What `ctest_impl_find_suite` returns on a linked index: a record of the name's bucket
whose name is the name asked for, if the index holds a record of that name, and `NULL`
if it holds none. -/
theorem find_suite_linked (char_signed : Bool) (m : SuiteMem) (chains : Nat → List Nat)
    (h : m.Linked char_signed chains) (fuel : Nat)
    (hfuel : ∀ i, i < HASH_SIZE → (chains i).length < fuel) (n : List Nat) :
    ((∃ i r, i < HASH_SIZE ∧ r ∈ chains i ∧ cstr (m.suites r).name = cstr n) →
      ∃ r, ctest_impl_find_suite char_signed fuel m n = some (some r) ∧
        cstr (m.suites r).name = cstr n ∧
        r ∈ chains (ctest_impl_hash_suite char_signed n % HASH_SIZE)) ∧
    ((∀ i r, i < HASH_SIZE → r ∈ chains i → cstr (m.suites r).name ≠ cstr n) →
      ctest_impl_find_suite char_signed fuel m n = some none) := by
  obtain ⟨hch, hnd, hbk⟩ := h
  have hk : ctest_impl_hash_suite char_signed n % HASH_SIZE < HASH_SIZE :=
    Nat.mod_lt _ (by decide)
  have hfind := find_suite_eq char_signed m chains hch n fuel (hfuel _ hk)
  constructor
  · rintro ⟨i, r, hi, hr, hname⟩
    have hik : i = ctest_impl_hash_suite char_signed n % HASH_SIZE := by
      rw [← hbk i hi r hr, hash_suite_congr char_signed _ _ hname]
    subst hik
    cases hf : (chains (ctest_impl_hash_suite char_signed n % HASH_SIZE)).find?
        (fun c => decide (strcmp (m.suites c).name n = 0)) with
    | none =>
      have := List.find?_eq_none.1 hf r hr
      simp [strcmp_eq_zero_iff, hname] at this
    | some c =>
      refine ⟨c, by rw [hfind, hf], ?_, List.mem_of_find?_eq_some hf⟩
      simpa [strcmp_eq_zero_iff] using List.find?_some hf
  · intro hnone
    cases hf : (chains (ctest_impl_hash_suite char_signed n % HASH_SIZE)).find?
        (fun c => decide (strcmp (m.suites c).name n = 0)) with
    | none => rw [hfind, hf]
    | some c =>
      have hc := List.mem_of_find?_eq_some hf
      have hcn : cstr (m.suites c).name = cstr n := by
        simpa [strcmp_eq_zero_iff] using List.find?_some hf
      exact absurd hcn (hnone _ c hk hc)

/-- An emplace on a linked index: it returns, the index stays linked, its records are
the old ones and at most the candidate, and it holds a record of the candidate's name. -/
theorem emplace_suite_linked (char_signed : Bool) (m : SuiteMem) (chains : Nat → List Nat)
    (h : m.Linked char_signed chains) (fuel : Nat)
    (hfuel : ∀ i, i < HASH_SIZE → (chains i).length < fuel) (a : Nat) :
    ∃ m2 r chains2, ctest_impl_emplace_suite char_signed fuel m a = some (m2, r) ∧
      m2.Linked char_signed chains2 ∧
      (∀ c, (m2.suites c).name = (m.suites c).name) ∧
      (∀ i, i < HASH_SIZE → ∀ c, c ∈ chains2 i ↔ (c ∈ chains i ∨
        (c = a ∧ i = ctest_impl_hash_suite char_signed (m.suites a).name % HASH_SIZE ∧
          ∀ j r, j < HASH_SIZE → r ∈ chains j →
            cstr (m.suites r).name ≠ cstr (m.suites a).name))) ∧
      (∀ i, i < HASH_SIZE → (chains2 i).length ≤ (chains i).length + 1) ∧
      (∃ i, i < HASH_SIZE ∧ r ∈ chains2 i) ∧
      cstr (m2.suites r).name = cstr (m.suites a).name := by
  have hk : ctest_impl_hash_suite char_signed (m.suites a).name % HASH_SIZE < HASH_SIZE :=
    Nat.mod_lt _ (by decide)
  obtain ⟨hfound, hnone⟩ := find_suite_linked char_signed m chains h fuel hfuel (m.suites a).name
  by_cases hpres : ∃ i r, i < HASH_SIZE ∧ r ∈ chains i ∧
      cstr (m.suites r).name = cstr (m.suites a).name
  · obtain ⟨r, hr, hname, hmem⟩ := hfound hpres
    refine ⟨m, r, chains, by simp [ctest_impl_emplace_suite, hr], h, fun _ => rfl, ?_,
      fun i _ => Nat.le_succ _, ⟨_, hk, hmem⟩, hname⟩
    intro i hi c
    constructor
    · intro hc; exact Or.inl hc
    · rintro (hc | ⟨_, _, hno⟩)
      · exact hc
      · obtain ⟨i2, r2, hi2, hr2, hn2⟩ := hpres
        exact absurd hn2 (hno i2 r2 hi2 hr2)
  · have hno : ∀ i r, i < HASH_SIZE → r ∈ chains i →
        cstr (m.suites r).name ≠ cstr (m.suites a).name :=
      fun i r hi hr hn => hpres ⟨i, r, hi, hr, hn⟩
    have hanot : ∀ j, j < HASH_SIZE → a ∉ chains j := fun j hj ha => hno j a hj ha rfl
    have hl := add_suite_linked char_signed m chains h a hanot
    refine ⟨_, a, _, by simp [ctest_impl_emplace_suite, hnone hno], hl,
      fun c => (add_suite_suites char_signed m a c).1, ?_, ?_, ⟨_, hk, ?_⟩,
      by rw [(add_suite_suites char_signed m a a).1]⟩
    · intro i hi c
      by_cases hik : i = ctest_impl_hash_suite char_signed (m.suites a).name % HASH_SIZE
      · rw [hik, Function.update_same, List.mem_cons]
        constructor
        · rintro (hc | hc)
          · exact Or.inr ⟨hc, rfl, hno⟩
          · exact Or.inl hc
        · rintro (hc | ⟨hc, _, _⟩)
          · exact Or.inr hc
          · exact Or.inl hc
      · rw [Function.update_noteq hik]
        constructor
        · intro hc; exact Or.inl hc
        · rintro (hc | ⟨_, hi2, _⟩)
          · exact hc
          · exact absurd hi2 hik
    · intro i hi
      by_cases hik : i = ctest_impl_hash_suite char_signed (m.suites a).name % HASH_SIZE
      · rw [hik, Function.update_same]; simp
      · rw [Function.update_noteq hik]; exact Nat.le_succ _
    · rw [Function.update_same]; exact List.mem_cons_self _ _

theorem apply_ops_linked (char_signed : Bool) (fuel : Nat) (ops : List index_op) :
    ∀ (m : SuiteMem) (chains : Nat → List Nat) (seen : List Nat) (n : Nat),
      m.Linked char_signed chains →
      (∀ i, i < HASH_SIZE → ∀ c ∈ chains i, c ∈ seen) →
      (∀ i, i < HASH_SIZE → (chains i).length ≤ n) → n + ops.length < fuel →
      InsertsFresh seen ops →
      ∃ m2 chains2, apply_ops char_signed fuel m ops = some m2 ∧
        m2.Linked char_signed chains2 ∧
        (∀ c, (m2.suites c).name = (m.suites c).name) ∧
        (∀ i, i < HASH_SIZE → ∀ c ∈ chains i, c ∈ chains2 i) ∧
        (∀ i, i < HASH_SIZE → ∀ c ∈ chains2 i, c ∈ chains i ∨ ∃ op ∈ ops, c = op.addr) ∧
        (∀ op ∈ ops, ∃ i r, i < HASH_SIZE ∧ r ∈ chains2 i ∧
          cstr (m.suites r).name = cstr (m.suites op.addr).name) ∧
        (∀ i, i < HASH_SIZE → (chains2 i).length ≤ n + ops.length) := by
  induction ops with
  | nil =>
    intro m chains seen n h _ hlen _ _
    exact ⟨m, chains, rfl, h, fun _ => rfl, fun _ _ _ hc => hc, fun _ _ _ hc => Or.inl hc,
      by simp, by simpa using hlen⟩
  | cons op ops ih =>
    intro m chains seen n h hseen hlen hfuel hfresh
    have hfuel2 : n + 1 + ops.length < fuel := by simp at hfuel; omega
    have hfuel0 : ∀ i, i < HASH_SIZE → (chains i).length < fuel := fun i hi => by
      have := hlen i hi; omega
    cases op with
    | insert a =>
      obtain ⟨hafresh, hfresh2⟩ := hfresh
      have hanot : ∀ j, j < HASH_SIZE → a ∉ chains j := fun j hj ha => hafresh (hseen j hj a ha)
      have hl := add_suite_linked char_signed m chains h a hanot
      have hk : ctest_impl_hash_suite char_signed (m.suites a).name % HASH_SIZE < HASH_SIZE :=
        Nat.mod_lt _ (by decide)
      generalize hkdef : ctest_impl_hash_suite char_signed (m.suites a).name % HASH_SIZE = k
        at hk hl
      have hmem1 : ∀ i, i < HASH_SIZE → ∀ c,
          c ∈ Function.update chains k (a :: chains k) i → c = a ∨ c ∈ chains i := by
        intro i hi c hc
        by_cases hik : i = k
        · subst hik; rw [Function.update_same] at hc; exact List.mem_cons.1 hc
        · rw [Function.update_noteq hik] at hc; exact Or.inr hc
      have hmono1 : ∀ i, i < HASH_SIZE → ∀ c ∈ chains i,
          c ∈ Function.update chains k (a :: chains k) i := by
        intro i hi c hc
        by_cases hik : i = k
        · subst hik; rw [Function.update_same]; exact List.mem_cons_of_mem _ hc
        · rw [Function.update_noteq hik]; exact hc
      obtain ⟨m2, chains2, e, l2, n2, mono2, mem2, ops2, len2⟩ :=
        ih (ctest_impl_add_suite char_signed m a) _ (a :: seen) (n + 1) hl
          (by
            intro i hi c hc
            rcases hmem1 i hi c hc with hca | hc
            · rw [hca]; exact List.mem_cons_self _ _
            · exact List.mem_cons_of_mem _ (hseen i hi c hc))
          (by
            intro i hi
            by_cases hik : i = k
            · subst hik; rw [Function.update_same]; simpa using hlen i hi
            · rw [Function.update_noteq hik]; exact Nat.le_succ_of_le (hlen i hi))
          hfuel2 hfresh2
      have hn1 : ∀ c, ((ctest_impl_add_suite char_signed m a).suites c).name =
          (m.suites c).name := fun c => (add_suite_suites char_signed m a c).1
      refine ⟨m2, chains2, e, l2, fun c => (n2 c).trans (hn1 c), ?_, ?_, ?_, ?_⟩
      · intro i hi c hc; exact mono2 i hi c (hmono1 i hi c hc)
      · intro i hi c hc
        rcases mem2 i hi c hc with hc1 | ⟨op, hop, hc1⟩
        · rcases hmem1 i hi c hc1 with hca | hc0
          · exact Or.inr ⟨index_op.insert a, List.mem_cons_self _ _, hca⟩
          · exact Or.inl hc0
        · exact Or.inr ⟨op, List.mem_cons_of_mem _ hop, hc1⟩
      · intro op hop
        rcases List.mem_cons.1 hop with hop | hop
        · subst hop
          refine ⟨k, a, hk, mono2 k hk a ?_, rfl⟩
          rw [Function.update_same]; exact List.mem_cons_self _ _
        · obtain ⟨i, r, hi, hr, hname⟩ := ops2 op hop
          rw [hn1, hn1] at hname
          exact ⟨i, r, hi, hr, hname⟩
      · intro i hi; have := len2 i hi; simp; omega
    | emplace a =>
      have hfresh2 : InsertsFresh (a :: seen) ops := hfresh
      obtain ⟨m1, r, chains1, e1, l1, hn1, hmem1, hlen1, ⟨ir, hir, hr⟩, hrname⟩ :=
        emplace_suite_linked char_signed m chains h fuel hfuel0 a
      obtain ⟨m2, chains2, e, l2, n2, mono2, mem2, ops2, len2⟩ :=
        ih m1 chains1 (a :: seen) (n + 1) l1
          (by
            intro i hi c hc
            rcases (hmem1 i hi c).1 hc with hc | ⟨hca, _, _⟩
            · exact List.mem_cons_of_mem _ (hseen i hi c hc)
            · rw [hca]; exact List.mem_cons_self _ _)
          (fun i hi => le_trans (hlen1 i hi) (Nat.succ_le_succ (hlen i hi)))
          hfuel2 hfresh2
      refine ⟨m2, chains2, ?_, l2, fun c => (n2 c).trans (hn1 c), ?_, ?_, ?_, ?_⟩
      · simp only [apply_ops, e1]; exact e
      · intro i hi c hc; exact mono2 i hi c ((hmem1 i hi c).2 (Or.inl hc))
      · intro i hi c hc
        rcases mem2 i hi c hc with hc1 | ⟨op, hop, hc1⟩
        · rcases (hmem1 i hi c).1 hc1 with hc0 | ⟨hca, _, _⟩
          · exact Or.inl hc0
          · exact Or.inr ⟨index_op.emplace a, List.mem_cons_self _ _, hca⟩
        · exact Or.inr ⟨op, List.mem_cons_of_mem _ hop, hc1⟩
      · intro op hop
        rcases List.mem_cons.1 hop with hop | hop
        · subst hop
          refine ⟨ir, r, hir, mono2 ir hir r hr, ?_⟩
          rw [← hn1 r]; exact hrname
        · obtain ⟨i, r2, hi, hr2, hname⟩ := ops2 op hop
          rw [hn1, hn1] at hname
          exact ⟨i, r2, hi, hr2, hname⟩
      · intro i hi; have := len2 i hi; simp; omega

/-- C11: on the suite index built from an initialised empty table by a sequence of
inserts and emplaces (each insert of a record no earlier operation was about), every
record of an operation has a record of its name in the index, and for every name `n`
`ctest_impl_find_suite(n)` returns: a record of the index whose name is `n` if the index
holds a record named `n`, and `NULL` if it holds none, whatever other names share the
bucket of `n`. -/
theorem find_suite_correct (char_signed : Bool) (heads : Nat → Option slist_loc)
    (suites : Nat → ctest_impl_suite) (ops : List index_op) (fuel : Nat)
    (hfuel : ops.length < fuel) (hfresh : InsertsFresh [] ops) :
    ∃ m chains,
      apply_ops char_signed fuel
        { ctest_impl_suite_hashtable := ctest_impl_hash_init_helper heads HASH_SIZE
          suites := suites } ops = some m ∧
      m.Chains chains ∧
      (∀ c, (m.suites c).name = (suites c).name) ∧
      (∀ i, i < HASH_SIZE → ∀ c ∈ chains i, ∃ op ∈ ops, c = op.addr) ∧
      (∀ op ∈ ops, ∃ i r, i < HASH_SIZE ∧ r ∈ chains i ∧
        cstr (suites r).name = cstr (suites op.addr).name) ∧
      (∀ n : List Nat,
        ((∃ i r, i < HASH_SIZE ∧ r ∈ chains i ∧ cstr (m.suites r).name = cstr n) →
          ∃ r, ctest_impl_find_suite char_signed fuel m n = some (some r) ∧
            cstr (m.suites r).name = cstr n ∧
            r ∈ chains (ctest_impl_hash_suite char_signed n % HASH_SIZE)) ∧
        ((∀ i r, i < HASH_SIZE → r ∈ chains i → cstr (m.suites r).name ≠ cstr n) →
          ctest_impl_find_suite char_signed fuel m n = some none)) := by
  have h0 : SuiteMem.Linked char_signed
      { ctest_impl_suite_hashtable := ctest_impl_hash_init_helper heads HASH_SIZE
        suites := suites } (fun _ => []) := by
    refine ⟨?_, fun _ _ => List.nodup_nil, fun _ _ a ha => by simp at ha⟩
    intro i hi
    refine ⟨slist_loc.head i, ?_, rfl⟩
    dsimp only
    exact init_helper_apply heads i hi
  obtain ⟨m, chains, e, l, hn, _, hmem, hops, hlen⟩ :=
    apply_ops_linked char_signed fuel ops _ _ [] 0 h0 (fun _ _ c hc => by simp at hc)
      (fun _ _ => by simp) (by simpa using hfuel) hfresh
  refine ⟨m, chains, e, l.1, hn, ?_, hops, ?_⟩
  · intro i hi c hc
    rcases hmem i hi c hc with h | h
    · simp at h
    · exact h
  · intro n
    exact find_suite_linked char_signed m chains l fuel
      (fun i hi => by have := hlen i hi; simp at this; omega) n

theorem find_suite_correct_witness :
    ∃ m chains,
      apply_ops true 4
        { ctest_impl_suite_hashtable :=
            ctest_impl_hash_init_helper SuiteMem.zeroed.ctest_impl_suite_hashtable HASH_SIZE
          suites := example_suites }
        [index_op.insert 1, index_op.emplace 2, index_op.emplace 3] = some m ∧
      m.Chains chains ∧
      (∀ n : List Nat,
        ((∃ i r, i < HASH_SIZE ∧ r ∈ chains i ∧ cstr (m.suites r).name = cstr n) →
          ∃ r, ctest_impl_find_suite true 4 m n = some (some r) ∧
            cstr (m.suites r).name = cstr n ∧
            r ∈ chains (ctest_impl_hash_suite true n % HASH_SIZE)) ∧
        ((∀ i r, i < HASH_SIZE → r ∈ chains i → cstr (m.suites r).name ≠ cstr n) →
          ctest_impl_find_suite true 4 m n = some none)) :=
  (find_suite_correct true SuiteMem.zeroed.ctest_impl_suite_hashtable example_suites
    [index_op.insert 1, index_op.emplace 2, index_op.emplace 3] 4 (by decide)
    ⟨by decide, trivial⟩).imp
    (fun _ h => h.imp (fun _ h2 => ⟨h2.1, h2.2.1, h2.2.2.2.2.2⟩))

/-! ## The stages of one test -/

theorem after_setup_out {σ : Type} (code : Nat → Stage σ) (tm : TestMem) (sm : SuiteMem)
    (suite : Option Nat) (a : Nat) (s : DriverState σ) :
    (after_setup code tm sm suite a s).2.2 =
      s.out ++ [Event.test_header a s.statics.idx s.statics.total,
          Event.find_suite (tm.tests a).ssname] ++
        expected_hook_calls tm sm suite a fixture_member.setup := by
  have h := (invoke_hook_out code tm sm suite a
    { s.world with err := reset_errorbuffer s.world.err }
    (s.out ++ [Event.test_header a s.statics.idx s.statics.total] ++
      [Event.find_suite (tm.tests a).ssname])).1
  unfold after_setup protected_start
  rw [h]; simp

theorem protected_run_longjmp {σ : Type} (code : Nat → Stage σ) (tm : TestMem) (a : Nat)
    (s : Outcome × World σ × List Event) (h : s.1 = Outcome.longjmp) :
    protected_run code tm a s = s := by
  obtain ⟨o, w, out⟩ := s
  cases o with
  | returned => cases h
  | longjmp => rfl

theorem protected_teardown_longjmp {σ : Type} (code : Nat → Stage σ) (tm : TestMem)
    (sm : SuiteMem) (suite : Option Nat) (a : Nat) (s : Outcome × World σ × List Event)
    (h : s.1 = Outcome.longjmp) : protected_teardown code tm sm suite a s = s := by
  obtain ⟨o, w, out⟩ := s
  cases o with
  | returned => cases h
  | longjmp => rfl

theorem after_run_out {σ : Type} (code : Nat → Stage σ) (tm : TestMem) (sm : SuiteMem)
    (suite : Option Nat) (a : Nat) (s : DriverState σ)
    (h : (after_setup code tm sm suite a s).1 = Outcome.returned) :
    (after_run code tm sm suite a s).2.2 =
      s.out ++ [Event.test_header a s.statics.idx s.statics.total,
          Event.find_suite (tm.tests a).ssname] ++
        expected_hook_calls tm sm suite a fixture_member.setup ++
        [Event.call_run a (tm.tests a).run (tm.tests a).data] := by
  have hout := after_setup_out code tm sm suite a s
  unfold after_run
  generalize after_setup code tm sm suite a s = S at h hout
  obtain ⟨o, w, out⟩ := S
  simp only at h hout
  subst h
  rw [protected_run_out, hout]

theorem after_teardown_out {σ : Type} (code : Nat → Stage σ) (tm : TestMem) (sm : SuiteMem)
    (suite : Option Nat) (a : Nat) (s : DriverState σ)
    (h1 : (after_setup code tm sm suite a s).1 = Outcome.returned)
    (h2 : (after_run code tm sm suite a s).1 = Outcome.returned) :
    (after_teardown code tm sm suite a s).2.2 =
      s.out ++ [Event.test_header a s.statics.idx s.statics.total,
          Event.find_suite (tm.tests a).ssname] ++
        expected_hook_calls tm sm suite a fixture_member.setup ++
        [Event.call_run a (tm.tests a).run (tm.tests a).data] ++
        expected_hook_calls tm sm suite a fixture_member.teardown := by
  have hout := after_run_out code tm sm suite a s h1
  unfold after_teardown
  generalize after_run code tm sm suite a s = S at h2 hout
  obtain ⟨o, w, out⟩ := S
  simp only at h2 hout
  subst h2
  rw [(invoke_hook_out code tm sm suite a w out).2, hout]

/-- What the iteration for a selected, non-skipped test leaves, given the state `P` in
which the protected region ends, when nothing was stored past the scratch buffer. -/
theorem run_body_of_protected {σ : Type} (char_signed : Bool) (code : Nat → Stage σ)
    (fuel : Nat) (tm : TestMem) (sm : SuiteMem) (a : Nat) (s : DriverState σ) (r : Int)
    (suite : Option Nat)
    (hsel : s.statics.call_filter (tm.tests a) = some r) (hr : r ≠ 0)
    (hskip : (tm.tests a).skip = 0)
    (hfind : ctest_impl_find_suite char_signed fuel sm (tm.tests a).ssname = some suite)
    (hin : (after_teardown code tm sm suite a s).2.1.err.written_end ≤ MSG_SIZE) :
    run_body char_signed code fuel tm sm a s = some (Sum.inl
      { statics := s.statics.record
          (if (after_teardown code tm sm suite a s).1 = Outcome.returned then Verdict.passed
           else Verdict.failed)
        world := (after_teardown code tm sm suite a s).2.1
        out := (after_teardown code tm sm suite a s).2.2 ++
          [if (after_teardown code tm sm suite a s).1 = Outcome.returned then Event.ok
           else Event.fail] ++
          errorbuffer_print (after_teardown code tm sm suite a s).2.1
        ctest_err := some a }) := by
  have hP : protected_teardown code tm sm suite a (protected_run code tm a
      (protected_setup code tm sm suite a (protected_start tm a s))) =
      after_teardown code tm sm suite a s := rfl
  generalize after_teardown code tm sm suite a s = P at hP hin
  obtain ⟨o, w, out⟩ := P
  cases o with
  | returned =>
    rw [run_body_returned char_signed code fuel tm sm a s r suite w out hsel hr hskip hfind hP
      hin]
    rfl
  | longjmp =>
    rw [run_body_longjmp char_signed code fuel tm sm a s r suite w out hsel hr hskip hfind hP
      hin]
    rfl

/-- C20: for a selected, non-skipped test whose messages stay inside the scratch buffer,
the lookup of its suite in a linked suite index returns, and the protected region stops
at the first of setup, test function, teardown that leaves by the `longjmp` of
`CTEST_ERR`: the later stages are not called and the test is recorded Failed.  A failure
in setup leaves no call of the test function and of teardown; a failure in the test
function leaves no call of teardown; a failure in teardown, after the test function
returned, still records Failed and not Passed.  The loop goes on with the next test. -/
theorem first_failing_stage_ends_test {σ : Type} (char_signed : Bool)
    (code : Nat → Stage σ) (fuel : Nat) (tm : TestMem) (sm : SuiteMem)
    (chains : Nat → List Nat) (a : Nat)
    (s : DriverState σ) (r : Int) (suite : Option Nat)
    (hch : sm.Chains chains) (hfuel : ∀ i, i < HASH_SIZE → (chains i).length < fuel)
    (hsuite : suite = chain_lookup char_signed sm chains (tm.tests a).ssname)
    (hsel : s.statics.call_filter (tm.tests a) = some r) (hr : r ≠ 0)
    (hskip : (tm.tests a).skip = 0) (hb : int_can_incr s.statics.num_fail)
    (hfit : RegionInBounds code tm sm suite a s) :
    ctest_impl_find_suite char_signed fuel sm (tm.tests a).ssname = some suite ∧
    ∃ s2, run_body char_signed code fuel tm sm a s = some (Sum.inl s2) ∧
      s2.ctest_err = some a ∧
      ((after_setup code tm sm suite a s).1 = Outcome.longjmp →
        RecordedFailed s s2 ∧ s2.world = (after_setup code tm sm suite a s).2.1 ∧
        s2.out = s.out ++ [Event.test_header a s.statics.idx s.statics.total,
            Event.find_suite (tm.tests a).ssname] ++
          expected_hook_calls tm sm suite a fixture_member.setup ++
          [Event.fail] ++ errorbuffer_print s2.world) ∧
      ((after_setup code tm sm suite a s).1 = Outcome.returned →
        (after_run code tm sm suite a s).1 = Outcome.longjmp →
        RecordedFailed s s2 ∧ s2.world = (after_run code tm sm suite a s).2.1 ∧
        s2.out = s.out ++ [Event.test_header a s.statics.idx s.statics.total,
            Event.find_suite (tm.tests a).ssname] ++
          expected_hook_calls tm sm suite a fixture_member.setup ++
          [Event.call_run a (tm.tests a).run (tm.tests a).data] ++
          [Event.fail] ++ errorbuffer_print s2.world) ∧
      ((after_setup code tm sm suite a s).1 = Outcome.returned →
        (after_run code tm sm suite a s).1 = Outcome.returned →
        (after_teardown code tm sm suite a s).1 = Outcome.longjmp →
        RecordedFailed s s2 ∧ s2.world = (after_teardown code tm sm suite a s).2.1 ∧
        s2.out = s.out ++ [Event.test_header a s.statics.idx s.statics.total,
            Event.find_suite (tm.tests a).ssname] ++
          expected_hook_calls tm sm suite a fixture_member.setup ++
          [Event.call_run a (tm.tests a).run (tm.tests a).data] ++
          expected_hook_calls tm sm suite a fixture_member.teardown ++
          [Event.fail] ++ errorbuffer_print s2.world) ∧
      (∀ n, ctest_impl_list_for_each_entry (fun p => some (tm.next p)) list_loc.to_entry
          list_loc.head (run_body char_signed code fuel tm sm) (n + 1) (list_loc.entry a) s =
        ctest_impl_list_for_each_entry (fun p => some (tm.next p)) list_loc.to_entry
          list_loc.head (run_body char_signed code fuel tm sm) n (tm.next (list_loc.entry a))
          s2) := by
  have hfind : ctest_impl_find_suite char_signed fuel sm (tm.tests a).ssname = some suite := by
    rw [hsuite]
    exact find_suite_chain_lookup char_signed sm chains hch fuel hfuel (tm.tests a).ssname
  have hrun := run_body_of_protected char_signed code fuel tm sm a s r suite hsel hr hskip hfind
    hfit
  have hfailed : ∀ s2 : DriverState σ, s2.statics = s.statics.record Verdict.failed →
      RecordedFailed s s2 := by
    intro s2 h2
    rw [RecordedFailed, h2]
    exact ⟨int_wrap_incr _ hb, rfl, rfl⟩
  refine ⟨hfind, _, hrun, rfl, ?_, ?_, ?_, fun n => for_each_entry_step tm _ a s _ hrun n⟩
  · intro h1
    have e2 : after_run code tm sm suite a s = after_setup code tm sm suite a s :=
      protected_run_longjmp code tm a _ h1
    have e3 : after_teardown code tm sm suite a s = after_setup code tm sm suite a s := by
      unfold after_teardown
      rw [e2]; exact protected_teardown_longjmp code tm sm suite a _ h1
    simp only [e3, h1]
    refine ⟨hfailed _ (by simp), trivial, ?_⟩
    rw [after_setup_out]; simp
  · intro h1 h2
    have e3 : after_teardown code tm sm suite a s = after_run code tm sm suite a s :=
      protected_teardown_longjmp code tm sm suite a _ h2
    simp only [e3, h2]
    refine ⟨hfailed _ (by simp), trivial, ?_⟩
    rw [after_run_out code tm sm suite a s h1]; simp
  · intro h1 h2 h3
    simp only [h3]
    refine ⟨hfailed _ (by simp), trivial, ?_⟩
    rw [after_teardown_out code tm sm suite a s h1 h2]; simp

theorem first_failing_stage_ends_test_witness :
    (∃ s2, run_body true example_code_setup_fails 3 example_tm example_sm 1 example_start =
        some (Sum.inl s2) ∧ RecordedFailed example_start s2 ∧
      s2.out = [Event.test_header 1 1 0, Event.find_suite example_Math,
        Event.call_setup 1 20 (some 50), Event.fail] ++ errorbuffer_print s2.world) ∧
    (∃ s2, run_body true example_code_teardown_fails 3 example_tm example_sm 1 example_start =
        some (Sum.inl s2) ∧ RecordedFailed example_start s2 ∧
      s2.out = [Event.test_header 1 1 0, Event.find_suite example_Math,
        Event.call_setup 1 20 (some 50), Event.call_run 1 11 (some 50),
        Event.call_teardown 1 21 (some 50), Event.fail] ++ errorbuffer_print s2.world) :=
  ⟨(first_failing_stage_ends_test true example_code_setup_fails 3 example_tm example_sm
      (Function.update (fun _ => []) 125 [100]) 1
      example_start 1 (some 100) example_sm_chains (fun i _ => example_sm_fuel i) (by decide)
      (by rfl) (by decide) (by decide)
      (by norm_num [int_can_incr, example_start, Statics.initial]) (by decide)).2.imp
      (fun _ h => ⟨h.1, (h.2.2.1 (by decide)).1, (h.2.2.1 (by decide)).2.2⟩),
    (first_failing_stage_ends_test true example_code_teardown_fails 3 example_tm example_sm
      (Function.update (fun _ => []) 125 [100]) 1
      example_start 1 (some 100) example_sm_chains (fun i _ => example_sm_fuel i) (by decide)
      (by rfl) (by decide) (by decide)
      (by norm_num [int_can_incr, example_start, Statics.initial]) (by decide)).2.imp
      (fun _ h => ⟨h.1, (h.2.2.2.2.1 (by decide) (by decide) (by decide)).1,
        (h.2.2.2.2.1 (by decide) (by decide) (by decide)).2.2⟩)⟩

theorem guarded_hook_none (sm : SuiteMem) (member : fixture_member) (t : ctest) :
    guarded_hook sm none member t = none := by
  unfold guarded_hook
  cases t.data <;> rfl

theorem invoke_none {σ : Type} (code : Nat → Stage σ) (ev : Nat → Event) (arg : Option Nat)
    (s : Outcome × World σ × List Event) : invoke code ev none arg s = s := by
  obtain ⟨o, w, out⟩ := s
  cases o <;> rfl

/-- C16: for a selected, non-skipped test whose suite name no record of the suite index
has, and whose test function keeps its messages inside the scratch buffer, the lookup
returns `NULL` and the iteration completes: the only call is one call of the test
function (no setup, no teardown), and the test is recorded Passed when that call returns
and Failed when it leaves by the `longjmp` of `CTEST_ERR`.  The loop goes on with the next
test. -/
theorem suite_not_found_is_no_error {σ : Type} (char_signed : Bool)
    (code : Nat → Stage σ) (fuel : Nat) (tm : TestMem) (sm : SuiteMem)
    (chains : Nat → List Nat) (a : Nat) (s : DriverState σ) (r : Int)
    (hch : sm.Chains chains) (hfuel : ∀ i, i < HASH_SIZE → (chains i).length < fuel)
    (hsel : s.statics.call_filter (tm.tests a) = some r) (hr : r ≠ 0)
    (hskip : (tm.tests a).skip = 0)
    (hbok : int_can_incr s.statics.num_ok) (hbfail : int_can_incr s.statics.num_fail)
    (hnone : ∀ i rcd, i < HASH_SIZE → rcd ∈ chains i →
      cstr (sm.suites rcd).name ≠ cstr (tm.tests a).ssname)
    (hfit : (code (tm.tests a).run (tm.tests a).data
      { s.world with err := reset_errorbuffer s.world.err }).2.err.written_end ≤ MSG_SIZE) :
    ctest_impl_find_suite char_signed fuel sm (tm.tests a).ssname = some none ∧
    ∃ s2, run_body char_signed code fuel tm sm a s = some (Sum.inl s2) ∧
      s2.world = (code (tm.tests a).run (tm.tests a).data
        { s.world with err := reset_errorbuffer s.world.err }).2 ∧
      s2.out = s.out ++ [Event.test_header a s.statics.idx s.statics.total,
          Event.find_suite (tm.tests a).ssname,
          Event.call_run a (tm.tests a).run (tm.tests a).data,
          if (code (tm.tests a).run (tm.tests a).data
            { s.world with err := reset_errorbuffer s.world.err }).1 = Outcome.returned
          then Event.ok else Event.fail] ++ errorbuffer_print s2.world ∧
      ((code (tm.tests a).run (tm.tests a).data
          { s.world with err := reset_errorbuffer s.world.err }).1 = Outcome.returned →
        RecordedPassed s s2) ∧
      ((code (tm.tests a).run (tm.tests a).data
          { s.world with err := reset_errorbuffer s.world.err }).1 = Outcome.longjmp →
        RecordedFailed s s2) ∧
      (∀ n, ctest_impl_list_for_each_entry (fun p => some (tm.next p)) list_loc.to_entry
          list_loc.head (run_body char_signed code fuel tm sm) (n + 1) (list_loc.entry a) s =
        ctest_impl_list_for_each_entry (fun p => some (tm.next p)) list_loc.to_entry
          list_loc.head (run_body char_signed code fuel tm sm) n (tm.next (list_loc.entry a))
          s2) := by
  have hk : ctest_impl_hash_suite char_signed (tm.tests a).ssname % HASH_SIZE < HASH_SIZE :=
    Nat.mod_lt _ (by decide)
  have hfind : ctest_impl_find_suite char_signed fuel sm (tm.tests a).ssname = some none := by
    rw [find_suite_eq char_signed sm chains hch _ fuel (hfuel _ hk)]
    congr 1
    apply List.find?_eq_none.2
    intro c hc
    have := hnone _ c hk hc
    simp [strcmp_eq_zero_iff, this]
  have e1 : after_setup code tm sm none a s = protected_start tm a s := by
    unfold after_setup protected_setup
    rw [guarded_hook_none, invoke_none]
  have e2 : after_run code tm sm none a s =
      ((code (tm.tests a).run (tm.tests a).data
          { s.world with err := reset_errorbuffer s.world.err }).1,
        (code (tm.tests a).run (tm.tests a).data
          { s.world with err := reset_errorbuffer s.world.err }).2,
        s.out ++ [Event.test_header a s.statics.idx s.statics.total] ++
          [Event.find_suite (tm.tests a).ssname] ++
          [Event.call_run a (tm.tests a).run (tm.tests a).data]) := by
    unfold after_run
    rw [e1]; rfl
  have e3 : after_teardown code tm sm none a s = after_run code tm sm none a s := by
    unfold after_teardown protected_teardown
    rw [guarded_hook_none, invoke_none]
  have hrun := run_body_of_protected char_signed code fuel tm sm a s r none hsel hr hskip hfind
    (by rw [e3, e2]; exact hfit)
  rw [e3, e2] at hrun
  refine ⟨hfind, _, hrun, rfl, ?_, ?_, ?_, fun n => for_each_entry_step tm _ a s _ hrun n⟩
  · simp
  · intro h
    simp only [h, if_true]
    exact ⟨int_wrap_incr _ hbok, rfl, rfl⟩
  · intro h
    simp only [h]
    exact ⟨int_wrap_incr _ hbfail, rfl, rfl⟩

theorem suite_not_found_is_no_error_witness :
    ctest_impl_find_suite true 3 (ctest_impl_hash_init_once SuiteMem.zeroed)
        (example_tm.tests 2).ssname = some none ∧
    ∃ s2, run_body true example_code 3 example_tm (ctest_impl_hash_init_once SuiteMem.zeroed) 2
        example_start = some (Sum.inl s2) ∧
      s2.out = [Event.test_header 2 1 0, Event.find_suite example_Math,
        Event.call_run 2 12 none, Event.fail] ++ errorbuffer_print s2.world ∧
      RecordedFailed example_start s2 :=
  ⟨(suite_not_found_is_no_error true example_code 3 example_tm
      (ctest_impl_hash_init_once SuiteMem.zeroed) (fun _ => []) 2 example_start 1
      example_empty_index_chains (fun _ _ => by simp) (by rfl) (by decide) (by decide)
      (by norm_num [int_can_incr, example_start, Statics.initial])
      (by norm_num [int_can_incr, example_start, Statics.initial])
      (fun _ _ _ h => by simp at h) (by decide)).1,
    (suite_not_found_is_no_error true example_code 3 example_tm
      (ctest_impl_hash_init_once SuiteMem.zeroed) (fun _ => []) 2 example_start 1
      example_empty_index_chains (fun _ _ => by simp) (by rfl) (by decide) (by decide)
      (by norm_num [int_can_incr, example_start, Statics.initial])
      (by norm_num [int_can_incr, example_start, Statics.initial])
      (fun _ _ _ h => by simp at h) (by decide)).2.imp
      (fun _ h => ⟨h.1, h.2.2.1, h.2.2.2.2.1 (by decide)⟩)⟩

/-! ## The progress index -/

theorem ctest_main_of_folds {σ : Type} (char_signed : Bool) (code : Nat → Stage σ)
    (isatty : Int) (fuel : Nat) (tm : TestMem) (sm : SuiteMem) (argv : List (List Nat))
    (s : DriverState σ) (l : List Nat) (st1 : Statics) (s2 : DriverState σ)
    (hl : tm.Holds l) (hfl : l.length < fuel)
    (hcount : fold_entries (count_body tm) l (select_filter argv s.statics) =
      some (Sum.inl st1))
    (hrun : fold_entries (run_body char_signed code fuel tm sm) l
      { statics := st1, world := { s.world with color_output := isatty }, out := s.out,
        ctest_err := s.ctest_err } =
      some (Sum.inl s2)) :
    ctest_main char_signed code isatty fuel tm sm argv s =
      some (s2.statics.num_fail,
        { s2 with out := s2.out ++ [Event.results s2.statics.total s2.statics.num_ok
            s2.statics.num_fail s2.statics.num_skip] }) := by
  unfold ctest_main
  simp only
  rw [for_each_entry_eq_fold _ _ _ _ l fuel _ _ hl.1 hfl, hcount]
  simp only
  rw [for_each_entry_eq_fold _ _ _ _ l fuel _ _ hl.1 hfl, hrun]

theorem header_none_of_header_test (e : Event) (h : e.header_test = none) :
    e.header = none := by
  cases e <;> first | rfl | cases h

/-- The progress lines of the second loop: one for each selected test, in order; the
index starts at the value of `idx` and goes up by one from one selected test to the next;
`total` is shown unchanged. -/
theorem run_loop_indices {σ : Type} (char_signed : Bool) (code : Nat → Stage σ) (fuel : Nat)
    (tm : TestMem) (sm : SuiteMem) (chains : Nat → List Nat) (hch : sm.Chains chains)
    (hfuel : ∀ i, i < HASH_SIZE → (chains i).length < fuel) (l : List Nat)
    (hfit : RunInBounds char_signed code tm sm chains l) :
    ∀ s : DriverState σ, s.statics.Consistent → s.world.err.written_end ≤ MSG_SIZE →
      -2 ^ 31 ≤ s.statics.idx →
      s.statics.idx + l.length ≤ 2 ^ 31 - 1 →
      ∃ (s2 : DriverState σ) (evs : List Event),
        fold_entries (run_body char_signed code fuel tm sm) l s = some (Sum.inl s2) ∧
        s2.out = s.out ++ evs ∧
        evs.filterMap Event.header =
          header_lines s.statics.idx s.statics.total
            (l.filter (fun a => s.statics.selects (tm.tests a))) ∧
        s2.statics.idx =
          s.statics.idx + ((l.filter (fun a => s.statics.selects (tm.tests a))).length : Int) ∧
        s2.statics.total = s.statics.total := by
  induction l with
  | nil => intro s _ _ _ _; exact ⟨s, [], rfl, by simp, rfl, by simp, rfl⟩
  | cons a l ih =>
    intro s hok hw hlo hhi
    simp only [List.length_cons, Nat.cast_add, Nat.cast_one] at hhi
    have len0 : (0:Int) ≤ l.length := Int.ofNat_nonneg _
    have hfit2 : RunInBounds char_signed code tm sm chains l :=
      fun b hb => hfit b (List.mem_cons_of_mem _ hb)
    obtain ⟨s1, hrun, hw1, hcase⟩ := run_body_step char_signed code fuel tm sm chains hch hfuel
      a s hok hw (fun hskip => hfit a (List.mem_cons_self _ _) hskip s hw)
    rcases hcase with ⟨hns, hs1⟩ | ⟨hsel, v, evs1, hst, hout, hhead, _⟩
    · subst hs1
      obtain ⟨s2, evs, h1, h2, h3, h4, h5⟩ := ih hfit2 s1 hok hw1 hlo (by omega)
      refine ⟨s2, evs, ?_, h2, ?_, ?_, h5⟩
      · simp only [fold_entries, hrun]; exact h1
      · simp only [List.filter_cons, hns]; exact h3
      · simp only [List.filter_cons, hns]; exact h4
    · obtain ⟨f1, f2, f3⟩ := record_frame s.statics v
      have hidx : s1.statics.idx = s.statics.idx + 1 := by
        rw [hst]
        have hw : int_wrap (s.statics.idx + 1) = s.statics.idx + 1 :=
          int_wrap_incr _ ⟨hlo, by omega⟩
        cases v <;> exact hw
      have hok1 : s1.statics.Consistent := by
        intro hf; rw [hst, f2]; exact hok (by rw [← f1, ← hst]; exact hf)
      have hsame : ∀ t, s1.statics.selects t = s.statics.selects t := fun t =>
        selects_congr s.statics s1.statics (by rw [hst, f1]) (by rw [hst, f2]) t
      have htot : s1.statics.total = s.statics.total := by rw [hst, f3]
      obtain ⟨s2, evs, h1, h2, h3, h4, h5⟩ := ih hfit2 s1 hok1 hw1 (by rw [hidx]; omega)
        (by rw [hidx]; omega)
      simp only [hsame, hidx, htot] at h3 h4 h5
      refine ⟨s2, Event.test_header a s.statics.idx s.statics.total :: evs1 ++ evs,
        ?_, ?_, ?_, ?_, h5⟩
      · simp only [fold_entries, hrun]; exact h1
      · rw [h2, hout]; simp
      · have hnil : evs1.filterMap Event.header = [] :=
          List.filterMap_eq_nil_iff.2 (fun e he => header_none_of_header_test e (hhead e he))
        simp only [List.filter_cons, hsel, if_true, List.cons_append,
          List.filterMap_cons, Event.header, List.filterMap_append, hnil, List.nil_append,
          h3, header_lines]
      · rw [h4]
        simp only [List.filter_cons, hsel, if_true, List.length_cons, Nat.cast_add, Nat.cast_one]
        omega

theorem header_lines_at (ts : List Nat) :
    ∀ (idx total : Int) (k : Nat), k < ts.length →
      (header_lines idx total ts)[k]? = (ts[k]?).map (fun t => (t, idx + (k : Int), total)) := by
  induction ts with
  | nil => intro _ _ k hk; simp at hk
  | cons t ts ih =>
    intro idx total k hk
    cases k with
    | zero => simp [header_lines]
    | succ j =>
      have hj : j < ts.length := by simpa using hk
      simp only [header_lines, List.getElem?_cons_succ, ih (idx + 1) total j hj]
      cases ts[j]? with
      | none => rfl
      | some t2 =>
        simp only [Option.map_some', Nat.cast_add, Nat.cast_one]
        congr 3
        omega

/-- C19: in a run started from the initial static state, on a registry `l` of fewer than
`2^31 - 1` tests whose messages stay inside the scratch buffer, `total` is the number of
tests of `l` the filter selects, and the progress lines are, in order, one per selected
test, the `k`-th of them (skipped tests counted) showing the index `k` and that total: the
indices are `1, 2, ..., total`. -/
theorem progress_index_counts_selected {σ : Type} (char_signed : Bool)
    (code : Nat → Stage σ) (isatty : Int) (fuel : Nat) (tm : TestMem) (sm : SuiteMem)
    (argv : List (List Nat)) (s : DriverState σ) (l : List Nat) (chains : Nat → List Nat)
    (hl : tm.Holds l) (hch : sm.Chains chains) (hfl : l.length < fuel)
    (hfuel : ∀ i, i < HASH_SIZE → (chains i).length < fuel)
    (hsize : l.length < 2 ^ 31 - 1) (hfirst : s.statics = Statics.initial)
    (hstart : s.world.err.written_end ≤ MSG_SIZE)
    (hfit : RunInBounds char_signed code tm sm chains l) :
    ∃ ret s2 evs, ctest_main char_signed code isatty fuel tm sm argv s = some (ret, s2) ∧
      s2.out = s.out ++ evs ∧
      s2.statics.total =
        ((l.filter (fun a => (select_filter argv s.statics).selects (tm.tests a))).length :
          Int) ∧
      evs.filterMap Event.header =
        header_lines 1 s2.statics.total
          (l.filter (fun a => (select_filter argv s.statics).selects (tm.tests a))) ∧
      (∀ k, k < (l.filter (fun a => (select_filter argv s.statics).selects
          (tm.tests a))).length →
        (evs.filterMap Event.header)[k]? =
          ((l.filter (fun a => (select_filter argv s.statics).selects (tm.tests a)))[k]?).map
            (fun t => (t, (k : Int) + 1, s2.statics.total)) ∧
        (k : Int) + 1 ≤ s2.statics.total) := by
  have hok : s.statics.Consistent := by
    rw [hfirst]; intro h; cases h
  have hok0 := select_filter_consistent argv s.statics hok
  obtain ⟨c1, c2, c3, c4, c5⟩ := select_filter_counters argv s.statics
  obtain ⟨st1, hcount, f1, f2, _, _, _, f6, ht⟩ :=
    count_loop tm l (select_filter argv s.statics) hok0
  have hsz : (l.length : Int) < 2 ^ 31 - 1 := by omega
  have hidx1 : st1.idx = 1 := by rw [f6, c5, hfirst]; rfl
  have htot0 : (select_filter argv s.statics).total = 0 := by rw [c1, hfirst]; rfl
  have htot := ht (by rw [htot0]; norm_num) (by rw [htot0]; omega)
  rw [htot0, zero_add] at htot
  have hok1 : st1.Consistent := by
    intro hf; rw [f2]; exact hok0 (by rw [← f1]; exact hf)
  have hsame : ∀ t, st1.selects t = (select_filter argv s.statics).selects t := fun t =>
    selects_congr _ st1 f1 f2 t
  obtain ⟨s2, evs, hrun, hout, hhead, _, htot2⟩ :=
    run_loop_indices char_signed code fuel tm sm chains hch hfuel l hfit
      { statics := st1, world := { s.world with color_output := isatty }, out := s.out,
        ctest_err := s.ctest_err } hok1 hstart
      (by show -2 ^ 31 ≤ st1.idx; rw [hidx1]; norm_num)
      (by show st1.idx + (l.length : Int) ≤ 2 ^ 31 - 1; rw [hidx1]; omega)
  simp only [hsame, hidx1] at hhead
  have hrun2 := ctest_main_of_folds char_signed code isatty fuel tm sm argv s l st1 s2 hl hfl
    hcount hrun
  have htotal : s2.statics.total = ((l.filter (fun a =>
      (select_filter argv s.statics).selects (tm.tests a))).length : Int) := by
    rw [htot2]; exact htot
  have hheadF : (evs ++ [Event.results s2.statics.total s2.statics.num_ok
      s2.statics.num_fail s2.statics.num_skip]).filterMap Event.header =
      header_lines 1 s2.statics.total
        (l.filter (fun a => (select_filter argv s.statics).selects (tm.tests a))) := by
    rw [List.filterMap_append, hhead, htot2]
    simp [Event.header]
  refine ⟨_, _, evs ++ [Event.results s2.statics.total s2.statics.num_ok
      s2.statics.num_fail s2.statics.num_skip], hrun2, ?_, htotal, hheadF, ?_⟩
  · show s2.out ++ _ = _
    rw [hout, List.append_assoc]
  · intro k hk
    refine ⟨?_, ?_⟩
    · rw [hheadF, header_lines_at _ 1 _ k hk]
      congr 1
      funext t
      rw [add_comm]
    · rw [htotal]
      have : (k : Int) < ((l.filter (fun a =>
          (select_filter argv s.statics).selects (tm.tests a))).length : Int) := by
        exact_mod_cast hk
      omega

theorem progress_index_counts_selected_witness :
    ∃ ret s2 evs, ctest_main true example_code 1 4 example_tm
        (ctest_impl_hash_init_once SuiteMem.zeroed) [[99], example_Math] example_start =
        some (ret, s2) ∧
      s2.out = example_start.out ++ evs ∧
      s2.statics.total = 2 ∧
      evs.filterMap Event.header = header_lines 1 s2.statics.total [1, 2] :=
  (progress_index_counts_selected true example_code 1 4 example_tm
    (ctest_impl_hash_init_once SuiteMem.zeroed) [[99], example_Math] example_start [1, 2, 3]
    (fun _ => []) example_tm_holds example_empty_index_chains (by decide) (fun _ _ => by simp)
    (by norm_num) rfl (by decide) (example_code_in_bounds _ _ _ _)).imp
    (fun _ h => h.imp (fun _ h2 => h2.imp (fun _ h3 => ⟨h3.1, h3.2.1, h3.2.2.1, h3.2.2.2.1⟩)))

/-! ## The string assertions -/

theorem wcscmp_eq_zero_iff (x y : List Nat) : wcscmp x y = 0 ↔ cstr x = cstr y := by
  induction x generalizing y with
  | nil =>
    cases y with
    | nil => simp [wcscmp]
    | cons b bs =>
      by_cases hb : b = 0
      · subst hb; simp [wcscmp, cstr_cons_zero, cstr_nil]
      · simp [wcscmp, cstr_cons_ne hb, cstr_nil, hb]
  | cons a as ih =>
    cases y with
    | nil =>
      by_cases ha : a = 0
      · subst ha; simp [wcscmp, cstr_cons_zero, cstr_nil]
      · simp [wcscmp, cstr_cons_ne ha, cstr_nil, ha]
    | cons b bs =>
      by_cases hab : a = b
      · subst hab
        by_cases ha : a = 0
        · subst ha; simp [wcscmp, cstr_cons_zero]
        · simp [wcscmp, ha, cstr_cons_ne ha, ih bs]
      · have hsub : (if a < b then (-1 : Int) else 1) ≠ 0 := by split <;> decide
        by_cases ha : a = 0
        · subst ha
          have hb : b ≠ 0 := fun h => hab h.symm
          simp [wcscmp, hb, hab, hsub, cstr_cons_zero, cstr_cons_ne hb]
        · by_cases hb : b = 0
          · subst hb
            simp [wcscmp, hab, hsub, cstr_cons_zero, cstr_cons_ne ha]
          · simp [wcscmp, hab, hsub, cstr_cons_ne ha, cstr_cons_ne hb]

/-- The condition of `assert_str` and `assert_wstr`, for a comparison function that is
zero exactly on equal strings. -/
theorem null_rule_iff (cmp : List Nat → List Nat → Int)
    (hcmp : ∀ x y, cmp x y = 0 ↔ cstr x = cstr y) (exp real : Option (List Nat)) :
    ((exp.isNone && real.isSome) || (exp.isSome && real.isNone) ||
      (match exp, real with
        | some e, some r => decide (cmp e r ≠ 0)
        | _, _ => false)) = true ↔ StringsDiffer exp real := by
  cases exp with
  | none =>
    cases real with
    | none => simp [StringsDiffer]
    | some r => simp [StringsDiffer]
  | some e =>
    cases real with
    | none => simp [StringsDiffer]
    | some r => simp [StringsDiffer, hcmp]

/-- C17: `assert_str(exp, real, ...)` leaves by the `longjmp` of `CTEST_ERR` exactly when
one of `exp`, `real` is `NULL` and the other is not, or both are strings with different
contents; otherwise it returns and changes nothing.  Two `NULL` arguments do not fail.
The same holds of `assert_wstr`. -/
theorem assert_str_fails_iff_strings_differ {σ : Type} (wcrtomb : Nat → Option (List Nat))
    (exp real : Option (List Nat)) (caller : List Nat) (line : Int) (w : World σ) :
    ((assert_str exp real caller line w).1 = Outcome.longjmp ↔ StringsDiffer exp real) ∧
    (assert_str exp real caller line w =
      call_CTEST_ERR (some (assert_str_text exp real caller line)) w ∨
      assert_str exp real caller line w = (Outcome.returned, w)) ∧
    assert_str none none caller line w = (Outcome.returned, w) ∧
    ((assert_wstr wcrtomb exp real caller line w).1 = Outcome.longjmp ↔
      StringsDiffer exp real) ∧
    (assert_wstr wcrtomb exp real caller line w =
      call_CTEST_ERR (assert_wstr_text wcrtomb exp real caller line) w ∨
      assert_wstr wcrtomb exp real caller line w = (Outcome.returned, w)) ∧
    assert_wstr wcrtomb none none caller line w = (Outcome.returned, w) := by
  have hs := null_rule_iff strcmp strcmp_eq_zero_iff exp real
  have hw := null_rule_iff wcscmp wcscmp_eq_zero_iff exp real
  refine ⟨?_, ?_, rfl, ?_, ?_, rfl⟩
  · unfold assert_str
    by_cases h : StringsDiffer exp real
    · rw [if_pos (hs.2 h)]; exact ⟨fun _ => h, fun _ => rfl⟩
    · rw [if_neg (fun hc => h (hs.1 hc))]
      exact Iff.intro (fun hc => by cases hc) (fun hc => absurd hc h)
  · unfold assert_str
    split
    · exact Or.inl rfl
    · exact Or.inr rfl
  · unfold assert_wstr
    by_cases h : StringsDiffer exp real
    · rw [if_pos (hw.2 h)]; exact ⟨fun _ => h, fun _ => rfl⟩
    · rw [if_neg (fun hc => h (hw.1 hc))]
      exact Iff.intro (fun hc => by cases hc) (fun hc => absurd hc h)
  · unfold assert_wstr
    split
    · exact Or.inl rfl
    · exact Or.inr rfl

/-! ## The buffer assertion -/

theorem assert_data_loop_equal {σ : Type} (exp real : Nat → Nat) (caller : List Nat) (line : Int)
    (w : World σ) (n : Nat) :
    ∀ i, (∀ j, i ≤ j → j < i + n → exp j = real j) →
      assert_data_loop exp real caller line n i w = (Outcome.returned, w) := by
  induction n with
  | zero => intro i _; rfl
  | succ n ih =>
    intro i h
    have hi : exp i = real i := h i (Nat.le_refl i) (by omega)
    simp only [assert_data_loop, hi, ne_eq, not_true_eq_false, if_false]
    exact ih (i + 1) (fun j h1 h2 => h j (by omega) (by omega))

theorem assert_data_loop_first {σ : Type} (exp real : Nat → Nat) (caller : List Nat) (line : Int)
    (w : World σ) (k : Nat) (hk : exp k ≠ real k) (n : Nat) :
    ∀ i, i ≤ k → k < i + n → (∀ j, i ≤ j → j < k → exp j = real j) →
      assert_data_loop exp real caller line n i w =
        call_CTEST_ERR (some (assert_data_byte_text (exp k) k (real k) caller line)) w := by
  induction n with
  | zero => intro i h1 h2 _; omega
  | succ n ih =>
    intro i h1 h2 h
    by_cases hik : i = k
    · subst hik
      simp only [assert_data_loop, hk, ne_eq, not_false_eq_true, if_true]
    · have hi : exp i = real i := h i (Nat.le_refl i) (by omega)
      simp only [assert_data_loop, hi, ne_eq, not_true_eq_false, if_false]
      exact ih (i + 1) (by omega) (by omega) (fun j h3 h4 => h j (by omega) h4)

/-- C18: `assert_data(exp, expsize, real, realsize, ...)` leaves by the `longjmp` of
`CTEST_ERR` exactly when the sizes differ or some byte below `expsize` differs.  When the
sizes differ the message written is the one about the sizes, whatever the bytes are;
when the sizes are equal and the buffers first differ at index `i`, the message written
names the offset `i` and the two bytes there; when the sizes are equal and no byte
differs it returns and changes nothing. -/
theorem assert_data_fails_iff_buffers_differ {σ : Type} (exp : Nat → Nat) (expsize : Nat)
    (real : Nat → Nat) (realsize : Nat) (caller : List Nat) (line : Int) (w : World σ) :
    ((assert_data exp expsize real realsize caller line w).1 = Outcome.longjmp ↔
      (expsize ≠ realsize ∨ ∃ i, i < expsize ∧ exp i ≠ real i)) ∧
    (expsize ≠ realsize →
      assert_data exp expsize real realsize caller line w =
        call_CTEST_ERR (some (assert_data_size_text expsize realsize caller line)) w) ∧
    (∀ i, expsize = realsize → i < expsize → exp i ≠ real i →
      (∀ j, j < i → exp j = real j) →
      assert_data exp expsize real realsize caller line w =
        call_CTEST_ERR (some (assert_data_byte_text (exp i) i (real i) caller line)) w) ∧
    (expsize = realsize → (∀ i, i < expsize → exp i = real i) →
      assert_data exp expsize real realsize caller line w = (Outcome.returned, w)) := by
  have hsize : expsize ≠ realsize →
      assert_data exp expsize real realsize caller line w =
        call_CTEST_ERR (some (assert_data_size_text expsize realsize caller line)) w := by
    intro h; simp only [assert_data, h, ne_eq, not_false_eq_true, if_true]
  have hbyte : ∀ i, expsize = realsize → i < expsize → exp i ≠ real i →
      (∀ j, j < i → exp j = real j) →
      assert_data exp expsize real realsize caller line w =
        call_CTEST_ERR (some (assert_data_byte_text (exp i) i (real i) caller line)) w := by
    intro i h hi hne hlt
    simp only [assert_data, h, ne_eq, not_true_eq_false, if_false]
    exact assert_data_loop_first exp real caller line w i hne realsize 0 (Nat.zero_le i)
      (by omega) (fun j _ hj => hlt j hj)
  have hsame : expsize = realsize → (∀ i, i < expsize → exp i = real i) →
      assert_data exp expsize real realsize caller line w = (Outcome.returned, w) := by
    intro h hall
    simp only [assert_data, h, ne_eq, not_true_eq_false, if_false]
    exact assert_data_loop_equal exp real caller line w realsize 0
      (fun j _ hj => hall j (by omega))
  refine ⟨⟨?_, ?_⟩, hsize, hbyte, hsame⟩
  · intro hj
    by_contra hc
    push_neg at hc
    rw [hsame hc.1 hc.2] at hj
    cases hj
  · rintro (h | ⟨i, hi, hne⟩)
    · rw [hsize h]; rfl
    · by_cases h : expsize = realsize
      · have hex : ∃ k, k < expsize ∧ exp k ≠ real k := ⟨i, hi, hne⟩
        have hk := Nat.find_spec hex
        rw [hbyte (Nat.find hex) h hk.1 hk.2 (fun j hj => by
          by_contra hcon
          exact Nat.find_min hex hj ⟨by omega, hcon⟩)]
        rfl
      · rw [hsize h]; rfl

theorem assert_data_fails_iff_buffers_differ_witness :
    assert_data (fun i => if i = 2 then 7 else 0) 4 (fun _ => 0) 4 [116] 3 example_start.world =
      call_CTEST_ERR (some (assert_data_byte_text 7 2 0 [116] 3)) example_start.world ∧
    assert_data (fun i => if i = 2 then 7 else 0) 4 (fun _ => 0) 5 [116] 3 example_start.world =
      call_CTEST_ERR (some (assert_data_size_text 4 5 [116] 3)) example_start.world ∧
    assert_data (fun _ => 0) 4 (fun _ => 0) 4 [116] 3 example_start.world =
      (Outcome.returned, example_start.world) :=
  ⟨(assert_data_fails_iff_buffers_differ (fun i => if i = 2 then 7 else 0) 4 (fun _ => 0) 4
      [116] 3 example_start.world).2.2.1 2 rfl (by decide) (by decide)
      (fun j hj => by interval_cases j <;> rfl),
    (assert_data_fails_iff_buffers_differ (fun i => if i = 2 then 7 else 0) 4 (fun _ => 0) 5
      [116] 3 example_start.world).2.1 (by decide),
    (assert_data_fails_iff_buffers_differ (fun _ => 0) 4 (fun _ => 0) 4
      [116] 3 example_start.world).2.2.2 rfl (fun _ _ => rfl)⟩

/-! ## The scenario of three tests -/

/-- C15: with `(Math, Add)` passing, `(Math, Sub)` failing `assert_equal(5, 4, ...)` and
`(Str, Concat)` marked skip, registered in this order, the run with the argument `Math`
counts `total = 2`, runs `Add` as test 1 of 2 and then `Sub` as test 2 of 2, does not
visit `Concat`, ends with `num_ok = 1`, `num_fail = 1`, `num_skip = 0`, prints the summary
of these and returns 1. -/
theorem scenario_math_filter (char_signed : Bool) :
    observe (ctest_main char_signed scenario_code 1 4 scenario_tm
        (ctest_impl_hash_init_once SuiteMem.zeroed) [[112, 114, 111, 103], example_Math]
        scenario_start) =
      some
        { returned := 1
          total := 2
          num_ok := 1
          num_fail := 1
          num_skip := 0
          out :=
            [Event.test_header 1 1 2, Event.find_suite example_Math, Event.call_run 1 11 none,
              Event.ok,
              Event.test_header 2 2 2, Event.find_suite example_Math, Event.call_run 2 12 none,
              Event.fail, Event.errorbuffer,
              Event.results 2 1 1 0]
          entered := [11, 12] } := by
  cases char_signed <;> decide

/-! ## One test's outcome does not depend on what earlier tests left -/

theorem buffer_cstr_agree (mem1 mem2 : Nat → Nat) (k : Nat) (h0 : mem1 k = 0) (n : Nat) :
    ∀ i, i ≤ k → (∀ j, i ≤ j → j ≤ k → mem1 j = mem2 j) →
      buffer_cstr mem1 n i = buffer_cstr mem2 n i := by
  induction n with
  | zero => intro i _ _; rfl
  | succ n ih =>
    intro i hi h
    have hii : mem1 i = mem2 i := h i (Nat.le_refl i) hi
    simp only [buffer_cstr, ← hii]
    by_cases hz : mem1 i = 0
    · simp only [hz, if_true]
    · simp only [hz, if_false]
      have hlt : i < k := by
        rcases Nat.lt_or_ge i k with h1 | h1
        · exact h1
        · have : i = k := Nat.le_antisymm hi h1
          subst this
          exact absurd h0 hz
      rw [ih (i + 1) hlt (fun j h1 h2 => h j (by omega) h2)]

theorem store_agree (e1 e2 : ErrState) (dst : Nat) (bytes : List Nat)
    (hb : bytes = [] ∨ bytes.getD (bytes.length - 1) 0 = 0) (h : e1.Agree e2) :
    (e1.store dst bytes).Agree (e2.store dst bytes) := by
  obtain ⟨hs, hc, k, hk, h0⟩ := h
  refine ⟨hs, hc, ?_⟩
  show ∃ k2, (∀ i, i ≤ k2 → store_bytes e1.ctest_errorbuffer dst bytes i =
      store_bytes e2.ctest_errorbuffer dst bytes i) ∧
    store_bytes e1.ctest_errorbuffer dst bytes k2 = 0
  by_cases hin : dst ≤ k ∧ k < dst + bytes.length
  · have hne : bytes ≠ [] := by
      intro hnil; rw [hnil] at hin; simp at hin; omega
    have hlast : bytes.getD (bytes.length - 1) 0 = 0 := hb.resolve_left hne
    have hpos : 0 < bytes.length := List.length_pos.2 hne
    refine ⟨dst + bytes.length - 1, ?_, ?_⟩
    · intro i hi
      simp only [store_bytes]
      by_cases hr : dst ≤ i ∧ i < dst + bytes.length
      · simp only [hr, and_self, if_true]
      · simp only [hr, if_false]
        exact hk i (by omega)
    · simp only [store_bytes]
      have hr : dst ≤ dst + bytes.length - 1 ∧ dst + bytes.length - 1 < dst + bytes.length := by
        omega
      simp only [hr, and_self, if_true]
      have : dst + bytes.length - 1 - dst = bytes.length - 1 := by omega
      rw [this]; exact hlast
  · refine ⟨k, ?_, ?_⟩
    · intro i hi
      simp only [store_bytes]
      by_cases hr : dst ≤ i ∧ i < dst + bytes.length
      · simp only [hr, and_self, if_true]
      · simp only [hr, if_false]
        exact hk i hi
    · simp only [store_bytes, hin, if_false]
      exact h0

theorem vsnprintf_stored_ends (n : Nat) (out : Option (List Nat)) :
    vsnprintf_stored n out = [] ∨
      (vsnprintf_stored n out).getD ((vsnprintf_stored n out).length - 1) 0 = 0 := by
  unfold vsnprintf_stored
  cases out with
  | none => exact Or.inl rfl
  | some text =>
    simp only
    split
    · exact Or.inl rfl
    · right
      simp [List.getD_eq_getElem?_getD]

theorem vprint_errormsg_agree (e1 e2 : ErrState) (out : Option (List Nat))
    (h : e1.Agree e2) : (vprint_errormsg e1 out).Agree (vprint_errormsg e2 out) := by
  have h1 : (e1.store e1.ctest_errormsg (vsnprintf_stored e1.ctest_errorsize out)).Agree
      (e2.store e2.ctest_errormsg (vsnprintf_stored e2.ctest_errorsize out)) := by
    rw [← h.1, ← h.2.1]
    exact store_agree e1 e2 _ _ (vsnprintf_stored_ends _ _) h
  unfold vprint_errormsg
  simp only
  by_cases hr : vsnprintf_ret out < 0
  · simp only [hr, if_true]
    have hc : (e1.store e1.ctest_errormsg (vsnprintf_stored e1.ctest_errorsize out)).ctest_errormsg =
        (e2.store e2.ctest_errormsg (vsnprintf_stored e2.ctest_errorsize out)).ctest_errormsg :=
      h1.2.1
    rw [hc]
    exact store_agree _ _ _ [0] (Or.inr rfl) h1
  · simp only [hr, if_false]
    obtain ⟨a1, a2, a3⟩ := h1
    refine ⟨?_, ?_, a3⟩
    · show (_ + 2 ^ 64 - _) % 2 ^ 64 = (_ + 2 ^ 64 - _) % 2 ^ 64
      rw [a1]
    · show _ + _ = _ + _
      rw [a1, a2]

theorem msg_start_agree (c : Int) (color title : List Nat) (e1 e2 : ErrState)
    (h : e1.Agree e2) : (msg_start c color title e1).Agree (msg_start c color title e2) := by
  unfold msg_start print_errormsg
  by_cases hc : c ≠ 0
  · simp only [if_pos hc]
    exact vprint_errormsg_agree _ _ _ (vprint_errormsg_agree e1 e2 _ h)
  · simp only [if_neg hc]
    exact vprint_errormsg_agree _ _ _ h

theorem msg_end_agree (c : Int) (e1 e2 : ErrState) (h : e1.Agree e2) :
    (msg_end c e1).Agree (msg_end c e2) := by
  unfold msg_end print_errormsg
  by_cases hc : c ≠ 0
  · simp only [if_pos hc]
    exact vprint_errormsg_agree _ _ _ (vprint_errormsg_agree e1 e2 _ h)
  · simp only [if_neg hc]
    exact vprint_errormsg_agree _ _ _ h

theorem CTEST_LOG_agree (c : Int) (out : Option (List Nat)) (e1 e2 : ErrState)
    (h : e1.Agree e2) : (CTEST_LOG c out e1).Agree (CTEST_LOG c out e2) := by
  unfold CTEST_LOG
  exact msg_end_agree c _ _ (vprint_errormsg_agree _ _ out (msg_start_agree c _ _ e1 e2 h))

theorem CTEST_ERR_agree (c : Int) (out : Option (List Nat)) (e1 e2 : ErrState)
    (h : e1.Agree e2) : (CTEST_ERR c out e1).Agree (CTEST_ERR c out e2) := by
  unfold CTEST_ERR
  exact msg_end_agree c _ _ (vprint_errormsg_agree _ _ out (msg_start_agree c _ _ e1 e2 h))

theorem reset_errorbuffer_agree (e1 e2 : ErrState) :
    (reset_errorbuffer e1).Agree (reset_errorbuffer e2) := by
  refine ⟨rfl, rfl, 0, ?_, ?_⟩
  · intro i hi
    have : i = 0 := by omega
    subst this
    simp [reset_errorbuffer, store_bytes]
  · simp [reset_errorbuffer, store_bytes]

/-- A function body cannot tell apart two worlds that agree: it leaves the same way and
the worlds it leaves agree. -/
theorem exec_stmts_agree {σ : Type} (l : List (Stmt σ)) :
    ∀ w1 w2 : World σ, w1.Agree w2 →
      (exec_stmts l w1).1 = (exec_stmts l w2).1 ∧ (exec_stmts l w1).2.Agree (exec_stmts l w2).2 := by
  induction l with
  | nil => intro w1 w2 h; exact ⟨rfl, h⟩
  | cons st rest ih =>
    intro w1 w2 h
    obtain ⟨hu, hcol, he⟩ := h
    cases st with
    | user f =>
      simp only [exec_stmts]
      exact ih _ _ ⟨by simp only [hu], hcol, he⟩
    | log out =>
      simp only [exec_stmts]
      refine ih _ _ ⟨hu, hcol, ?_⟩
      show (CTEST_LOG w1.color_output (out w1.user) w1.err).Agree
        (CTEST_LOG w2.color_output (out w2.user) w2.err)
      rw [hu, hcol]
      exact CTEST_LOG_agree _ _ _ _ he
    | check fails out =>
      simp only [exec_stmts, hu]
      by_cases hf : fails w2.user = true
      · simp only [hf, if_true]
        refine ⟨trivial, rfl, hcol, ?_⟩
        show (CTEST_ERR w1.color_output (out w2.user) w1.err).Agree
          (CTEST_ERR w2.color_output (out w2.user) w2.err)
        rw [hcol]
        exact CTEST_ERR_agree _ _ _ _ he
      · simp only [hf, if_false, Bool.false_eq_true]
        exact ih _ _ ⟨hu, hcol, he⟩

/-- A call inside the protected region keeps two runs in step when the function called
has the same body in both programs. -/
theorem invoke_same_progress {σ : Type} (code1 code2 : Nat → Stage σ)
    (body1 body2 : Nat → Option Nat → List (Stmt σ))
    (h1 : ∀ fn, code1 fn = Stage.of_stmts (body1 fn))
    (h2 : ∀ fn, code2 fn = Stage.of_stmts (body2 fn))
    (ev : Nat → Event) (fn : Option Nat) (arg : Option Nat)
    (hsame : ∀ f, fn = some f → body1 f = body2 f)
    (base1 base2 : List Event) (P1 P2 : Outcome × World σ × List Event)
    (h : SameProgress base1 base2 P1 P2) :
    SameProgress base1 base2 (invoke code1 ev fn arg P1) (invoke code2 ev fn arg P2) := by
  obtain ⟨o1, w1, out1⟩ := P1
  obtain ⟨o2, w2, out2⟩ := P2
  obtain ⟨ho, hw, evs, he1, he2⟩ := h
  simp only at ho he1 he2 hw
  subst ho
  cases o1 with
  | longjmp => exact ⟨rfl, hw, evs, he1, he2⟩
  | returned =>
    cases fn with
    | none => exact ⟨rfl, hw, evs, he1, he2⟩
    | some f =>
      simp only [invoke, h1 f, h2 f, Stage.of_stmts, hsame f rfl]
      obtain ⟨a1, a2⟩ := exec_stmts_agree (body2 f arg) w1 w2 hw
      exact ⟨a1, a2, evs ++ [ev f], by rw [he1, List.append_assoc],
        by rw [he2, List.append_assoc]⟩

theorem call_filter_of_selects (st : Statics) (t : ctest) (h : st.selects t = true) :
    ∃ r, st.call_filter t = some r ∧ r ≠ 0 := by
  unfold Statics.selects at h
  cases hc : st.call_filter t with
  | none => rw [hc] at h; cases h
  | some r =>
    rw [hc] at h
    exact ⟨r, rfl, by simpa using h⟩

/-- The protected regions of two runs of one test end in step when they start from worlds
with the same state of the program under test and the functions of the test have the
same bodies in both programs. -/
theorem after_teardown_same_progress {σ : Type} (code1 code2 : Nat → Stage σ)
    (body1 body2 : Nat → Option Nat → List (Stmt σ))
    (h1 : ∀ fn, code1 fn = Stage.of_stmts (body1 fn))
    (h2 : ∀ fn, code2 fn = Stage.of_stmts (body2 fn))
    (tm : TestMem) (sm : SuiteMem) (suite : Option Nat) (a : Nat) (s1 s2 : DriverState σ)
    (hsame : ∀ fn ∈ test_functions sm suite (tm.tests a), body1 fn = body2 fn)
    (huser : s1.world.user = s2.world.user)
    (hcolor : s1.world.color_output = s2.world.color_output) :
    SameProgress (s1.out ++ [Event.test_header a s1.statics.idx s1.statics.total])
      (s2.out ++ [Event.test_header a s2.statics.idx s2.statics.total])
      (after_teardown code1 tm sm suite a s1) (after_teardown code2 tm sm suite a s2) := by
  have h0 : SameProgress (s1.out ++ [Event.test_header a s1.statics.idx s1.statics.total])
      (s2.out ++ [Event.test_header a s2.statics.idx s2.statics.total])
      (protected_start tm a s1) (protected_start tm a s2) :=
    ⟨rfl, ⟨huser, hcolor, reset_errorbuffer_agree _ _⟩,
      [Event.find_suite (tm.tests a).ssname], rfl, rfl⟩
  unfold after_teardown after_run after_setup protected_teardown protected_run protected_setup
  refine invoke_same_progress code1 code2 body1 body2 h1 h2 _ _ _ ?_ _ _ _ _
    (invoke_same_progress code1 code2 body1 body2 h1 h2 _ _ _ ?_ _ _ _ _
      (invoke_same_progress code1 code2 body1 body2 h1 h2 _ _ _ ?_ _ _ _ _ h0))
  · intro f hf
    exact hsame f (by simp [test_functions, hf])
  · intro f hf
    exact hsame f (by simp only [Option.some.injEq] at hf; simp [test_functions, hf])
  · intro f hf
    exact hsame f (by simp [test_functions, hf])

theorem invoke_quiet {σ : Type} (code : Nat → Stage σ) (ev : Nat → Event) (fn : Option Nat)
    (arg : Option Nat) (P : Outcome × World σ × List Event)
    (hq : ∀ f, fn = some f → ∀ arg2 w, (code f arg2 w).2.err = w.err) :
    (invoke code ev fn arg P).2.1.err = P.2.1.err := by
  obtain ⟨o, w, out⟩ := P
  cases o with
  | longjmp => rfl
  | returned =>
    cases fn with
    | none => rfl
    | some f => exact hq f rfl arg w

/-- When none of the functions of a test writes a message, the protected region ends with
the scratch buffer as the per-test reset left it. -/
theorem after_teardown_quiet {σ : Type} (code : Nat → Stage σ) (tm : TestMem) (sm : SuiteMem)
    (suite : Option Nat) (a : Nat) (s : DriverState σ)
    (hq : ∀ fn ∈ test_functions sm suite (tm.tests a), ∀ arg w, (code fn arg w).2.err = w.err) :
    (after_teardown code tm sm suite a s).2.1.err = reset_errorbuffer s.world.err := by
  unfold after_teardown after_run after_setup protected_teardown protected_run protected_setup
  rw [invoke_quiet, invoke_quiet, invoke_quiet]
  · rfl
  · intro f hf
    exact hq f (by simp [test_functions, hf])
  · intro f hf
    exact hq f (by simp only [Option.some.injEq] at hf; simp [test_functions, hf])
  · intro f hf
    exact hq f (by simp [test_functions, hf])

theorem reset_errorbuffer_empty (e : ErrState) :
    (reset_errorbuffer e).ctest_errorsize = 4095 ∧ (reset_errorbuffer e).ctest_errormsg = 0 ∧
      ∀ n, buffer_cstr (reset_errorbuffer e).ctest_errorbuffer n 0 = [] := by
  refine ⟨rfl, rfl, ?_⟩
  intro n
  cases n with
  | zero => rfl
  | succ n => simp [buffer_cstr, reset_errorbuffer, store_bytes]

/-- C14: the iteration of the second loop for a selected test `t` in two runs, with
programs whose functions have the same bodies for `t` (its test function and the hooks of
its suite) and any bodies for the other tests, started in any two driver states that
select `t`, hold the same state of the program under test and have stored nothing past
the scratch buffer (the counters, the output so far, the contents, cursor and remaining
size of the scratch buffer and the context held by `ctest_err` may all differ, as after
earlier tests that passed in one run and failed in the other), the messages of `t`
staying inside the scratch buffer in both runs.  The lookup of the suite of `t` in the
linked suite index returns.  Both iterations complete, record the same outcome for `t`,
add the same events after the progress line (the lookup, the calls of setup, test
function and teardown that are made, the verdict line, whether the scratch buffer is
printed), leave the same state of the program under test, the same text in the scratch
buffer and the same cursor and remaining size.  When `t` is not skipped both iterations
leave `ctest_err` holding the context of this iteration, whatever it held before.  When
`t` is skipped, or none of its functions writes a message, the iteration leaves the
scratch buffer holding the empty string, the cursor at its start and 4095 bytes
remaining, whatever it held before. -/
theorem test_outcome_independent_of_earlier_tests {σ : Type} (char_signed : Bool)
    (code1 code2 : Nat → Stage σ) (body1 body2 : Nat → Option Nat → List (Stmt σ))
    (fuel : Nat) (tm : TestMem) (sm : SuiteMem) (chains : Nat → List Nat) (a : Nat)
    (s1 s2 : DriverState σ) (suite : Option Nat)
    (h1 : ∀ fn, code1 fn = Stage.of_stmts (body1 fn))
    (h2 : ∀ fn, code2 fn = Stage.of_stmts (body2 fn))
    (hch : sm.Chains chains) (hfuel : ∀ i, i < HASH_SIZE → (chains i).length < fuel)
    (hsuite : suite = chain_lookup char_signed sm chains (tm.tests a).ssname)
    (hsame : ∀ fn ∈ test_functions sm suite (tm.tests a), body1 fn = body2 fn)
    (hsel1 : s1.statics.selects (tm.tests a) = true)
    (hsel2 : s2.statics.selects (tm.tests a) = true)
    (huser : s1.world.user = s2.world.user)
    (hcolor : s1.world.color_output = s2.world.color_output)
    (hstart1 : s1.world.err.written_end ≤ MSG_SIZE)
    (hstart2 : s2.world.err.written_end ≤ MSG_SIZE)
    (hfit1 : (tm.tests a).skip = 0 → RegionInBounds code1 tm sm suite a s1)
    (hfit2 : (tm.tests a).skip = 0 → RegionInBounds code2 tm sm suite a s2) :
    ctest_impl_find_suite char_signed fuel sm (tm.tests a).ssname = some suite ∧
    ∃ (t1 t2 : DriverState σ) (v : Verdict) (evs : List Event),
      run_body char_signed code1 fuel tm sm a s1 = some (Sum.inl t1) ∧
      run_body char_signed code2 fuel tm sm a s2 = some (Sum.inl t2) ∧
      t1.statics = s1.statics.record v ∧ t2.statics = s2.statics.record v ∧
      t1.out = s1.out ++ Event.test_header a s1.statics.idx s1.statics.total :: evs ∧
      t2.out = s2.out ++ Event.test_header a s2.statics.idx s2.statics.total :: evs ∧
      t1.world.user = t2.world.user ∧
      (∀ n, buffer_cstr t1.world.err.ctest_errorbuffer n 0 =
        buffer_cstr t2.world.err.ctest_errorbuffer n 0) ∧
      t1.world.err.ctest_errorsize = t2.world.err.ctest_errorsize ∧
      t1.world.err.ctest_errormsg = t2.world.err.ctest_errormsg ∧
      (t1.world.err.written_end ≤ MSG_SIZE ∧ t2.world.err.written_end ≤ MSG_SIZE) ∧
      ((tm.tests a).skip = 0 → t1.ctest_err = some a ∧ t2.ctest_err = some a) ∧
      (∀ p ∈ [(code1, t1), (code2, t2)],
        ((tm.tests a).skip ≠ 0 ∨
          ∀ fn ∈ test_functions sm suite (tm.tests a), ∀ arg w,
            (p.1 fn arg w).2.err = w.err) →
        p.2.world.err.ctest_errorsize = 4095 ∧ p.2.world.err.ctest_errormsg = 0 ∧
        ∀ n, buffer_cstr p.2.world.err.ctest_errorbuffer n 0 = []) := by
  have hfind : ctest_impl_find_suite char_signed fuel sm (tm.tests a).ssname = some suite := by
    rw [hsuite]
    exact find_suite_chain_lookup char_signed sm chains hch fuel hfuel (tm.tests a).ssname
  refine ⟨hfind, ?_⟩
  obtain ⟨r1, hc1, hr1⟩ := call_filter_of_selects _ _ hsel1
  obtain ⟨r2, hc2, hr2⟩ := call_filter_of_selects _ _ hsel2
  by_cases hskip : (tm.tests a).skip = 0
  · have hP := after_teardown_same_progress code1 code2 body1 body2 h1 h2 tm sm suite a
      s1 s2 hsame huser hcolor
    have hin1 : (after_teardown code1 tm sm suite a s1).2.1.err.written_end ≤ MSG_SIZE :=
      hfit1 hskip
    have hin2 : (after_teardown code2 tm sm suite a s2).2.1.err.written_end ≤ MSG_SIZE :=
      hfit2 hskip
    have e1 := run_body_of_protected char_signed code1 fuel tm sm a s1 r1 suite hc1 hr1
      hskip hfind hin1
    have e2 := run_body_of_protected char_signed code2 fuel tm sm a s2 r2 suite hc2 hr2
      hskip hfind hin2
    have q1 := after_teardown_quiet code1 tm sm suite a s1
    have q2 := after_teardown_quiet code2 tm sm suite a s2
    generalize after_teardown code1 tm sm suite a s1 = P1 at hP e1 hin1 q1
    generalize after_teardown code2 tm sm suite a s2 = P2 at hP e2 hin2 q2
    obtain ⟨o1, w1, out1⟩ := P1
    obtain ⟨o2, w2, out2⟩ := P2
    obtain ⟨ho, ⟨hu, _, hs, hm, k, hk, hk0⟩, evs, he1, he2⟩ := hP
    simp only at ho hu hs hm hk hk0 he1 he2 hin1 hin2 q1 q2
    subst ho
    have hprint : errorbuffer_print w1 = errorbuffer_print w2 := by
      unfold errorbuffer_print; rw [hs]
    refine ⟨_, _, (if o1 = Outcome.returned then Verdict.passed else Verdict.failed),
      evs ++ [if o1 = Outcome.returned then Event.ok else Event.fail] ++
        errorbuffer_print w2, e1, e2, rfl, rfl, ?_, ?_, hu, ?_, hs, hm, ⟨hin1, hin2⟩,
      fun _ => ⟨rfl, rfl⟩, ?_⟩
    · show out1 ++ _ ++ _ = _
      rw [he1, hprint]; simp
    · show out2 ++ _ ++ _ = _
      rw [he2]; simp
    · intro n
      exact buffer_cstr_agree _ _ k hk0 n 0 (Nat.zero_le k) (fun j _ hj => hk j hj)
    · intro p hp hq
      simp only [List.mem_cons, List.mem_singleton, List.not_mem_nil, or_false] at hp
      rcases hp with rfl | rfl
      · rcases hq with hq | hq
        · exact absurd hskip hq
        · show w1.err.ctest_errorsize = 4095 ∧ w1.err.ctest_errormsg = 0 ∧
            ∀ n, buffer_cstr w1.err.ctest_errorbuffer n 0 = []
          rw [q1 hq]
          exact reset_errorbuffer_empty _
      · rcases hq with hq | hq
        · exact absurd hskip hq
        · show w2.err.ctest_errorsize = 4095 ∧ w2.err.ctest_errormsg = 0 ∧
            ∀ n, buffer_cstr w2.err.ctest_errorbuffer n 0 = []
          rw [q2 hq]
          exact reset_errorbuffer_empty _
  · obtain ⟨_, _, k, hk, hk0⟩ := reset_errorbuffer_agree s1.world.err s2.world.err
    refine ⟨{ statics := s1.statics.record Verdict.skipped
              world := { s1.world with err := reset_errorbuffer s1.world.err }
              out := s1.out ++ [Event.test_header a s1.statics.idx s1.statics.total] ++
                [Event.skipped]
              ctest_err := s1.ctest_err },
      { statics := s2.statics.record Verdict.skipped
        world := { s2.world with err := reset_errorbuffer s2.world.err }
        out := s2.out ++ [Event.test_header a s2.statics.idx s2.statics.total] ++
          [Event.skipped]
        ctest_err := s2.ctest_err },
      Verdict.skipped, [Event.skipped], ?_, ?_, rfl, rfl, ?_, ?_, huser, ?_, rfl, rfl,
      ⟨hstart1, hstart2⟩, fun h => absurd h hskip, ?_⟩
    · simp only [run_body, hc1, hr1, hskip, ne_eq, not_false_eq_true, if_true]; rfl
    · simp only [run_body, hc2, hr2, hskip, ne_eq, not_false_eq_true, if_true]; rfl
    · simp
    · simp
    · intro n
      exact buffer_cstr_agree _ _ k hk0 n 0 (Nat.zero_le k) (fun j _ hj => hk j hj)
    · intro p hp _
      simp only [List.mem_cons, List.mem_singleton, List.not_mem_nil, or_false] at hp
      rcases hp with rfl | rfl
      · exact reset_errorbuffer_empty _
      · exact reset_errorbuffer_empty _

theorem test_outcome_independent_of_earlier_tests_witness :
    ∃ (t1 t2 : DriverState Nat) (v : Verdict) (evs : List Event),
      run_body true example_code 3 example_tm example_sm 1 example_start =
        some (Sum.inl t1) ∧
      run_body true example_code_sub_passes 3 example_tm example_sm 1 example_after_failure =
        some (Sum.inl t2) ∧
      t1.statics = example_start.statics.record v ∧
      t2.statics = example_after_failure.statics.record v ∧
      t1.out = example_start.out ++ Event.test_header 1 1 0 :: evs ∧
      t2.out = example_after_failure.out ++ Event.test_header 1 2 2 :: evs ∧
      t1.world.user = t2.world.user ∧
      (∀ n, buffer_cstr t1.world.err.ctest_errorbuffer n 0 =
        buffer_cstr t2.world.err.ctest_errorbuffer n 0) ∧
      t1.ctest_err = some 1 ∧ t2.ctest_err = some 1 :=
  (test_outcome_independent_of_earlier_tests true example_code example_code_sub_passes
    (fun fn _ => example_body fn) (fun fn _ => if fn = 12 then [] else example_body fn)
    3 example_tm example_sm (Function.update (fun _ => []) 125 [100]) 1 example_start
    example_after_failure (some 100)
    (fun _ => rfl) (fun _ => rfl) example_sm_chains (fun i _ => example_sm_fuel i) (by decide)
    (fun fn hfn => by
      have hl : test_functions example_sm (some 100) (example_tm.tests 1) = [11, 20, 21] := by
        decide
      rw [hl] at hfn
      have hne : fn ≠ 12 := by
        intro h; rw [h] at hfn; revert hfn; decide
      funext _
      simp only [hne, if_false])
    (by decide) (by decide) rfl rfl (by decide) (by decide) (fun _ => by decide)
    (fun _ => by decide)).2.imp
    (fun _ h => h.imp (fun _ h2 => h2.imp (fun _ h3 => h3.imp (fun _ h4 =>
      ⟨h4.1, h4.2.1, h4.2.2.1, h4.2.2.2.1, h4.2.2.2.2.1, h4.2.2.2.2.2.1, h4.2.2.2.2.2.2.1,
        h4.2.2.2.2.2.2.2.1, (h4.2.2.2.2.2.2.2.2.2.2.2.1 (by decide)).1,
        (h4.2.2.2.2.2.2.2.2.2.2.2.1 (by decide)).2⟩))))

/-! ## The hash and the standard FNV-1a hash -/

theorem char_to_uint_of_lt (char_signed : Bool) (c : Nat) (h : c < 128) :
    char_to_uint char_signed c = c := by
  have h1 : c % 256 = c := Nat.mod_eq_of_lt (by omega)
  have h2 : ¬ 128 ≤ c := by omega
  simp [char_to_uint, h1, h2]

theorem foldl_congr_mem {α β : Type} (f g : β → α → β) (l : List α) :
    ∀ acc, (∀ x, ∀ b ∈ l, f x b = g x b) → l.foldl f acc = l.foldl g acc := by
  induction l with
  | nil => intro _ _; rfl
  | cons b t ih =>
    intro acc h
    rw [List.foldl_cons, List.foldl_cons, h acc b (List.mem_cons_self b t)]
    exact ih _ (fun x c hc => h x c (List.mem_cons_of_mem b hc))

theorem fnv1a32_step_of_lt (char_signed : Bool) (h b : Nat) (hb : b < 128) :
    fnv1a32_step char_signed h b = ((h ^^^ (b % 256)) * 16777619) % 2 ^ 32 := by
  unfold fnv1a32_step
  rw [char_to_uint_of_lt char_signed b hb, Nat.mod_eq_of_lt (show b < 256 by omega)]

theorem fnv1a32_step_zero (char_signed : Bool) (h : Nat) :
    fnv1a32_step char_signed h 0 = h * 16777619 % 2 ^ 32 := by
  unfold fnv1a32_step
  rw [char_to_uint_of_lt char_signed 0 (by decide), Nat.xor_zero]

/-- C23: for every name, `ctest_impl_hash_suite(name)` is
`ctest_impl_fnv1a32(name, strlen(name))`, the fold of the FNV-1a step from the offset
basis over the `strlen(name) + 1` bytes that are the name and its terminating zero byte;
when every byte of the name is below `0x80` this is the standard 32-bit FNV-1a hash of
the bytes of the name, multiplied by 16777619 modulo `2^32`; for the empty name it is
`2166136261 * 16777619 mod 2^32`. -/
theorem hash_suite_is_standard_hash_times_prime (char_signed : Bool) (name : List Nat) :
    ctest_impl_hash_suite char_signed name =
      ctest_impl_fnv1a32 char_signed name (strlen name) ∧
    ctest_impl_hash_suite char_signed name =
      (cstr name ++ [0]).foldl (fnv1a32_step char_signed) 2166136261 ∧
    (cstr name ++ [0]).length = strlen name + 1 ∧
    ((∀ b ∈ cstr name, b < 128) →
      ctest_impl_hash_suite char_signed name =
        fnv1a32_standard (cstr name) * 16777619 % 2 ^ 32) ∧
    (cstr name = [] →
      ctest_impl_hash_suite char_signed name = 2166136261 * 16777619 % 2 ^ 32) := by
  have hfold := hash_suite_eq_foldl char_signed name
  have hstd : (∀ b ∈ cstr name, b < 128) →
      ctest_impl_hash_suite char_signed name =
        fnv1a32_standard (cstr name) * 16777619 % 2 ^ 32 := by
    intro h
    rw [hfold, List.foldl_append, List.foldl_cons, List.foldl_nil, fnv1a32_step_zero,
      foldl_congr_mem (fnv1a32_step char_signed)
        (fun h b => ((h ^^^ (b % 256)) * 16777619) % 2 ^ 32) (cstr name) 2166136261
        (fun x b hb => fnv1a32_step_of_lt char_signed x b (h b hb))]
    unfold fnv1a32_standard
    exact Eq.refl _
  refine ⟨rfl, hfold, ?_, hstd, ?_⟩
  · rw [List.length_append, strlen_eq_length_cstr]; rfl
  · intro h
    rw [hstd (by rw [h]; intro b hb; cases hb), h]
    simp only [fnv1a32_standard, List.foldl_nil]

theorem hash_suite_is_standard_hash_times_prime_witness :
    ctest_impl_hash_suite true example_Math =
        fnv1a32_standard (cstr example_Math) * 16777619 % 2 ^ 32 ∧
      ctest_impl_hash_suite true [] = 2166136261 * 16777619 % 2 ^ 32 :=
  ⟨(hash_suite_is_standard_hash_times_prime true example_Math).2.2.2.1 (by decide),
    (hash_suite_is_standard_hash_times_prime true []).2.2.2.2 (by decide)⟩


/-! ## Messages that fit the scratch buffer -/

theorem reset_holds_text (e : ErrState) : (reset_errorbuffer e).HoldsText [] := by
  refine ⟨rfl, rfl, ?_, ?_⟩
  · intro i hi; simp at hi
  · simp [reset_errorbuffer, store_bytes]

theorem vsnprintf_stored_fits (n : Nat) (text : List Nat) (h : text.length < n)
    (h31 : text.length < 2 ^ 31) : vsnprintf_stored n (some text) = text ++ [0] := by
  have hn : n ≠ 0 := by omega
  have htake : text.take (n - 1) = text := List.take_of_length_le (by omega)
  simp only [vsnprintf_stored, hn, h31, not_true_eq_false, or_self, if_false, htake]

theorem vprint_errormsg_buffer (e : ErrState) (text : List Nat) (h : text.length < 2 ^ 31) :
    (vprint_errormsg e (some text)).ctest_errorbuffer =
      store_bytes e.ctest_errorbuffer e.ctest_errormsg
        (vsnprintf_stored e.ctest_errorsize (some text)) := by
  have hret : vsnprintf_ret (some text) = (text.length : Int) := by
    show (if text.length < 2 ^ 31 then (text.length : Int) else -1) = _
    rw [if_pos h]
  have hneg : ¬ ((text.length : Int) < 0) := by omega
  simp only [vprint_errormsg, hret, hneg, if_false, ErrState.store]

/-- One message that fits: the text is stored whole after what the buffer holds. -/
theorem vprint_errormsg_holds_text (e : ErrState) (content text : List Nat)
    (h : e.HoldsText content) (hfit : content.length + text.length < MSG_SIZE - 1) :
    (vprint_errormsg e (some text)).HoldsText (content ++ text) ∧
      vsnprintf_stored e.ctest_errorsize (some text) = text ++ [0] := by
  obtain ⟨hc, hs, hb, h0⟩ := h
  have hM : MSG_SIZE - 1 = 4095 := rfl
  rw [hM] at hs hfit
  have h31 : text.length < 2 ^ 31 := by
    have : (4095 : Nat) < 2 ^ 31 := by norm_num
    omega
  have hlt : text.length < e.ctest_errorsize := by omega
  have hstored := vsnprintf_stored_fits e.ctest_errorsize text hlt h31
  obtain ⟨a1, a2, _⟩ := vprint_errormsg_some e text h31
  have hnle : ¬ e.ctest_errorsize ≤ text.length := by omega
  rw [if_neg hnle] at a1 a2
  have hbuf := vprint_errormsg_buffer e text h31
  rw [hstored, hc] at hbuf
  have e64 : (2 : Nat) ^ 64 = 18446744073709551616 := by norm_num
  refine ⟨⟨?_, ?_, ?_, ?_⟩, hstored⟩
  · rw [a1, hc, List.length_append]
  · rw [a1, a2, hM, e64]
    omega
  · intro i hi
    rw [List.length_append] at hi
    rw [hbuf]
    simp only [store_bytes, List.length_append, List.length_singleton]
    by_cases hlo : i < content.length
    · have hn : ¬ (content.length ≤ i ∧ i < content.length + (text.length + 1)) := by omega
      rw [if_neg hn, hb i hlo, List.getD_append content text 0 i hlo]
    · have hy : content.length ≤ i ∧ i < content.length + (text.length + 1) := by omega
      rw [if_pos hy, List.getD_append_right content text 0 i (by omega),
        List.getD_append text [0] 0 (i - content.length) (by omega)]
  · rw [hbuf]
    simp only [store_bytes, List.length_append, List.length_singleton]
    have hy : content.length ≤ content.length + text.length ∧
        content.length + text.length < content.length + (text.length + 1) := by omega
    rw [if_pos hy]
    have : content.length + text.length - content.length = text.length := by omega
    rw [this, List.getD_append_right text [0] 0 text.length (Nat.le_refl _)]
    simp

theorem vprint_all_holds_text (msgs : List (List Nat)) :
    ∀ (e : ErrState) (content : List Nat), e.HoldsText content →
      content.length + (msgs.map List.length).sum < MSG_SIZE - 1 →
      (vprint_all e msgs).HoldsText (content ++ msgs.flatten) := by
  induction msgs with
  | nil => intro e content h _; simpa [vprint_all] using h
  | cons t ts ih =>
    intro e content h hfit
    simp only [List.map_cons, List.sum_cons] at hfit
    have h1 := (vprint_errormsg_holds_text e content t h (by omega)).1
    have h2 := ih (vprint_errormsg e (some t)) (content ++ t) h1
      (by rw [List.length_append]; omega)
    simpa [vprint_all, List.append_assoc] using h2

theorem sum_length_take_le (msgs : List (List Nat)) (k : Nat) :
    ((msgs.take k).map List.length).sum ≤ (msgs.map List.length).sum := by
  induction msgs generalizing k with
  | nil => simp
  | cons t ts ih =>
    cases k with
    | zero => simp
    | succ j =>
      simp only [List.take_succ_cons, List.map_cons, List.sum_cons]
      have := ih j
      omega

theorem sum_length_take_succ (msgs : List (List Nat)) (k : Nat) (t : List Nat)
    (h : msgs[k]? = some t) :
    ((msgs.take k).map List.length).sum + t.length ≤ (msgs.map List.length).sum := by
  have h1 := sum_length_take_le msgs (k + 1)
  rw [List.take_succ, h] at h1
  simpa using h1

theorem buffer_cstr_of_text (mem : Nat → Nat) (l : List Nat) :
    ∀ (off n : Nat), (∀ i, i < l.length → mem (off + i) = l.getD i 0) →
      mem (off + l.length) = 0 → (∀ b ∈ l, b ≠ 0) → l.length < n →
      buffer_cstr mem n off = l := by
  induction l with
  | nil =>
    intro off n _ h0 _ hn
    cases n with
    | zero => simp at hn
    | succ m =>
      have : mem off = 0 := by simpa using h0
      simp [buffer_cstr, this]
  | cons b t ih =>
    intro off n h h0 hne hn
    cases n with
    | zero => simp at hn
    | succ m =>
      have hb : mem off = b := by simpa using h 0 (by simp)
      have hb0 : b ≠ 0 := hne b (List.mem_cons_self b t)
      have ht := ih (off + 1) m
        (fun i hi => by
          have := h (i + 1) (by simp only [List.length_cons]; omega)
          rw [show off + 1 + i = off + (i + 1) by omega, this]
          rfl)
        (by rw [show off + 1 + t.length = off + (t.length + 1) by omega]; exact h0)
        (fun c hc => hne c (List.mem_cons_of_mem b hc))
        (by simp only [List.length_cons] at hn; omega)
      simp only [buffer_cstr, hb, hb0, if_false, ht]

/-- C21: after the per-test reset, for every sequence of texts formatted by
`vprint_errormsg` whose lengths add up to less than 4095: every call stores its text
whole (no truncation); after every call the buffer holds, from its start, the texts
formatted so far one after the other, followed by a NUL, the cursor offset is the sum of
their lengths, and the cursor offset and the remaining size add up to 4095.  When no text
contains a zero byte, the string in the buffer at the end is the concatenation of the
texts. -/
theorem messages_below_capacity_not_truncated (e : ErrState) (msgs : List (List Nat))
    (hsum : (msgs.map List.length).sum < 4095) :
    (∀ i, i < msgs.flatten.length →
      (vprint_all (reset_errorbuffer e) msgs).ctest_errorbuffer i = msgs.flatten.getD i 0) ∧
    (vprint_all (reset_errorbuffer e) msgs).ctest_errorbuffer msgs.flatten.length = 0 ∧
    (vprint_all (reset_errorbuffer e) msgs).ctest_errormsg = (msgs.map List.length).sum ∧
    (vprint_all (reset_errorbuffer e) msgs).ctest_errormsg +
      (vprint_all (reset_errorbuffer e) msgs).ctest_errorsize = 4095 ∧
    (∀ k, (vprint_all (reset_errorbuffer e) (msgs.take k)).HoldsText (msgs.take k).flatten ∧
      (vprint_all (reset_errorbuffer e) (msgs.take k)).ctest_errormsg =
        ((msgs.take k).map List.length).sum ∧
      (vprint_all (reset_errorbuffer e) (msgs.take k)).ctest_errormsg +
        (vprint_all (reset_errorbuffer e) (msgs.take k)).ctest_errorsize = 4095) ∧
    (∀ k t, msgs[k]? = some t →
      vsnprintf_stored (vprint_all (reset_errorbuffer e) (msgs.take k)).ctest_errorsize
        (some t) = t ++ [0]) ∧
    ((∀ t ∈ msgs, ∀ b ∈ t, b ≠ 0) → ∀ n, (msgs.map List.length).sum < n →
      buffer_cstr (vprint_all (reset_errorbuffer e) msgs).ctest_errorbuffer n 0 =
        msgs.flatten) := by
  have hM : MSG_SIZE - 1 = 4095 := rfl
  have hpre : ∀ k, (vprint_all (reset_errorbuffer e) (msgs.take k)).HoldsText
      (msgs.take k).flatten := by
    intro k
    have h := vprint_all_holds_text (msgs.take k) (reset_errorbuffer e) []
      (reset_holds_text e)
      (by
        have := sum_length_take_le msgs k
        rw [hM, List.length_nil]; omega)
    simpa using h
  have hall : (vprint_all (reset_errorbuffer e) msgs).HoldsText msgs.flatten := by
    have h := hpre msgs.length
    rwa [List.take_length] at h
  obtain ⟨f1, f2, f3, f4⟩ := hall
  have hlen : msgs.flatten.length = (msgs.map List.length).sum := List.length_flatten msgs
  refine ⟨f3, f4, by rw [f1, hlen], by rw [f2, hM], ?_, ?_, ?_⟩
  · intro k
    refine ⟨hpre k, ?_, ?_⟩
    · rw [(hpre k).1, List.length_flatten]
    · rw [(hpre k).2.1, hM]
  · intro k t ht
    have hk := hpre k
    have hle := sum_length_take_succ msgs k t ht
    refine (vprint_errormsg_holds_text _ _ t hk ?_).2
    rw [hM, List.length_flatten]
    omega
  · intro hne n hn
    refine buffer_cstr_of_text _ msgs.flatten 0 n ?_ ?_ ?_ (by rw [hlen]; exact hn)
    · intro i hi; rw [Nat.zero_add]; exact f3 i hi
    · rw [Nat.zero_add]; exact f4
    · intro b hb
      obtain ⟨t, ht, hbt⟩ := List.mem_flatten.1 hb
      exact hne t ht b hbt

theorem messages_below_capacity_not_truncated_witness :
    (vprint_all (reset_errorbuffer ErrState.zeroed) [[72, 105], [33]]).ctest_errormsg = 3 ∧
      (vprint_all (reset_errorbuffer ErrState.zeroed) [[72, 105], [33]]).ctest_errormsg +
        (vprint_all (reset_errorbuffer ErrState.zeroed) [[72, 105], [33]]).ctest_errorsize =
          4095 ∧
      buffer_cstr (vprint_all (reset_errorbuffer ErrState.zeroed)
        [[72, 105], [33]]).ctest_errorbuffer 4096 0 = [72, 105, 33] :=
  ⟨(messages_below_capacity_not_truncated ErrState.zeroed [[72, 105], [33]]
      (by decide)).2.2.1,
    (messages_below_capacity_not_truncated ErrState.zeroed [[72, 105], [33]]
      (by decide)).2.2.2.1,
    (messages_below_capacity_not_truncated ErrState.zeroed [[72, 105], [33]]
      (by decide)).2.2.2.2.2.2 (by decide) 4096 (by decide)⟩

/-! ## A second call of the driver -/

theorem invoke_fst_fixed {σ : Type} (code : Nat → Stage σ) (hfix : OutcomeFixed code)
    (ev1 ev2 : Nat → Event) (fn : Option Nat) (arg : Option Nat)
    (P1 P2 : Outcome × World σ × List Event) (h : P1.1 = P2.1) :
    (invoke code ev1 fn arg P1).1 = (invoke code ev2 fn arg P2).1 := by
  obtain ⟨o1, w1, out1⟩ := P1
  obtain ⟨o2, w2, out2⟩ := P2
  simp only at h
  subst h
  cases o1 with
  | longjmp => rfl
  | returned =>
    cases fn with
    | none => rfl
    | some f => exact hfix f arg w1 w2

theorem after_teardown_fst_fixed {σ : Type} (code : Nat → Stage σ) (hfix : OutcomeFixed code)
    (tm : TestMem) (sm : SuiteMem) (suite : Option Nat) (a : Nat) (s1 s2 : DriverState σ) :
    (after_teardown code tm sm suite a s1).1 = (after_teardown code tm sm suite a s2).1 := by
  unfold after_teardown after_run after_setup protected_teardown protected_run protected_setup
  exact invoke_fst_fixed code hfix _ _ _ _ _ _
    (invoke_fst_fixed code hfix _ _ _ _ _ _
      (invoke_fst_fixed code hfix _ _ _ _ _ _ rfl))

theorem call_filter_congr (st st2 : Statics) (hf : st2.filter = st.filter)
    (hn : st2.suite_name = st.suite_name) (t : ctest) : st2.call_filter t = st.call_filter t := by
  unfold Statics.call_filter
  rw [hf, hn]

/-- One iteration of the second loop in two runs of a program whose functions behave the
same on every call and keep their messages inside the scratch buffer: the same outcome is
recorded. -/
theorem run_body_same_verdict {σ : Type} (char_signed : Bool) (code : Nat → Stage σ)
    (hfix : OutcomeFixed code) (fuel : Nat)
    (tm : TestMem) (sm : SuiteMem) (chains : Nat → List Nat) (hch : sm.Chains chains)
    (hfuel : ∀ i, i < HASH_SIZE → (chains i).length < fuel) (a : Nat) (s1 s2 : DriverState σ)
    (hok : s1.statics.Consistent) (hf : s2.statics.filter = s1.statics.filter)
    (hn : s2.statics.suite_name = s1.statics.suite_name)
    (hw1 : s1.world.err.written_end ≤ MSG_SIZE) (hw2 : s2.world.err.written_end ≤ MSG_SIZE)
    (hfit : (tm.tests a).skip = 0 → ∀ s : DriverState σ, s.world.err.written_end ≤ MSG_SIZE →
      RegionInBounds code tm sm (chain_lookup char_signed sm chains (tm.tests a).ssname) a s) :
    ∃ t1 t2, run_body char_signed code fuel tm sm a s1 = some (Sum.inl t1) ∧
      run_body char_signed code fuel tm sm a s2 = some (Sum.inl t2) ∧
      t1.world.err.written_end ≤ MSG_SIZE ∧ t2.world.err.written_end ≤ MSG_SIZE ∧
      ((t1.statics = s1.statics ∧ t2.statics = s2.statics) ∨
        ∃ v, t1.statics = s1.statics.record v ∧ t2.statics = s2.statics.record v) := by
  obtain ⟨r, hsel1⟩ := call_filter_of_consistent s1.statics hok (tm.tests a)
  have hsel2 : s2.statics.call_filter (tm.tests a) = some r := by
    rw [call_filter_congr s1.statics s2.statics hf hn]; exact hsel1
  by_cases hr : r = 0
  · subst hr
    exact ⟨s1, s2, by simp [run_body, hsel1], by simp [run_body, hsel2], hw1, hw2,
      Or.inl ⟨rfl, rfl⟩⟩
  · by_cases hskip : (tm.tests a).skip = 0
    · have hfind := find_suite_chain_lookup char_signed sm chains hch fuel hfuel
        (tm.tests a).ssname
      have hin1 : (after_teardown code tm sm
          (chain_lookup char_signed sm chains (tm.tests a).ssname) a s1).2.1.err.written_end ≤
          MSG_SIZE := hfit hskip s1 hw1
      have hin2 : (after_teardown code tm sm
          (chain_lookup char_signed sm chains (tm.tests a).ssname) a s2).2.1.err.written_end ≤
          MSG_SIZE := hfit hskip s2 hw2
      have e1 := run_body_of_protected char_signed code fuel tm sm a s1 r _ hsel1 hr hskip hfind
        hin1
      have e2 := run_body_of_protected char_signed code fuel tm sm a s2 r _ hsel2 hr hskip hfind
        hin2
      have hsameo := after_teardown_fst_fixed code hfix tm sm
        (chain_lookup char_signed sm chains (tm.tests a).ssname) a s1 s2
      refine ⟨_, _, e1, e2, hin1, hin2, Or.inr ⟨_, rfl, ?_⟩⟩
      show s2.statics.record _ = s2.statics.record _
      rw [hsameo]
    · refine ⟨{ statics := s1.statics.record Verdict.skipped
                world := { s1.world with err := reset_errorbuffer s1.world.err }
                out := s1.out ++ [Event.test_header a s1.statics.idx s1.statics.total] ++
                  [Event.skipped]
                ctest_err := s1.ctest_err },
        { statics := s2.statics.record Verdict.skipped
          world := { s2.world with err := reset_errorbuffer s2.world.err }
          out := s2.out ++ [Event.test_header a s2.statics.idx s2.statics.total] ++
            [Event.skipped]
          ctest_err := s2.ctest_err }, ?_, ?_, hw1, hw2, Or.inr ⟨Verdict.skipped, rfl, rfl⟩⟩
      · simp only [run_body, hsel1, hr, hskip, ne_eq, not_false_eq_true, if_true]; rfl
      · simp only [run_body, hsel2, hr, hskip, ne_eq, not_false_eq_true, if_true]; rfl

/-- The second loop in two runs of a program whose functions behave the same on every
call and keep their messages inside the scratch buffer, started with the same filter: the
same outcomes are recorded, in the same order. -/
theorem run_loop_same_verdicts {σ : Type} (char_signed : Bool) (code : Nat → Stage σ)
    (hfix : OutcomeFixed code) (fuel : Nat)
    (tm : TestMem) (sm : SuiteMem) (chains : Nat → List Nat) (hch : sm.Chains chains)
    (hfuel : ∀ i, i < HASH_SIZE → (chains i).length < fuel) (l : List Nat)
    (hfit : RunInBounds char_signed code tm sm chains l) :
    ∀ s1 s2 : DriverState σ, s1.statics.Consistent →
      s2.statics.filter = s1.statics.filter → s2.statics.suite_name = s1.statics.suite_name →
      s1.world.err.written_end ≤ MSG_SIZE → s2.world.err.written_end ≤ MSG_SIZE →
      ∃ (t1 t2 : DriverState σ) (vs : List Verdict),
        fold_entries (run_body char_signed code fuel tm sm) l s1 = some (Sum.inl t1) ∧
        fold_entries (run_body char_signed code fuel tm sm) l s2 = some (Sum.inl t2) ∧
        t1.statics = vs.foldl Statics.record s1.statics ∧
        t2.statics = vs.foldl Statics.record s2.statics ∧
        vs.length ≤ l.length ∧
        t1.world.err.written_end ≤ MSG_SIZE ∧ t2.world.err.written_end ≤ MSG_SIZE := by
  induction l with
  | nil =>
    intro s1 s2 _ _ _ hw1 hw2
    exact ⟨s1, s2, [], rfl, rfl, rfl, rfl, Nat.le_refl _, hw1, hw2⟩
  | cons a l ih =>
    intro s1 s2 hok hf hn hw1 hw2
    have hfit2 : RunInBounds char_signed code tm sm chains l :=
      fun b hb => hfit b (List.mem_cons_of_mem _ hb)
    obtain ⟨u1, u2, h1, h2, hu1, hu2, hcase⟩ := run_body_same_verdict char_signed code hfix
      fuel tm sm chains hch hfuel a s1 s2 hok hf hn hw1 hw2
      (fun hskip => hfit a (List.mem_cons_self _ _) hskip)
    rcases hcase with ⟨g1, g2⟩ | ⟨v, g1, g2⟩
    · obtain ⟨t1, t2, vs, k1, k2, k3, k4, k5, k6⟩ := ih hfit2 u1 u2 (by rw [g1]; exact hok)
        (by rw [g1, g2]; exact hf) (by rw [g1, g2]; exact hn) hu1 hu2
      refine ⟨t1, t2, vs, ?_, ?_, by rw [k3, g1], by rw [k4, g2], ?_, k6⟩
      · simp only [fold_entries, h1]; exact k1
      · simp only [fold_entries, h2]; exact k2
      · simp only [List.length_cons]; omega
    · obtain ⟨a1, a2, _⟩ := record_frame s1.statics v
      obtain ⟨b1, b2, _⟩ := record_frame s2.statics v
      obtain ⟨t1, t2, vs, k1, k2, k3, k4, k5, k6⟩ := ih hfit2 u1 u2
        (by intro hc; rw [g1, a2]; exact hok (by rw [← a1, ← g1]; exact hc))
        (by rw [g1, g2, a1, b1]; exact hf) (by rw [g1, g2, a2, b2]; exact hn) hu1 hu2
      refine ⟨t1, t2, v :: vs, ?_, ?_, by rw [k3, g1]; rfl, by rw [k4, g2]; rfl, ?_, k6⟩
      · simp only [fold_entries, h1]; exact k1
      · simp only [fold_entries, h2]; exact k2
      · simp only [List.length_cons]; omega

theorem select_filter_again (argv : List (List Nat)) (st st2 : Statics)
    (hf : st2.filter = (select_filter argv st).filter)
    (hn : st2.suite_name = (select_filter argv st).suite_name) :
    (select_filter argv st2).filter = (select_filter argv st).filter ∧
      (select_filter argv st2).suite_name = (select_filter argv st).suite_name := by
  unfold select_filter at hf hn ⊢
  by_cases h : argv.length = 2
  · simp only [h, if_true, and_self]
  · simp only [h, if_false] at hf hn ⊢
    exact ⟨hf, hn⟩

/-- One call of `ctest_main` from any values of the static variables that leave room for
the tests of the registry, of tests whose messages fit the scratch buffer: the counters go
up from the values they had. -/
theorem ctest_main_call {σ : Type} (char_signed : Bool) (code : Nat → Stage σ) (isatty : Int)
    (fuel : Nat) (tm : TestMem) (sm : SuiteMem) (argv : List (List Nat)) (s : DriverState σ)
    (l : List Nat) (chains : Nat → List Nat)
    (hl : tm.Holds l) (hch : sm.Chains chains) (hfl : l.length < fuel)
    (hfuel : ∀ i, i < HASH_SIZE → (chains i).length < fuel)
    (hok0 : (select_filter argv s.statics).Consistent) (hroom : s.statics.Room l.length)
    (hstart : s.world.err.written_end ≤ MSG_SIZE)
    (hfit : RunInBounds char_signed code tm sm chains l) :
    ∃ (t : DriverState σ) (evs : List Event) (vs : List Verdict),
      ctest_main char_signed code isatty fuel tm sm argv s = some (t.statics.num_fail, t) ∧
      t.out = s.out ++ evs ∧
      evs.filterMap Event.header_test =
        l.filter (fun a => (select_filter argv s.statics).selects (tm.tests a)) ∧
      evs.count Event.fail = vs.count Verdict.failed ∧
      vs.length =
        (l.filter (fun a => (select_filter argv s.statics).selects (tm.tests a))).length ∧
      t.statics.num_ok = s.statics.num_ok + vs.count Verdict.passed ∧
      t.statics.num_fail = s.statics.num_fail + vs.count Verdict.failed ∧
      t.statics.num_skip = s.statics.num_skip + vs.count Verdict.skipped ∧
      t.statics.total = s.statics.total +
        (l.filter (fun a => (select_filter argv s.statics).selects (tm.tests a))).length ∧
      t.statics.filter = (select_filter argv s.statics).filter ∧
      t.statics.suite_name = (select_filter argv s.statics).suite_name ∧
      t.world.err.written_end ≤ MSG_SIZE := by
  obtain ⟨⟨r1, r2⟩, ⟨r3, r4⟩, ⟨r5, r6⟩, ⟨r7, r8⟩⟩ := hroom
  obtain ⟨st1, s2, vs, evs, hrun, hfilt, hname, g1, g2, g3, _, htot, hst, hlen, hout, hhead,
      hfail, hend⟩ :=
    ctest_main_run char_signed code isatty fuel tm sm argv s l chains hl hch hfl hfuel hok0
      hstart hfit
  have hle : (l.filter (fun a => (select_filter argv s.statics).selects (tm.tests a))).length ≤
      l.length := List.length_filter_le _ _
  have hvs : (vs.length : Int) ≤ l.length := by rw [hlen]; exact_mod_cast hle
  obtain ⟨c1, c2, c3⟩ := foldl_record_counters vs st1
    (by rw [g1]; constructor <;> omega) (by rw [g2]; constructor <;> omega)
    (by rw [g3]; constructor <;> omega)
  obtain ⟨f1, f2, f3⟩ := foldl_record_frame vs st1
  have htot2 := htot (by omega) r2
  obtain ⟨evsF, hE⟩ : ∃ evsF, evsF = evs ++ [Event.results s2.statics.total s2.statics.num_ok
      s2.statics.num_fail s2.statics.num_skip] := ⟨_, rfl⟩
  refine ⟨{ s2 with out := s2.out ++ [Event.results s2.statics.total s2.statics.num_ok
      s2.statics.num_fail s2.statics.num_skip] }, evsF, vs, hrun, ?_, ?_, ?_, hlen, ?_, ?_, ?_,
      ?_, ?_, ?_, hend⟩
  · show s2.out ++ _ = _
    rw [hE, hout, List.append_assoc]
  · rw [hE, List.filterMap_append, hhead]
    simp [Event.header_test]
  · rw [hE, List.count_append, hfail]
    simp
  · show s2.statics.num_ok = _
    rw [hst, c1, g1]
  · show s2.statics.num_fail = _
    rw [hst, c2, g2]
  · show s2.statics.num_skip = _
    rw [hst, c3, g3]
  · show s2.statics.total = _
    rw [hst, f3, htot2]
  · show s2.statics.filter = _
    rw [hst, f1, hfilt]
  · show s2.statics.suite_name = _
    rw [hst, f2, hname]

/-- One call of `ctest_main` from any values of the static variables: the progress lines
count on from the value `idx` has, and show the total that the first loop has added to. -/
theorem ctest_main_call_index {σ : Type} (char_signed : Bool) (code : Nat → Stage σ)
    (isatty : Int) (fuel : Nat) (tm : TestMem) (sm : SuiteMem) (argv : List (List Nat))
    (s : DriverState σ) (l : List Nat) (chains : Nat → List Nat)
    (hl : tm.Holds l) (hch : sm.Chains chains) (hfl : l.length < fuel)
    (hfuel : ∀ i, i < HASH_SIZE → (chains i).length < fuel)
    (hok0 : (select_filter argv s.statics).Consistent)
    (ht : 0 ≤ s.statics.total ∧ s.statics.total + l.length ≤ 2 ^ 31 - 1)
    (hi : 0 ≤ s.statics.idx ∧ s.statics.idx + l.length ≤ 2 ^ 31 - 1)
    (hstart : s.world.err.written_end ≤ MSG_SIZE)
    (hfit : RunInBounds char_signed code tm sm chains l) :
    ∃ (t : DriverState σ) (evs : List Event),
      ctest_main char_signed code isatty fuel tm sm argv s = some (t.statics.num_fail, t) ∧
      t.out = s.out ++ evs ∧
      evs.filterMap Event.header =
        header_lines s.statics.idx
          (s.statics.total +
            (l.filter (fun a => (select_filter argv s.statics).selects (tm.tests a))).length)
          (l.filter (fun a => (select_filter argv s.statics).selects (tm.tests a))) ∧
      t.statics.idx = s.statics.idx +
        (l.filter (fun a => (select_filter argv s.statics).selects (tm.tests a))).length := by
  obtain ⟨c1, _, _, _, c5⟩ := select_filter_counters argv s.statics
  obtain ⟨st1, hcount, f1, f2, _, _, _, f6, hT⟩ :=
    count_loop tm l (select_filter argv s.statics) hok0
  have htot := hT (by rw [c1]; omega) (by rw [c1]; exact ht.2)
  rw [c1] at htot
  have hidx1 : st1.idx = s.statics.idx := by rw [f6, c5]
  have hok1 : st1.Consistent := by
    intro hf; rw [f2]; exact hok0 (by rw [← f1]; exact hf)
  have hsame : ∀ t, st1.selects t = (select_filter argv s.statics).selects t := fun t =>
    selects_congr _ st1 f1 f2 t
  obtain ⟨s2, evs, hrun, hout, hhead, hidx2, htot2⟩ :=
    run_loop_indices char_signed code fuel tm sm chains hch hfuel l hfit
      { statics := st1, world := { s.world with color_output := isatty }, out := s.out,
        ctest_err := s.ctest_err } hok1 hstart
      (by show -2 ^ 31 ≤ st1.idx; rw [hidx1]; omega)
      (by show st1.idx + (l.length : Int) ≤ 2 ^ 31 - 1; rw [hidx1]; exact hi.2)
  simp only [hsame, hidx1, htot] at hhead hidx2 htot2
  have hrun2 := ctest_main_of_folds char_signed code isatty fuel tm sm argv s l st1 s2 hl hfl
    hcount hrun
  refine ⟨{ s2 with out := s2.out ++ [Event.results s2.statics.total s2.statics.num_ok
      s2.statics.num_fail s2.statics.num_skip] },
    evs ++ [Event.results s2.statics.total s2.statics.num_ok
      s2.statics.num_fail s2.statics.num_skip], hrun2, ?_, ?_, hidx2⟩
  · show s2.out ++ _ = _
    rw [hout, List.append_assoc]
  · rw [List.filterMap_append, hhead]
    simp [Event.header]

/-- Two calls of `ctest_main` with the same arguments, the first one with the static
variables at their initialisers, for a program whose functions behave the same on every
call and keep their messages inside the scratch buffer: the second call returns twice what
the first returns. -/
theorem two_calls_fixed {σ : Type} (char_signed : Bool) (code : Nat → Stage σ)
    (hfix : OutcomeFixed code) (isatty : Int) (fuel : Nat) (tm : TestMem) (sm : SuiteMem)
    (argv : List (List Nat)) (s : DriverState σ) (l : List Nat) (chains : Nat → List Nat)
    (hl : tm.Holds l) (hch : sm.Chains chains) (hfl : l.length < fuel)
    (hfuel : ∀ i, i < HASH_SIZE → (chains i).length < fuel)
    (hsize : 2 * l.length < 2 ^ 31) (hfirst : s.statics = Statics.initial)
    (hstart : s.world.err.written_end ≤ MSG_SIZE)
    (hfit : RunInBounds char_signed code tm sm chains l) :
    ∃ ta tb : DriverState σ,
      ctest_main char_signed code isatty fuel tm sm argv s = some (ta.statics.num_fail, ta) ∧
      ctest_main char_signed code isatty fuel tm sm argv ta = some (tb.statics.num_fail, tb) ∧
      tb.statics.num_fail = 2 * ta.statics.num_fail := by
  have hsz : (2 : Int) * l.length < 2 ^ 31 := by exact_mod_cast hsize
  have hok : s.statics.Consistent := by
    rw [hfirst]; intro h; cases h
  have hok0 := select_filter_consistent argv s.statics hok
  obtain ⟨_, a2, a3, a4, _⟩ := select_filter_counters argv s.statics
  obtain ⟨st1a, hca, fa1, fa2, fa3, fa4, fa5, _, _⟩ :=
    count_loop tm l (select_filter argv s.statics) hok0
  have hokA : st1a.Consistent := by
    intro hf; rw [fa2]; exact hok0 (by rw [← fa1]; exact hf)
  obtain ⟨ua, _, vs0, hfa, _, hua, _, _, hwa, _⟩ :=
    run_loop_same_verdicts char_signed code hfix fuel tm sm chains hch hfuel l hfit
      { statics := st1a, world := { s.world with color_output := isatty }, out := s.out,
        ctest_err := s.ctest_err }
      { statics := st1a, world := { s.world with color_output := isatty }, out := s.out,
        ctest_err := s.ctest_err }
      hokA rfl rfl hstart hstart
  have hmain_a := ctest_main_of_folds char_signed code isatty fuel tm sm argv s l st1a ua hl hfl
    hca hfa
  obtain ⟨g1, g2, _⟩ := foldl_record_frame vs0 st1a
  have huf : ua.statics.filter = (select_filter argv s.statics).filter := by
    rw [hua]; show (vs0.foldl Statics.record st1a).filter = _; rw [g1, fa1]
  have hun : ua.statics.suite_name = (select_filter argv s.statics).suite_name := by
    rw [hua]; show (vs0.foldl Statics.record st1a).suite_name = _; rw [g2, fa2]
  obtain ⟨e1, e2⟩ := select_filter_again argv s.statics ua.statics huf hun
  have hokB0 : (select_filter argv ua.statics).Consistent := by
    intro hf; rw [e2]; exact hok0 (by rw [← e1]; exact hf)
  obtain ⟨_, b2, b3, b4, _⟩ := select_filter_counters argv ua.statics
  obtain ⟨st1b, hcb, fb1, fb2, fb3, fb4, fb5, _, _⟩ :=
    count_loop tm l (select_filter argv ua.statics) hokB0
  obtain ⟨t1, t2, vs, k1, k2, k3, k4, k5, _⟩ :=
    run_loop_same_verdicts char_signed code hfix fuel tm sm chains hch hfuel l hfit
      { statics := st1a, world := { s.world with color_output := isatty }, out := s.out,
        ctest_err := s.ctest_err }
      { statics := st1b, world := { ua.world with color_output := isatty },
        out := ua.out ++ [Event.results ua.statics.total ua.statics.num_ok
          ua.statics.num_fail ua.statics.num_skip],
        ctest_err := ua.ctest_err }
      hokA (by show st1b.filter = st1a.filter; rw [fb1, e1, fa1])
      (by show st1b.suite_name = st1a.suite_name; rw [fb2, e2, fa2]) hstart hwa
  have ht1 : t1 = ua := by
    rw [hfa] at k1
    exact (Sum.inl.inj (Option.some.inj k1)).symm
  subst ht1
  have hmain_b := ctest_main_of_folds char_signed code isatty fuel tm sm argv
    { t1 with out := t1.out ++ [Event.results t1.statics.total t1.statics.num_ok
        t1.statics.num_fail t1.statics.num_skip] } l st1b t2 hl hfl hcb k2
  have hvs : (vs.length : Int) ≤ l.length := by exact_mod_cast k5
  have z1 : st1a.num_ok = 0 := by rw [fa3, a2, hfirst]; rfl
  have z2 : st1a.num_fail = 0 := by rw [fa4, a3, hfirst]; rfl
  have z3 : st1a.num_skip = 0 := by rw [fa5, a4, hfirst]; rfl
  obtain ⟨c1, c2, c3⟩ := foldl_record_counters vs st1a
    (by rw [z1]; constructor <;> omega) (by rw [z2]; constructor <;> omega)
    (by rw [z3]; constructor <;> omega)
  have n1 : (vs.count Verdict.passed : Int) ≤ vs.length := by
    exact_mod_cast List.count_le_length _ _
  have n2 : (vs.count Verdict.failed : Int) ≤ vs.length := by
    exact_mod_cast List.count_le_length _ _
  have n3 : (vs.count Verdict.skipped : Int) ≤ vs.length := by
    exact_mod_cast List.count_le_length _ _
  have y1 : st1b.num_ok = vs.count Verdict.passed := by
    rw [fb3, b2, k3, c1, z1, zero_add]
  have y2 : st1b.num_fail = vs.count Verdict.failed := by
    rw [fb4, b3, k3, c2, z2, zero_add]
  have y3 : st1b.num_skip = vs.count Verdict.skipped := by
    rw [fb5, b4, k3, c3, z3, zero_add]
  obtain ⟨_, d2, _⟩ := foldl_record_counters vs st1b
    (by rw [y1]; constructor <;> omega) (by rw [y2]; constructor <;> omega)
    (by rw [y3]; constructor <;> omega)
  refine ⟨{ t1 with out := t1.out ++ [Event.results t1.statics.total t1.statics.num_ok
        t1.statics.num_fail t1.statics.num_skip] },
    { t2 with out := t2.out ++ [Event.results t2.statics.total t2.statics.num_ok
        t2.statics.num_fail t2.statics.num_skip] }, hmain_a, hmain_b, ?_⟩
  show t2.statics.num_fail = 2 * t1.statics.num_fail
  rw [k4, k3, d2, c2, y2, z2]
  ring

theorem room_initial (n : Nat) (h : (n : Int) ≤ 2 ^ 31 - 1) : Statics.initial.Room n := by
  refine ⟨⟨?_, ?_⟩, ⟨?_, ?_⟩, ⟨?_, ?_⟩, ⟨?_, ?_⟩⟩ <;> simp only [Statics.initial] <;> omega

theorem main_result_inj {σ : Type} {x : Option (Int × DriverState σ)} {r1 r2 : Int}
    {t1 t2 : DriverState σ} (h1 : x = some (r1, t1)) (h2 : x = some (r2, t2)) :
    r1 = r2 ∧ t1 = t2 := by
  rw [h1] at h2
  exact ⟨(Prod.mk.inj (Option.some.inj h2)).1, (Prod.mk.inj (Option.some.inj h2)).2⟩

/-- C22: the static variables of `ctest_main` keep their values from one call to the
next.  For a first call in a process (the static variables at their initialisers, nothing
stored past the scratch buffer) on a registry `l` with `2 * |l| < 2^31 - 1`, of tests whose
messages fit the scratch buffer, and a second call with the same arguments: both
return; the second selects the same tests, returns the first call's return value plus the
number of `[FAIL]` outcomes of the second run, prints progress lines that count on from
where the first run stopped, of a total twice that of the first run; when the functions of
the program behave the same on every call it returns twice the first call's return value.
And after a first call with the single argument `F`, a second call without argument still
has the filter installed with the string `F`, and prints its progress lines for exactly
the tests whose suite name starts with `F`. -/
theorem statics_persist_across_calls {σ : Type} (char_signed : Bool) (code : Nat → Stage σ)
    (isatty : Int) (fuel : Nat) (tm : TestMem) (sm : SuiteMem) (argv : List (List Nat))
    (prog F : List Nat) (s : DriverState σ) (l : List Nat) (chains : Nat → List Nat)
    (hl : tm.Holds l) (hch : sm.Chains chains) (hfl : l.length < fuel)
    (hfuel : ∀ i, i < HASH_SIZE → (chains i).length < fuel)
    (hsize : 2 * l.length < 2 ^ 31 - 1) (hfirst : s.statics = Statics.initial)
    (hstart : s.world.err.written_end ≤ MSG_SIZE)
    (hfit : RunInBounds char_signed code tm sm chains l) :
    (∃ (r1 : Int) (t1 : DriverState σ) (evs1 : List Event) (r2 : Int) (t2 : DriverState σ)
        (evs2 : List Event),
      ctest_main char_signed code isatty fuel tm sm argv s = some (r1, t1) ∧
      t1.out = s.out ++ evs1 ∧
      ctest_main char_signed code isatty fuel tm sm argv t1 = some (r2, t2) ∧
      t2.out = t1.out ++ evs2 ∧
      r1 = (evs1.count Event.fail : Int) ∧
      r2 = r1 + (evs2.count Event.fail : Int) ∧
      t1.statics.total =
        ((l.filter (fun a => (select_filter argv s.statics).selects (tm.tests a))).length :
          Int) ∧
      t2.statics.total = 2 * t1.statics.total ∧
      evs2.filterMap Event.header =
        header_lines (1 + t1.statics.total) (2 * t1.statics.total)
          (l.filter (fun a => (select_filter argv s.statics).selects (tm.tests a))) ∧
      (OutcomeFixed code → r2 = 2 * r1)) ∧
    (∃ (r1 : Int) (t1 : DriverState σ) (r2 : Int) (t2 : DriverState σ) (evs2 : List Event),
      ctest_main char_signed code isatty fuel tm sm [prog, F] s = some (r1, t1) ∧
      ctest_main char_signed code isatty fuel tm sm [prog] t1 = some (r2, t2) ∧
      t2.out = t1.out ++ evs2 ∧
      t1.statics.filter = ctest_filter_func.suite_filter ∧ t1.statics.suite_name = some F ∧
      t2.statics.filter = ctest_filter_func.suite_filter ∧ t2.statics.suite_name = some F ∧
      evs2.filterMap Event.header_test =
        l.filter (fun a => decide (cstr F <+: cstr (tm.tests a).ssname))) := by
  have hsz : (2 : Int) * l.length < 2 ^ 31 - 1 := by omega
  have hok : s.statics.Consistent := by
    rw [hfirst]; intro h; cases h
  have hroom : s.statics.Room l.length := by
    rw [hfirst]; exact room_initial _ (by omega)
  have hz : s.statics.total = 0 ∧ s.statics.num_ok = 0 ∧ s.statics.num_fail = 0 ∧
      s.statics.num_skip = 0 ∧ s.statics.idx = 1 := by
    rw [hfirst]; exact ⟨rfl, rfl, rfl, rfl, rfl⟩
  obtain ⟨z1, z2, z3, z4, z5⟩ := hz
  -- what one call from `s` with the arguments `args` leaves
  have first : ∀ args : List (List Nat),
      ∃ (t1 : DriverState σ) (evs1 : List Event),
        ctest_main char_signed code isatty fuel tm sm args s = some (t1.statics.num_fail, t1) ∧
        t1.out = s.out ++ evs1 ∧
        t1.statics.num_fail = (evs1.count Event.fail : Int) ∧
        t1.statics.total =
          ((l.filter (fun a => (select_filter args s.statics).selects (tm.tests a))).length :
            Int) ∧
        t1.statics.idx = 1 + t1.statics.total ∧
        t1.statics.filter = (select_filter args s.statics).filter ∧
        t1.statics.suite_name = (select_filter args s.statics).suite_name ∧
        t1.statics.Room l.length ∧
        t1.world.err.written_end ≤ MSG_SIZE ∧
        0 ≤ t1.statics.idx ∧ t1.statics.idx + l.length ≤ 2 ^ 31 - 1 := by
    intro args
    have hok0 := select_filter_consistent args s.statics hok
    obtain ⟨t1, evs1, vs1, h1, o1, _, c1, len1, k1, k2, k3, k4, k5, k6, k7⟩ :=
      ctest_main_call char_signed code isatty fuel tm sm args s l chains hl hch hfl hfuel hok0
        hroom hstart hfit
    obtain ⟨t1b, _, h1b, _, _, i1⟩ :=
      ctest_main_call_index char_signed code isatty fuel tm sm args s l chains hl hch hfl
        hfuel hok0 (by rw [z1]; constructor <;> omega) (by rw [z5]; constructor <;> omega)
        hstart hfit
    obtain ⟨_, ht⟩ := main_result_inj h1 h1b
    subst ht
    have hle : (l.filter (fun a => (select_filter args s.statics).selects
        (tm.tests a))).length ≤ l.length := List.length_filter_le _ _
    have hle2 : ((l.filter (fun a => (select_filter args s.statics).selects
        (tm.tests a))).length : Int) ≤ l.length := by exact_mod_cast hle
    have hvs : (vs1.length : Int) ≤ l.length := by rw [len1]; exact hle2
    have n1 : (vs1.count Verdict.passed : Int) ≤ vs1.length := by
      exact_mod_cast List.count_le_length _ _
    have n2 : (vs1.count Verdict.failed : Int) ≤ vs1.length := by
      exact_mod_cast List.count_le_length _ _
    have n3 : (vs1.count Verdict.skipped : Int) ≤ vs1.length := by
      exact_mod_cast List.count_le_length _ _
    rw [z1, zero_add] at k4
    rw [z2, zero_add] at k1
    rw [z3, zero_add] at k2
    rw [z4, zero_add] at k3
    rw [z5] at i1
    refine ⟨t1, evs1, h1, o1, by rw [k2, c1], k4, by rw [i1, k4], k5, k6, ?_, k7, ?_, ?_⟩
    · refine ⟨⟨?_, ?_⟩, ⟨?_, ?_⟩, ⟨?_, ?_⟩, ⟨?_, ?_⟩⟩ <;> omega
    · omega
    · omega
  -- what a second call with the arguments `args2` leaves, after a first one with `args`
  have second : ∀ (args args2 : List (List Nat)) (t1 : DriverState σ),
      t1.statics.filter = (select_filter args s.statics).filter →
      t1.statics.suite_name = (select_filter args s.statics).suite_name →
      (select_filter args2 t1.statics).filter = (select_filter args s.statics).filter →
      (select_filter args2 t1.statics).suite_name =
        (select_filter args s.statics).suite_name →
      t1.statics.Room l.length →
      t1.world.err.written_end ≤ MSG_SIZE →
      (0 ≤ t1.statics.idx ∧ t1.statics.idx + l.length ≤ 2 ^ 31 - 1) →
      ∃ (t2 : DriverState σ) (evs2 : List Event),
        ctest_main char_signed code isatty fuel tm sm args2 t1 =
          some (t2.statics.num_fail, t2) ∧
        t2.out = t1.out ++ evs2 ∧
        t2.statics.num_fail = t1.statics.num_fail + (evs2.count Event.fail : Int) ∧
        t2.statics.total = t1.statics.total +
          ((l.filter (fun a => (select_filter args s.statics).selects (tm.tests a))).length :
            Int) ∧
        evs2.filterMap Event.header =
          header_lines t1.statics.idx
            (t1.statics.total +
              (l.filter (fun a => (select_filter args s.statics).selects (tm.tests a))).length)
            (l.filter (fun a => (select_filter args s.statics).selects (tm.tests a))) ∧
        evs2.filterMap Event.header_test =
          l.filter (fun a => (select_filter args s.statics).selects (tm.tests a)) ∧
        t2.statics.filter = (select_filter args s.statics).filter ∧
        t2.statics.suite_name = (select_filter args s.statics).suite_name := by
    intro args args2 t1 _ _ e1 e2 hroom1 hw1 hidx1
    have hok0 := select_filter_consistent args s.statics hok
    have hokB : (select_filter args2 t1.statics).Consistent := by
      intro hf; rw [e2]; exact hok0 (by rw [← e1]; exact hf)
    have hsame : ∀ t, (select_filter args2 t1.statics).selects t =
        (select_filter args s.statics).selects t := fun t => selects_congr _ _ e1 e2 t
    obtain ⟨t2, evs2, vs2, h2, o2, hd2, c2, _, _, k2, _, k4, k5, k6, _⟩ :=
      ctest_main_call char_signed code isatty fuel tm sm args2 t1 l chains hl hch hfl hfuel
        hokB hroom1 hw1 hfit
    obtain ⟨t2b, evs2b, h2b, o2b, hh2, _⟩ :=
      ctest_main_call_index char_signed code isatty fuel tm sm args2 t1 l chains hl hch hfl
        hfuel hokB hroom1.1 hidx1 hw1 hfit
    obtain ⟨_, ht⟩ := main_result_inj h2 h2b
    subst ht
    have hev : evs2b = evs2 := List.append_cancel_left (by rw [← o2b, ← o2])
    subst hev
    simp only [hsame] at hd2 hh2 k4
    exact ⟨t2, evs2b, h2, o2, by rw [k2, c2], k4, hh2, hd2, by rw [k5, e1], by rw [k6, e2]⟩
  refine ⟨?_, ?_⟩
  · obtain ⟨t1, evs1, h1, o1, f1, tot1, idx1, hf1, hn1, hroom1, hw1, hidx1⟩ := first argv
    obtain ⟨e1, e2⟩ := select_filter_again argv s.statics t1.statics hf1 hn1
    obtain ⟨t2, evs2, h2, o2, f2, tot2, hh2, _, _, _⟩ :=
      second argv argv t1 hf1 hn1 e1 e2 hroom1 hw1 hidx1
    refine ⟨_, t1, evs1, _, t2, evs2, h1, o1, h2, o2, f1, f2, tot1, ?_, ?_, ?_⟩
    · rw [tot2, ← tot1]; ring
    · rw [hh2, idx1, ← tot1]
      congr 1
      ring
    · intro hfix
      obtain ⟨ta, tb, ha, hb, hab⟩ := two_calls_fixed char_signed code hfix isatty fuel tm sm
        argv s l chains hl hch hfl hfuel (by omega) hfirst hstart hfit
      obtain ⟨_, hta⟩ := main_result_inj h1 ha
      subst hta
      obtain ⟨_, htb⟩ := main_result_inj h2 hb
      subst htb
      exact hab
  · obtain ⟨t1, evs1, h1, _, _, _, _, hf1, hn1, hroom1, hw1, hidx1⟩ := first [prog, F]
    have hF : (select_filter [prog, F] s.statics).filter = ctest_filter_func.suite_filter ∧
        (select_filter [prog, F] s.statics).suite_name = some F := by
      simp [select_filter]
    have hone : select_filter [prog] t1.statics = t1.statics := by
      simp [select_filter]
    obtain ⟨t2, evs2, h2, o2, _, _, _, hd2, hf2, hn2⟩ :=
      second [prog, F] [prog] t1 hf1 hn1 (by rw [hone]; exact hf1) (by rw [hone]; exact hn1)
        hroom1 hw1 hidx1
    refine ⟨_, t1, _, t2, evs2, h1, h2, o2, by rw [hf1]; exact hF.1, by rw [hn1]; exact hF.2,
      by rw [hf2]; exact hF.1, by rw [hn2]; exact hF.2, ?_⟩
    rw [hd2]
    simp only [selects_with_argument]

theorem example_code_fixed_outcome : OutcomeFixed example_code_fixed := by
  intro fn arg w1 w2
  by_cases h : fn = 12
  · simp [example_code_fixed, Stage.of_stmts, exec_stmts, h]
  · simp [example_code_fixed, Stage.of_stmts, exec_stmts, h]

/-- The messages of the program with fixed outcomes fit the scratch buffer. -/
theorem example_code_fixed_in_bounds (tm : TestMem) (sm : SuiteMem) (chains : Nat → List Nat)
    (l : List Nat) : RunInBounds true example_code_fixed tm sm chains l :=
  run_in_bounds_of_short true example_code_fixed
    (fun fn _ => if fn = 12 then [Stmt.check (fun _ => true) (fun _ => some [33])] else [])
    1 1 (fun _ => rfl)
    (fun fn _ => by
      by_cases h : fn = 12
      · simp [h, Stmt.text]
      · simp [h])
    (by decide) tm sm chains l

theorem statics_persist_across_calls_witness :
    (∃ (r1 : Int) (t1 : DriverState Nat) (r2 : Int) (t2 : DriverState Nat),
      ctest_main true example_code_fixed 1 4 example_tm
        (ctest_impl_hash_init_once SuiteMem.zeroed) [[99]] example_start = some (r1, t1) ∧
      ctest_main true example_code_fixed 1 4 example_tm
        (ctest_impl_hash_init_once SuiteMem.zeroed) [[99]] t1 = some (r2, t2) ∧
      r2 = 2 * r1) ∧
    (∃ (r1 : Int) (t1 : DriverState Nat) (r2 : Int) (t2 : DriverState Nat)
        (evs2 : List Event),
      ctest_main true example_code_fixed 1 4 example_tm
        (ctest_impl_hash_init_once SuiteMem.zeroed) [[99], example_Str] example_start =
        some (r1, t1) ∧
      ctest_main true example_code_fixed 1 4 example_tm
        (ctest_impl_hash_init_once SuiteMem.zeroed) [[99]] t1 = some (r2, t2) ∧
      t2.out = t1.out ++ evs2 ∧
      t2.statics.suite_name = some example_Str ∧
      evs2.filterMap Event.header_test =
        [1, 2, 3].filter
          (fun a => decide (cstr example_Str <+: cstr (example_tm.tests a).ssname))) := by
  have h := statics_persist_across_calls true example_code_fixed 1 4 example_tm
    (ctest_impl_hash_init_once SuiteMem.zeroed) [[99]] [99] example_Str example_start
    [1, 2, 3] (fun _ => []) example_tm_holds example_empty_index_chains (by decide)
    (fun _ _ => by simp) (by norm_num) rfl (by decide) (example_code_fixed_in_bounds _ _ _ _)
  obtain ⟨⟨r1, t1, _, r2, t2, _, h1, _, h2, _, _, _, _, _, _, hfix⟩,
    ⟨q1, u1, q2, u2, evs2, g1, g2, g3, _, _, _, g7, g8⟩⟩ := h
  exact ⟨⟨r1, t1, r2, t2, h1, h2, hfix example_code_fixed_outcome⟩,
    ⟨q1, u1, q2, u2, evs2, g1, g2, g3, g7, g8⟩⟩

end Ctest
